import Mathlib

/-!
Shallow embedding of `qutip/solver/result.py`, class `MultiTrajResult`:
the streaming aggregator of Monte-Carlo trajectory results.

Modelling conventions:
* numpy float arrays are modelled as `List ℚ` (exact arithmetic in place of
  IEEE floats); `np.sqrt` appears only in the derived projection
  `std_expect`, taken with `Real.sqrt` over the stored radicand
  (`var_e_data` holds the quantity under the square root of
  `std_e_data`, which determines `std_e_data` exactly);
* a `Qobj` is modelled by `QState` (a ket vector or an operator matrix);
  `Qobj` addition is shape-checked (`qadd` returns `none` where `Qobj.__add__`
  raises on mismatched dims);
* in-place numpy `+=` on a 1-d array follows numpy broadcasting: it succeeds
  iff the right operand has the same length or length one, and raises
  (modelled as `none`) otherwise;
* Python dicts keyed by the e-op keys (`average_e_data`, `std_e_data`,
  `runs_e_data`) are modelled positionally: entry `i` is the value of the
  key `self._raw_ops[i]`; dict insertion during the loops of
  `_reduce_expect` / `__add__` happens in increasing key order, modelled by
  `dictSet`;
* exceptions raised mid-method leave the object partially mutated; the
  `Except` / `AddOutcome` error branches carry that partially mutated state;
* `Result.e_data` of a trajectory is the positional view of its `expect`
  lists, and `MultiTrajResult.e_data` is a pure alias of `average_e_data`
  or `runs_e_data` carrying no independent state, so it is not a field of
  the model;
* in `__add__` the new result is created with `stats=self.stats`, i.e. the
  merged result and the left operand share one stats dict; the model returns
  the left operand with the (mutated) shared stats alongside the merged
  result.
-/

namespace QutipResult

/-- Sequence a list of optional values; `none` as soon as one entry is `none`. -/
def allSome {α : Type} : List (Option α) → Option (List α)
  | [] => some []
  | none :: _ => none
  | some x :: rest => (allSome rest).map (fun l => x :: l)

/-- In-place numpy addition `a += b` for 1-d arrays: succeeds iff `b` has the
same length as `a` (elementwise) or length one (broadcast); otherwise numpy
raises, modelled as `none`. -/
def npAddInto (a b : List ℚ) : Option (List ℚ) :=
  if b.length = a.length then some (List.zipWith (fun x y => x + y) a b)
  else if b.length = 1 then some (a.map (fun x => x + b.headD 0))
  else none

/-- Non-in-place numpy addition `a + b` for 1-d arrays with broadcasting in
either direction. -/
def npAdd (a b : List ℚ) : Option (List ℚ) :=
  if b.length = a.length then some (List.zipWith (fun x y => x + y) a b)
  else if b.length = 1 then some (a.map (fun x => x + b.headD 0))
  else if a.length = 1 then some (b.map (fun y => a.headD 0 + y))
  else none

/-- Assignment `d[k] = v` on a Python dict modelled positionally: the loops in
`_reduce_expect` and `__add__` assign keys in increasing positional order, so
the key is either already present (`set`) or the next fresh one (append). -/
def dictSet {α : Type} (l : List α) (i : ℕ) (v : α) : List α :=
  if i < l.length then l.set i v else l ++ [v]

/-- Three-way `zipWith`, used for elementwise numpy expressions over aligned
2-d arrays. -/
def zipWith3 {α β γ δ : Type} (f : α → β → γ → δ) : List α → List β → List γ → List δ
  | a :: as', b :: bs, c :: cs => f a b c :: zipWith3 f as' bs cs
  | _, _, _ => []

/-- `np.max` over the flattened entries (numpy raises on an empty array; the
default `0` is unreachable in the uses below, where the array is nonempty). -/
def listMaxD : List ℚ → ℚ
  | [] => 0
  | x :: xs => xs.foldl max x

/-- A `Qobj` as far as this file observes it: a ket (pure-state vector) or an
operator (matrix, e.g. a density matrix). -/
inductive QState where
  | ket (v : List ℚ)
  | oper (m : List (List ℚ))
deriving DecidableEq

/-- `Qobj.type`. -/
def QState.qtype : QState → String
  | .ket _ => "ket"
  | .oper _ => "oper"

/-- `Qobj.proj`: the projector (outer product) of a ket. -/
def QState.proj : QState → QState
  | .ket v => .oper (v.map (fun a => v.map (fun b => a * b)))
  | s => s

/-- `MultiTrajResult._to_dm`. -/
def toDM (s : QState) : QState :=
  if s.qtype = "ket" then s.proj else s

/-- `qzero_like`: the zero object with the same shape. -/
def qzeroLike : QState → QState
  | .ket v => .ket (v.map (fun _ => 0))
  | .oper m => .oper (m.map (fun row => row.map (fun _ => 0)))

/-- Row-length profile of a matrix, standing in for `Qobj.dims`. -/
def matShape (m : List (List ℚ)) : List ℕ := m.map List.length

/-- `Qobj.__add__`: defined for equal shapes, raises otherwise (`none`). -/
def qadd : QState → QState → Option QState
  | .ket a, .ket b =>
      if a.length = b.length
      then some (.ket (List.zipWith (fun x y => x + y) a b))
      else none
  | .oper a, .oper b =>
      if matShape a = matShape b
      then some (.oper (List.zipWith (fun ra rb => List.zipWith (fun x y => x + y) ra rb) a b))
      else none
  | _, _ => none

/-- `Qobj.__truediv__` by a scalar. -/
def qdiv (s : QState) (n : ℚ) : QState :=
  match s with
  | .ket v => .ket (v.map (fun x => x / n))
  | .oper m => .oper (m.map (fun row => row.map (fun x => x / n)))

/-- The solver `stats` dict, restricted to the two entries this file touches:
`"run time"` and `"end_condition"`. -/
structure Stats where
  run_time : ℚ
  end_condition : String
deriving DecidableEq

/-- The result options consumed by `MultiTrajResult`. -/
structure Options where
  store_states : Option Bool
  store_final_state : Bool
  keep_runs_results : Bool
deriving DecidableEq

/-- Options storing nothing beyond the running expectation sums. -/
def plainOpts : Options :=
  { store_states := some false, store_final_state := false, keep_runs_results := false }

/-- A single-trajectory `Result` as consumed by `MultiTrajResult.add`:
`times`, optional `states` and `final_state`, and one expectation-value list
per e-op (`expect`, positionally aligned with `_raw_ops`; `e_data[k]` is the
same list). -/
structure Traj where
  times : List ℚ
  states : List QState
  final_state : Option QState
  expect : List (List ℚ)
deriving DecidableEq

/-- Which `_early_finish_check` is installed. -/
inductive Policy where
  | noEnd
  | fixedEnd
  | targetTolEnd
deriving DecidableEq

/-- The value returned by `add`: `np.inf` or a finite number. -/
inductive Rem where
  | inf
  | val (q : ℚ)
deriving DecidableEq

/-- The mutable state of a `MultiTrajResult` instance.  `var_e_data` stores,
for each key, the radicand `|avg2 - |avg^2||` whose pointwise square root the
source stores as `std_e_data`. -/
structure MultiTrajResult where
  raw_ops : List ℕ
  opts : Options
  times : List ℚ
  trajectories : List Traj
  num_trajectories : ℕ
  seeds : List ℕ
  sum_states : Option (List QState)
  sum_final_states : Option QState
  sum_expect : Option (List (List ℚ))
  sum2_expect : Option (List (List ℚ))
  target_tols : Option (List (ℚ × ℚ))
  average_e_data : List (List ℚ)
  var_e_data : List (List ℚ)
  runs_e_data : List (List (List ℚ))
  target_ntraj : Option ℤ
  estimated_ntraj : Option ℚ
  policy : Policy
  stats : Stats
deriving DecidableEq

/-- `MultiTrajResult.__init__` followed by `_post_init` (processor
registration is re-derived from `opts` at each `add`, which is equivalent
since `opts` is never mutated). -/
def mkResult (raw_ops : List ℕ) (opts : Options) (stats : Stats) : MultiTrajResult :=
  { raw_ops := raw_ops
    opts := opts
    times := []
    trajectories := []
    num_trajectories := 0
    seeds := []
    sum_states := none
    sum_final_states := none
    sum_expect := none
    sum2_expect := none
    target_tols := none
    average_e_data := []
    var_e_data := []
    runs_e_data := []
    target_ntraj := none
    estimated_ntraj := none
    policy := .noEnd
    stats := { stats with end_condition := "unknown" } }

/-- Effective `store_states` (`None` defaults to "no e_ops present"). -/
def MultiTrajResult.storeStates (r : MultiTrajResult) : Bool :=
  r.opts.store_states.getD r.raw_ops.isEmpty

/-- `MultiTrajResult._add_first_traj`. -/
def addFirstTraj (r : MultiTrajResult) (t : Traj) : MultiTrajResult :=
  let r1 := { r with times := t.times }
  let r2 := if t.states.isEmpty then r1
            else { r1 with sum_states := some (t.states.map (fun s => qzeroLike (toDM s))) }
  let r3 := match t.final_state with
            | none => r2
            | some fs => { r2 with sum_final_states := some (qzeroLike (toDM fs)) }
  let zeros := t.expect.map (fun row => row.map (fun _ => (0 : ℚ)))
  let r4 := { r3 with sum_expect := some zeros, sum2_expect := some zeros }
  let r5 := { r4 with average_e_data := List.zipWith (fun _ z => z) r4.raw_ops zeros }
  if r5.opts.keep_runs_results then { r5 with runs_e_data := r5.raw_ops.map (fun _ => []) }
  else r5

/-- `MultiTrajResult._increment_traj`. -/
def incrementTraj (r : MultiTrajResult) (t : Traj) : MultiTrajResult :=
  let r1 := if r.num_trajectories = 0 then addFirstTraj r t else r
  { r1 with num_trajectories := r1.num_trajectories + 1 }

/-- `MultiTrajResult._reduce_states`: `zip` truncates like Python `zip`; a
`None` accumulator or a dims mismatch inside `Qobj.__add__` raises, leaving
`_sum_states` unassigned (the comprehension is built before assignment). -/
def reduceStates (r : MultiTrajResult) (t : Traj) : Except MultiTrajResult MultiTrajResult :=
  match r.sum_states with
  | none => .error r
  | some sums =>
    match allSome (List.zipWith (fun accu s => qadd accu (toDM s)) sums t.states) with
    | some l => .ok { r with sum_states := some l }
    | none => .error r

/-- `MultiTrajResult._reduce_final_state`: raises if the trajectory has no
final state, if the accumulator is still `None`, or on a dims mismatch. -/
def reduceFinalState (r : MultiTrajResult) (t : Traj) : Except MultiTrajResult MultiTrajResult :=
  match t.final_state, r.sum_final_states with
  | some fs, some acc =>
      match qadd acc (toDM fs) with
      | some s => .ok { r with sum_final_states := some s }
      | none => .error r
  | _, _ => .error r

/-- One iteration of the loop in `MultiTrajResult._reduce_expect` for e-op
index `i`; errors carry the partially mutated state. -/
def reduceExpectStep (t : Traj) (r : MultiTrajResult) (i : ℕ) :
    Except MultiTrajResult MultiTrajResult :=
  match t.expect[i]? with
  | none => .error r
  | some expect_traj =>
    match (r.sum_expect.getD [])[i]?, (r.sum2_expect.getD [])[i]? with
    | some si, some s2i =>
      match npAddInto si expect_traj with
      | none => .error r
      | some si' =>
        let r1 := { r with sum_expect := some ((r.sum_expect.getD []).set i si') }
        match npAddInto s2i (expect_traj.map (fun x => x ^ 2)) with
        | none => .error r1
        | some s2i' =>
          let r2 := { r1 with sum2_expect := some ((r1.sum2_expect.getD []).set i s2i') }
          let n : ℚ := (r2.num_trajectories : ℚ)
          let avg := si'.map (fun x => x / n)
          let avg2 := s2i'.map (fun x => x / n)
          let varRow := List.zipWith (fun a2 a => abs (a2 - abs (a ^ 2))) avg2 avg
          let r3 := { r2 with average_e_data := dictSet r2.average_e_data i avg
                              var_e_data := dictSet r2.var_e_data i varRow }
          if r3.runs_e_data.isEmpty then .ok r3
          else .ok { r3 with
            runs_e_data := dictSet r3.runs_e_data i ((r3.runs_e_data.getD i []) ++ [expect_traj]) }
    | _, _ => .error r

/-- The `for i, k in enumerate(self._raw_ops)` loop of `_reduce_expect`. -/
def reduceExpectAux (t : Traj) : List ℕ → MultiTrajResult → Except MultiTrajResult MultiTrajResult
  | [], r => .ok r
  | i :: is', r =>
    match reduceExpectStep t r i with
    | .error r' => .error r'
    | .ok r' => reduceExpectAux t is' r'

/-- `MultiTrajResult._reduce_expect`. -/
def reduceExpect (t : Traj) (r : MultiTrajResult) : Except MultiTrajResult MultiTrajResult :=
  reduceExpectAux t (List.range r.raw_ops.length) r

/-- `MultiTrajResult._fixed_end` (`_target_ntraj` is always set before this
check is installed; `getD 0` is unreachable). -/
def fixedEnd (r : MultiTrajResult) : MultiTrajResult × Rem :=
  let left : ℤ := r.target_ntraj.getD 0 - (r.num_trajectories : ℤ)
  if left = 0 then
    ({ r with stats := { r.stats with end_condition := "ntraj reached" } }, .val (left : ℚ))
  else (r, .val (left : ℚ))

/-- Local `avg` of `_target_tolerance_end`:
`np.array(self._sum_expect) / self.num_trajectories`. -/
def tolAvg (r : MultiTrajResult) : List (List ℚ) :=
  (r.sum_expect.getD []).map (fun row => row.map (fun x => x / (r.num_trajectories : ℚ)))

/-- Local `avg2` of `_target_tolerance_end`. -/
def tolAvg2 (r : MultiTrajResult) : List (List ℚ) :=
  (r.sum2_expect.getD []).map (fun row => row.map (fun x => x / (r.num_trajectories : ℚ)))

/-- Local `target` of `_target_tolerance_end`:
`atol + rtol * mean` per e-op row (note: the raw mean, not `abs(mean)`). -/
def tolTarget (r : MultiTrajResult) : List (List ℚ) :=
  List.zipWith (fun meanRow (p : ℚ × ℚ) => meanRow.map (fun mean => p.1 + p.2 * mean))
    (tolAvg r) (r.target_tols.getD [])

/-- The elementwise array `(avg2 - abs(avg)**2) / target**2 + 1`. -/
def tolRatios (r : MultiTrajResult) : List (List ℚ) :=
  zipWith3
    (fun a2Row aRow tRow =>
      zipWith3 (fun a2 a tg => (a2 - |a| ^ 2) / tg ^ 2 + 1) a2Row aRow tRow)
    (tolAvg2 r) (tolAvg r) (tolTarget r)

/-- Local `target_ntraj` (`np.max` of the ratios) of `_target_tolerance_end`. -/
def tolTargetNtraj (r : MultiTrajResult) : ℚ := listMaxD (tolRatios r).flatten

/-- `min(target_ntraj, self._target_ntraj)`. -/
def tolEst (r : MultiTrajResult) : ℚ :=
  min (tolTargetNtraj r) ((r.target_ntraj.getD 0 : ℤ) : ℚ)

/-- The value returned by `_target_tolerance_end` once more than one
trajectory is in: `self._estimated_ntraj - self.num_trajectories`. -/
def tolRem (r : MultiTrajResult) : ℚ := tolEst r - (r.num_trajectories : ℚ)

/-- `MultiTrajResult._target_tolerance_end` (its local variables are the
`tol*` definitions above).  Exact-arithmetic caveat: where the code would
divide by a zero target (numpy yields `inf`), `ℚ` division yields `0`; the
theorems below therefore assume nonzero targets. -/
def targetTolEnd (r : MultiTrajResult) : MultiTrajResult × Rem :=
  if r.num_trajectories ≤ 1 then (r, .inf)
  else
    let r1 := { r with estimated_ntraj := some (tolEst r) }
    if tolRem r ≤ 0 then
      ({ r1 with stats := { r1.stats with end_condition := "target tolerance reached" } },
       .val (tolRem r))
    else (r1, .val (tolRem r))

/-- Dispatch of `self._early_finish_check()`. -/
def earlyFinish (r : MultiTrajResult) : MultiTrajResult × Rem :=
  match r.policy with
  | .noEnd => (r, .inf)
  | .fixedEnd => fixedEnd r
  | .targetTolEnd => targetTolEnd r

/-- Outcome of `MultiTrajResult.add`: the return value on success, or the
partially mutated state at the point an exception propagates. -/
inductive AddOutcome where
  | ok (r : MultiTrajResult) (rem : Rem)
  | err (r : MultiTrajResult)
deriving DecidableEq

/-- `MultiTrajResult.add`: append the seed, run the registered processors in
registration order (`_increment_traj`, `_store_trajectory`, `_reduce_states`,
`_reduce_final_state`, `_reduce_expect`), then the early-finish check. -/
def MultiTrajResult.add (r0 : MultiTrajResult) (seed : ℕ) (t : Traj) : AddOutcome :=
  let ra := { r0 with seeds := r0.seeds ++ [seed] }
  let rb := incrementTraj ra t
  let rc := if rb.opts.keep_runs_results then { rb with trajectories := rb.trajectories ++ [t] }
            else rb
  match (if rc.storeStates then reduceStates rc t else .ok rc) with
  | .error r' => .err r'
  | .ok rd =>
    match (if rd.storeStates || rd.opts.store_final_state then reduceFinalState rd t
           else .ok rd) with
    | .error r' => .err r'
    | .ok re =>
      match (if re.raw_ops.isEmpty then .ok re else reduceExpect t re) with
      | .error r' => .err r'
      | .ok rf =>
        let p := earlyFinish rf
        .ok p.1 p.2

/-- Fold `add` over a list of `(seed, trajectory)` pairs; `none` if any add
raises. -/
def addAll (r : MultiTrajResult) : List (ℕ × Traj) → Option MultiTrajResult
  | [] => some r
  | (s, t) :: rest =>
    match r.add s t with
    | .ok r1 _ => addAll r1 rest
    | .err _ => none

/-- The accepted shapes of the `target_tol` argument. -/
inductive TolInput where
  | scalar (atol : ℚ)
  | pair (atol rtol : ℚ)
  | perOp (tols : List (ℚ × ℚ))
deriving DecidableEq

/-- `MultiTrajResult.add_end_condition`.  The assignments to `_target_ntraj`,
`stats['end_condition']` and `_estimated_ntraj` happen before the validity
checks, so a raising call still performs them; the error branch carries that
state. -/
def MultiTrajResult.addEndCondition (r0 : MultiTrajResult) (ntraj : ℤ)
    (tol : Option TolInput) : Except MultiTrajResult MultiTrajResult :=
  let r := { r0 with target_ntraj := some ntraj
                     stats := { r0.stats with end_condition := "timeout" } }
  match tol with
  | none => .ok { r with policy := .fixedEnd }
  | some tolv =>
    if r.raw_ops.length = 0 then .error r
    else
      let r1 := { r with estimated_ntraj := some ((ntraj : ℚ)) }
      match tolv with
      | .scalar a =>
          .ok { r1 with target_tols := some (List.replicate r1.raw_ops.length (a, 0))
                        policy := .targetTolEnd }
      | .pair a b =>
          .ok { r1 with target_tols := some (List.replicate r1.raw_ops.length (a, b))
                        policy := .targetTolEnd }
      | .perOp l =>
          if l.length = r1.raw_ops.length then
            .ok { r1 with target_tols := some l, policy := .targetTolEnd }
          else .error r1

/-- Outcome of `MultiTrajResult.__add__` (`a + b`).  `incompat` is the
`ValueError` of the compatibility checks (raised before anything is built, so
neither input is touched).  The merged result is created with
`stats=self.stats`, i.e. it shares the left operand's stats dict, so the left
operand is returned alongside with whatever that shared dict holds when the
method ends; `midError` is an exception later in the method (after the shared
dict was already reset to `end_condition = 'unknown'` by `_post_init`). -/
inductive MergeOutcome where
  | incompat
  | midError (selfAfter : MultiTrajResult)
  | ok (c : MultiTrajResult) (selfAfter : MultiTrajResult)
deriving DecidableEq

/-- One iteration of the merge loop of `__add__` for e-op index `i`
(`new._sum_expect.append(self._sum_expect[i] + other._sum_expect[i])`, etc.).
Partial mutation of the half-built `new` is irrelevant on error (the object
is discarded), so errors are a bare `none`. -/
def mergeExpectStep (a b : MultiTrajResult) (c : MultiTrajResult) (i : ℕ) :
    Option MultiTrajResult :=
  match (a.sum_expect.getD [])[i]?, (b.sum_expect.getD [])[i]?,
        (a.sum2_expect.getD [])[i]?, (b.sum2_expect.getD [])[i]? with
  | some sa, some sb, some s2a, some s2b =>
    match npAdd sa sb, npAdd s2a s2b with
    | some s, some s2 =>
      let c1 := { c with sum_expect := some ((c.sum_expect.getD []) ++ [s])
                         sum2_expect := some ((c.sum2_expect.getD []) ++ [s2]) }
      let n : ℚ := (c1.num_trajectories : ℚ)
      let avg := s.map (fun x => x / n)
      let avg2 := s2.map (fun x => x / n)
      let c2 := { c1 with
        average_e_data := dictSet c1.average_e_data i avg
        var_e_data := dictSet c1.var_e_data i
          (List.zipWith (fun x2 x => abs (x2 - abs (x ^ 2))) avg2 avg) }
      if c2.trajectories.isEmpty then some c2
      else
        match a.runs_e_data[i]?, b.runs_e_data[i]? with
        | some ra, some rb => some { c2 with runs_e_data := dictSet c2.runs_e_data i (ra ++ rb) }
        | _, _ => none
    | _, _ => none
  | _, _, _, _ => none

/-- The `for i, k in enumerate(self._raw_ops)` loop of `__add__`. -/
def mergeExpectAux (a b : MultiTrajResult) :
    List ℕ → MultiTrajResult → Option MultiTrajResult
  | [], c => some c
  | i :: is', c =>
    match mergeExpectStep a b c i with
    | some c' => mergeExpectAux a b is' c'
    | none => none

/-- `MultiTrajResult.__add__`.  Note `self._sum_states + other._sum_states`
is Python list concatenation (both are lists of `Qobj`), while
`self._sum_final_states + other._sum_final_states` is `Qobj` addition. -/
def MultiTrajResult.mergeAdd (a b : MultiTrajResult) : MergeOutcome :=
  if a.raw_ops ≠ b.raw_ops then .incompat
  else if a.times ≠ b.times then .incompat
  else
    let c0 := mkResult a.raw_ops a.opts a.stats
    let c1 := { c0 with
      trajectories := if ¬a.trajectories.isEmpty ∧ ¬b.trajectories.isEmpty
                      then a.trajectories ++ b.trajectories else []
      num_trajectories := a.num_trajectories + b.num_trajectories
      times := a.times
      seeds := a.seeds ++ b.seeds }
    let c2 := match a.sum_states, b.sum_states with
      | some x, some y => { c1 with sum_states := some (x ++ y) }
      | _, _ => c1
    match (match a.sum_final_states, b.sum_final_states with
           | some x, some y => (qadd x y).map some
           | _, _ => some none) with
    | none => .midError { a with stats := { a.stats with end_condition := "unknown" } }
    | some fsOpt =>
      let c3 := match fsOpt with
        | some fs => { c2 with sum_final_states := some fs }
        | none => c2
      let c4 := { c3 with target_tols := none
                          sum_expect := some []
                          sum2_expect := some []
                          average_e_data := []
                          var_e_data := [] }
      match mergeExpectAux a b (List.range a.raw_ops.length) c4 with
      | none => .midError { a with stats := { a.stats with end_condition := "unknown" } }
      | some c5 =>
        let finalStats : Stats :=
          { run_time := a.stats.run_time + b.stats.run_time
            end_condition := "Merged results" }
        .ok { c5 with stats := finalStats } { a with stats := finalStats }

/-- Projection `MultiTrajResult.average_expect`. -/
def MultiTrajResult.average_expect (r : MultiTrajResult) : List (List ℚ) :=
  r.average_e_data

/-- Projection `MultiTrajResult.std_expect`: the source stores
`np.sqrt(np.abs(avg2 - np.abs(avg**2)))`; the model stores the radicand in
`var_e_data` and takes the exact square root here. -/
noncomputable def MultiTrajResult.std_expect (r : MultiTrajResult) : List (List ℝ) :=
  r.var_e_data.map (fun row => row.map (fun (q : ℚ) => Real.sqrt (q : ℝ)))

/-- Projection `MultiTrajResult.average_states`. -/
def MultiTrajResult.average_states (r : MultiTrajResult) : Option (List QState) :=
  r.sum_states.map (fun l => l.map (fun s => qdiv s (r.num_trajectories : ℚ)))

/-- Projection `MultiTrajResult.average_final_state`. -/
def MultiTrajResult.average_final_state (r : MultiTrajResult) : Option QState :=
  r.sum_final_states.map (fun s => qdiv s (r.num_trajectories : ℚ))

/-! Specification-side sample statistics, used to state what the accumulator
fields mean in terms of the raw trajectory data. -/

/-- The expectation value of e-op `i` at time index `j` in one trajectory. -/
def entryAt (t : Traj) (i j : ℕ) : ℚ := (t.expect.getD i []).getD j 0

/-- The across-trajectory sample at `(i, j)`. -/
def samples (ts : List Traj) (i j : ℕ) : List ℚ := ts.map (fun t => entryAt t i j)

/-- Arithmetic mean of a sample. -/
def sampleMean (xs : List ℚ) : ℚ := xs.sum / (xs.length : ℚ)

/-- Population variance of a sample (mean squared deviation). -/
def popVar (xs : List ℚ) : ℚ :=
  ((xs.map (fun x => (x - sampleMean xs) ^ 2)).sum) / (xs.length : ℚ)

/-- Population standard deviation of a sample. -/
noncomputable def popStd (xs : List ℚ) : ℝ := Real.sqrt ((popVar xs : ℚ) : ℝ)

/-- What `_sum_expect` holds after ingesting `ts` (shape `m × L`). -/
def sumMat (ts : List Traj) (m L : ℕ) : List (List ℚ) :=
  (List.range m).map (fun i => (List.range L).map (fun j => (samples ts i j).sum))

/-- What `_sum2_expect` holds after ingesting `ts`. -/
def sumSqMat (ts : List Traj) (m L : ℕ) : List (List ℚ) :=
  (List.range m).map (fun i =>
    (List.range L).map (fun j => ((samples ts i j).map (fun x => x ^ 2)).sum))

/-- Mean entry `(i, j)` over `ts`. -/
def avgEntry (ts : List Traj) (i j : ℕ) : ℚ := (samples ts i j).sum / (ts.length : ℚ)

/-- Mean-of-squares entry `(i, j)` over `ts`. -/
def sqEntry (ts : List Traj) (i j : ℕ) : ℚ :=
  ((samples ts i j).map (fun x => x ^ 2)).sum / (ts.length : ℚ)

/-- What `average_e_data` holds after ingesting `ts`. -/
def avgMat (ts : List Traj) (m L : ℕ) : List (List ℚ) :=
  (List.range m).map (fun i => (List.range L).map (fun j => avgEntry ts i j))

/-- What `var_e_data` (the `std_e_data` radicand) holds after ingesting `ts`. -/
def varMat (ts : List Traj) (m L : ℕ) : List (List ℚ) :=
  (List.range m).map (fun i =>
    (List.range L).map (fun j => abs (sqEntry ts i j - abs (avgEntry ts i j ^ 2))))

/-- A trajectory of shape `m × L` over the time grid `τ`, carrying no state
snapshots (the configuration exercised by the expectation-value claims). -/
def Nice (m L : ℕ) (τ : List ℚ) (t : Traj) : Prop :=
  t.times = τ ∧ t.expect.length = m ∧ (∀ row ∈ t.expect, row.length = L) ∧
    t.states = [] ∧ t.final_state = none

instance (m L : ℕ) (τ : List ℚ) (t : Traj) : Decidable (Nice m L τ t) := by
  unfold Nice; infer_instance

/-- Invariant tying a `MultiTrajResult` built with `plainOpts` to the list of
trajectories it has ingested. -/
structure GoodRun (ops : List ℕ) (τ : List ℚ) (m L : ℕ) (ts : List Traj)
    (r : MultiTrajResult) : Prop where
  raw : r.raw_ops = ops
  hm : ops.length = m
  hopts : r.opts = plainOpts
  htimes : r.times = τ
  num : r.num_trajectories = ts.length
  sumE : r.sum_expect = some (sumMat ts m L)
  sum2E : r.sum2_expect = some (sumSqMat ts m L)
  avgD : r.average_e_data = avgMat ts m L
  varD : r.var_e_data = varMat ts m L
  runs : r.runs_e_data = []
  htrajs : r.trajectories = []
  hss : r.sum_states = none
  hsf : r.sum_final_states = none

/-- The shape of a freshly constructed `MultiTrajResult` built with
`plainOpts`, before any trajectory has been ingested (the fields that
`add_end_condition` may touch are unconstrained). -/
structure GoodStart (ops : List ℕ) (r : MultiTrajResult) : Prop where
  raw : r.raw_ops = ops
  hopts : r.opts = plainOpts
  num : r.num_trajectories = 0
  varD : r.var_e_data = []
  runs : r.runs_e_data = []
  htrajs : r.trajectories = []
  hss : r.sum_states = none
  hsf : r.sum_final_states = none

/-- Modelled from the spec and claim wording of the target-tolerance
estimate, for refinement comparison with `targetTolEnd`: per-entry target
`atol + rtol * |average|`, estimated total `ceil(max(var / target^2) + 1)`
capped by `N`, reported minus the current count. -/
def specTargetRemaining (S S2 : List (List ℚ)) (n : ℚ) (tols : List (ℚ × ℚ)) (N : ℤ) : ℚ :=
  let avg := S.map (fun row => row.map (fun x => x / n))
  let avg2 := S2.map (fun row => row.map (fun x => x / n))
  let target := List.zipWith
    (fun meanRow (p : ℚ × ℚ) => meanRow.map (fun mean => p.1 + p.2 * |mean|))
    avg tols
  let ratios := zipWith3
    (fun a2Row aRow tRow =>
      zipWith3 (fun a2 a tg => (a2 - |a| ^ 2) / tg ^ 2 + 1) a2Row aRow tRow)
    avg2 avg target
  let est : ℚ := min ((⌈listMaxD ratios.flatten⌉ : ℤ) : ℚ) ((N : ℤ) : ℚ)
  est - n

/-! Helper notions for the step-by-step characterization of `_reduce_expect`:
row `i` of the accumulators before the step is `S i` / `S2 i`, and the
functions below give the rows written by the step. -/

/-- Row `i` of a trajectory's `expect`. -/
def tRow (t : Traj) (i : ℕ) : List ℚ := t.expect.getD i []

/-- The `_sum_expect[i]` row after `+= expect_traj`. -/
def newSumRow (S : ℕ → List ℚ) (t : Traj) (i : ℕ) : List ℚ :=
  List.zipWith (fun x y => x + y) (S i) (tRow t i)

/-- The `_sum2_expect[i]` row after `+= expect_traj**2`. -/
def newSum2Row (S2 : ℕ → List ℚ) (t : Traj) (i : ℕ) : List ℚ :=
  List.zipWith (fun x y => x + y) (S2 i) ((tRow t i).map (fun x => x ^ 2))

/-- The `average_e_data[k]` row written by the step. -/
def newAvgRow (S : ℕ → List ℚ) (t : Traj) (n : ℚ) (i : ℕ) : List ℚ :=
  (newSumRow S t i).map (fun x => x / n)

/-- The `std_e_data[k]` radicand row written by the step. -/
def newVarRow (S S2 : ℕ → List ℚ) (t : Traj) (n : ℚ) (i : ℕ) : List ℚ :=
  List.zipWith (fun a2 a => abs (a2 - abs (a ^ 2)))
    ((newSum2Row S2 t i).map (fun x => x / n)) (newAvgRow S t n i)

/-- Equality of all `MultiTrajResult` fields not written by `_reduce_expect`. -/
def EqFrame (r' r : MultiTrajResult) : Prop :=
  r'.raw_ops = r.raw_ops ∧ r'.opts = r.opts ∧ r'.times = r.times ∧
  r'.trajectories = r.trajectories ∧ r'.num_trajectories = r.num_trajectories ∧
  r'.seeds = r.seeds ∧ r'.sum_states = r.sum_states ∧
  r'.sum_final_states = r.sum_final_states ∧ r'.target_tols = r.target_tols ∧
  r'.target_ntraj = r.target_ntraj ∧ r'.estimated_ntraj = r.estimated_ntraj ∧
  r'.policy = r.policy ∧ r'.stats = r.stats

/-! Concrete sample data for the claim witnesses. -/

/-- Witness trajectory 1 (one e-op, three time points). -/
def c1t1 : Traj := { times := [0, 1, 2], states := [], final_state := none, expect := [[1, 2, 3]] }

/-- Witness trajectory 2. -/
def c1t2 : Traj := { times := [0, 1, 2], states := [], final_state := none, expect := [[3, 2, 1]] }

/-- Witness trajectory 3. -/
def c1t3 : Traj := { times := [0, 1, 2], states := [], final_state := none, expect := [[2, 2, 2]] }

/-- Witness ingestion list for the statistics claim. -/
def c1ps : List (ℕ × Traj) := [(11, c1t1), (12, c1t2), (13, c1t3)]

/-- Fallback result used only as a `getD` default in witnesses. -/
def c1fallback : MultiTrajResult :=
  mkResult [] plainOpts { run_time := 0, end_condition := "" }

/-- The aggregation built from `c1ps`. -/
def c1res : MultiTrajResult :=
  (addAll (mkResult [0] plainOpts { run_time := 0, end_condition := "" }) c1ps).getD c1fallback

/-- Witness trajectory for the fixed-count policy claim. -/
def c6t : Traj := { times := [0], states := [], final_state := none, expect := [[5]] }

/-- The aggregation configured with `add_end_condition(2)` (fixed-count
policy, `N = 2`) for the fixed-count witness. -/
def c6r0 : MultiTrajResult :=
  { { mkResult [0] plainOpts { run_time := 0, end_condition := "" } with
        target_ntraj := some 2,
        stats := { run_time := 0, end_condition := "timeout" } } with
    policy := .fixedEnd }

/-! Data-level reading of the `_target_tolerance_end` locals, in terms of the
ingested trajectory list and the stored tolerance pairs. -/

/-- The per-entry target `atol[i] + rtol[i] * mean` (the raw mean, exactly as
line 580 of the source computes it). -/
def targetEntry (ts : List Traj) (tols : List (ℚ × ℚ)) (i j : ℕ) : ℚ :=
  (tols.getD i (0, 0)).1 + (tols.getD i (0, 0)).2 * avgEntry ts i j

/-- The per-entry quantity `(avg2 - abs(avg)**2) / target**2 + 1` of line
585. -/
def ratioEntry (ts : List Traj) (tols : List (ℚ × ℚ)) (i j : ℕ) : ℚ :=
  (sqEntry ts i j - |avgEntry ts i j| ^ 2) / targetEntry ts tols i j ^ 2 + 1

/-- The value `_target_tolerance_end` returns once more than one trajectory
is in, written over the data: `min(max ratios, N) - len(ts)` (no rounding-up
anywhere). -/
def tolValData (m L : ℕ) (ts : List Traj) (tols : List (ℚ × ℚ)) (N : ℤ) : ℚ :=
  min (listMaxD (((List.range m).map (fun i =>
    (List.range L).map (fun j => ratioEntry ts tols i j))).flatten)) ((N : ℤ) : ℚ)
    - (ts.length : ℚ)

/-- Witness trajectory for the target-tolerance claims (one e-op, one time
point, expectation value 1). -/
def c7t : Traj := { times := [0], states := [], final_state := none, expect := [[1]] }

/-- Freshly configured aggregation with scalar tolerance 1 and `N = 100`
(what `add_end_condition(100, 1)` builds on a fresh result). -/
def c7r0 : MultiTrajResult :=
  { raw_ops := [0], opts := plainOpts, times := [], trajectories := [],
    num_trajectories := 0, seeds := [], sum_states := none, sum_final_states := none,
    sum_expect := none, sum2_expect := none, target_tols := some [(1, 0)],
    average_e_data := [], var_e_data := [], runs_e_data := [],
    target_ntraj := some 100, estimated_ntraj := some 100,
    policy := .targetTolEnd, stats := { run_time := 0, end_condition := "timeout" } }

/-- The aggregation `c7r0` after ingesting `c7t` once (seed 9). -/
def c7r1 : MultiTrajResult :=
  { raw_ops := [0], opts := plainOpts, times := [0], trajectories := [],
    num_trajectories := 1, seeds := [9], sum_states := none, sum_final_states := none,
    sum_expect := some [[1]], sum2_expect := some [[1]], target_tols := some [(1, 0)],
    average_e_data := [[1]], var_e_data := [[0]], runs_e_data := [],
    target_ntraj := some 100, estimated_ntraj := some 100,
    policy := .targetTolEnd, stats := { run_time := 0, end_condition := "timeout" } }

/-- The aggregation `c7r1` after ingesting `c7t` a second time: the finish
check fires with remaining estimate `min(1, 100) - 2 = -1`. -/
def c7r2 : MultiTrajResult :=
  { raw_ops := [0], opts := plainOpts, times := [0], trajectories := [],
    num_trajectories := 2, seeds := [9, 9], sum_states := none, sum_final_states := none,
    sum_expect := some [[2]], sum2_expect := some [[2]], target_tols := some [(1, 0)],
    average_e_data := [[1]], var_e_data := [[0]], runs_e_data := [],
    target_ntraj := some 100, estimated_ntraj := some 1,
    policy := .targetTolEnd,
    stats := { run_time := 0, end_condition := "target tolerance reached" } }

/-! Row values written by the merge loop of `__add__`:
`self._sum_expect[i] + other._sum_expect[i]` and the statistics recomputed
from them. -/

/-- Row `i` of the merged `_sum_expect`. -/
def mSumRow (tsa tsb : List Traj) (L i : ℕ) : List ℚ :=
  (List.range L).map (fun j => (samples tsa i j).sum + (samples tsb i j).sum)

/-- Row `i` of the merged `_sum2_expect`. -/
def mSum2Row (tsa tsb : List Traj) (L i : ℕ) : List ℚ :=
  (List.range L).map (fun j =>
    ((samples tsa i j).map (fun x => x ^ 2)).sum + ((samples tsb i j).map (fun x => x ^ 2)).sum)

/-- Row `i` of the merged `average_e_data` (`n` is the merged count). -/
def mAvgRow (tsa tsb : List Traj) (L : ℕ) (n : ℚ) (i : ℕ) : List ℚ :=
  (mSumRow tsa tsb L i).map (fun x => x / n)

/-- Row `i` of the merged `std_e_data` radicand. -/
def mVarRow (tsa tsb : List Traj) (L : ℕ) (n : ℚ) (i : ℕ) : List ℚ :=
  List.zipWith (fun x2 x => abs (x2 - abs (x ^ 2)))
    ((mSum2Row tsa tsb L i).map (fun x => x / n)) (mAvgRow tsa tsb L n i)

/-- Witness trajectory for the merge claims (one e-op, one time point,
value 1). -/
def c2w1 : Traj := { times := [0], states := [], final_state := none, expect := [[1]] }

/-- Second witness trajectory for the merge-partition claim (value 3). -/
def c2w2 : Traj := { times := [0], states := [], final_state := none, expect := [[3]] }

/-- Plain aggregation after ingesting `c2w1` (seed 1). -/
def c2ra : MultiTrajResult :=
  { raw_ops := [0], opts := plainOpts, times := [0], trajectories := [],
    num_trajectories := 1, seeds := [1], sum_states := none, sum_final_states := none,
    sum_expect := some [[1]], sum2_expect := some [[1]], target_tols := none,
    average_e_data := [[1]], var_e_data := [[0]], runs_e_data := [],
    target_ntraj := none, estimated_ntraj := none,
    policy := .noEnd, stats := { run_time := 0, end_condition := "unknown" } }

/-- Plain aggregation after ingesting `c2w2` (seed 2). -/
def c2rb : MultiTrajResult :=
  { raw_ops := [0], opts := plainOpts, times := [0], trajectories := [],
    num_trajectories := 1, seeds := [2], sum_states := none, sum_final_states := none,
    sum_expect := some [[3]], sum2_expect := some [[9]], target_tols := none,
    average_e_data := [[3]], var_e_data := [[0]], runs_e_data := [],
    target_ntraj := none, estimated_ntraj := none,
    policy := .noEnd, stats := { run_time := 0, end_condition := "unknown" } }

/-- Plain aggregation after ingesting `c2w1` then `c2w2`. -/
def c2rfull : MultiTrajResult :=
  { raw_ops := [0], opts := plainOpts, times := [0], trajectories := [],
    num_trajectories := 2, seeds := [1, 2], sum_states := none, sum_final_states := none,
    sum_expect := some [[4]], sum2_expect := some [[10]], target_tols := none,
    average_e_data := [[2]], var_e_data := [[1]], runs_e_data := [],
    target_ntraj := none, estimated_ntraj := none,
    policy := .noEnd, stats := { run_time := 0, end_condition := "unknown" } }

/-- Left operand for the merge-mutation claim: one trajectory of value 1,
run time 5. -/
def c4a : MultiTrajResult :=
  { raw_ops := [0], opts := plainOpts, times := [0], trajectories := [],
    num_trajectories := 1, seeds := [1], sum_states := none, sum_final_states := none,
    sum_expect := some [[1]], sum2_expect := some [[1]], target_tols := none,
    average_e_data := [[1]], var_e_data := [[0]], runs_e_data := [],
    target_ntraj := none, estimated_ntraj := none,
    policy := .noEnd, stats := { run_time := 5, end_condition := "unknown" } }

/-- Right operand for the merge-mutation claim: one trajectory of value 3,
run time 7. -/
def c4b : MultiTrajResult :=
  { raw_ops := [0], opts := plainOpts, times := [0], trajectories := [],
    num_trajectories := 1, seeds := [2], sum_states := none, sum_final_states := none,
    sum_expect := some [[3]], sum2_expect := some [[9]], target_tols := none,
    average_e_data := [[3]], var_e_data := [[0]], runs_e_data := [],
    target_ntraj := none, estimated_ntraj := none,
    policy := .noEnd, stats := { run_time := 7, end_condition := "unknown" } }

/-- The merged result of `c4a + c4b`. -/
def c4c : MultiTrajResult :=
  { raw_ops := [0], opts := plainOpts, times := [0], trajectories := [],
    num_trajectories := 2, seeds := [1, 2], sum_states := none, sum_final_states := none,
    sum_expect := some [[4]], sum2_expect := some [[10]], target_tols := none,
    average_e_data := [[2]], var_e_data := [[1]], runs_e_data := [],
    target_ntraj := none, estimated_ntraj := none,
    policy := .noEnd, stats := { run_time := 12, end_condition := "Merged results" } }

/-- What `__add__` hands back as the left operand: `c4a` with its stats dict
rewritten in place by the merge. -/
def c4self : MultiTrajResult :=
  { raw_ops := [0], opts := plainOpts, times := [0], trajectories := [],
    num_trajectories := 1, seeds := [1], sum_states := none, sum_final_states := none,
    sum_expect := some [[1]], sum2_expect := some [[1]], target_tols := none,
    average_e_data := [[1]], var_e_data := [[0]], runs_e_data := [],
    target_ntraj := none, estimated_ntraj := none,
    policy := .noEnd, stats := { run_time := 12, end_condition := "Merged results" } }

/-- Witness trajectory for the merged-policy claim (value 2). -/
def c10t : Traj := { times := [0], states := [], final_state := none, expect := [[2]] }

/-- An aggregation under the fixed-count policy (`N = 5`), one trajectory
in. -/
def c10a : MultiTrajResult :=
  { raw_ops := [0], opts := plainOpts, times := [0], trajectories := [],
    num_trajectories := 1, seeds := [4], sum_states := none, sum_final_states := none,
    sum_expect := some [[2]], sum2_expect := some [[4]], target_tols := none,
    average_e_data := [[2]], var_e_data := [[0]], runs_e_data := [],
    target_ntraj := some 5, estimated_ntraj := none,
    policy := .fixedEnd, stats := { run_time := 0, end_condition := "timeout" } }

/-- An aggregation under the target-tolerance policy, one trajectory in. -/
def c10b : MultiTrajResult :=
  { raw_ops := [0], opts := plainOpts, times := [0], trajectories := [],
    num_trajectories := 1, seeds := [5], sum_states := none, sum_final_states := none,
    sum_expect := some [[2]], sum2_expect := some [[4]], target_tols := some [(1, 0)],
    average_e_data := [[2]], var_e_data := [[0]], runs_e_data := [],
    target_ntraj := some 100, estimated_ntraj := some 100,
    policy := .targetTolEnd, stats := { run_time := 0, end_condition := "timeout" } }

/-- Witness trajectory establishing the accumulator shapes for the
shape-mismatch claim (two time points, one e-op). -/
def c5t1 : Traj := { times := [0, 1], states := [], final_state := none, expect := [[1, 2]] }

/-- A trajectory with a different time grid but matching expect shape. -/
def c5tBadTimes : Traj :=
  { times := [5, 9], states := [], final_state := none, expect := [[3, 4]] }

/-- A trajectory whose expect row has length 3 (neither the established 2
nor the broadcastable 1). -/
def c5tBadShape : Traj :=
  { times := [0, 1], states := [], final_state := none, expect := [[5, 5, 5]] }

/-- Plain aggregation after ingesting `c5t1` (seed 3). -/
def c5r1 : MultiTrajResult :=
  { raw_ops := [0], opts := plainOpts, times := [0, 1], trajectories := [],
    num_trajectories := 1, seeds := [3], sum_states := none, sum_final_states := none,
    sum_expect := some [[1, 2]], sum2_expect := some [[1, 4]], target_tols := none,
    average_e_data := [[1, 2]], var_e_data := [[0, 0]], runs_e_data := [],
    target_ntraj := none, estimated_ntraj := none,
    policy := .noEnd, stats := { run_time := 0, end_condition := "unknown" } }

/-- The state after `c5r1` silently accepts the time-grid-mismatched
trajectory `c5tBadTimes` (seed 4). -/
def c5r2 : MultiTrajResult :=
  { raw_ops := [0], opts := plainOpts, times := [0, 1], trajectories := [],
    num_trajectories := 2, seeds := [3, 4], sum_states := none, sum_final_states := none,
    sum_expect := some [[4, 6]], sum2_expect := some [[10, 20]], target_tols := none,
    average_e_data := [[2, 3]], var_e_data := [[1, 1]], runs_e_data := [],
    target_ntraj := none, estimated_ntraj := none,
    policy := .noEnd, stats := { run_time := 0, end_condition := "unknown" } }

/-- The state carried by the exception when `c5r1` ingests `c5tBadShape`
(seed 4): the seed append and the count increment already happened. -/
def c5rErr : MultiTrajResult :=
  { raw_ops := [0], opts := plainOpts, times := [0, 1], trajectories := [],
    num_trajectories := 2, seeds := [3, 4], sum_states := none, sum_final_states := none,
    sum_expect := some [[1, 2]], sum2_expect := some [[1, 4]], target_tols := none,
    average_e_data := [[1, 2]], var_e_data := [[0, 0]], runs_e_data := [],
    target_ntraj := none, estimated_ntraj := none,
    policy := .noEnd, stats := { run_time := 0, end_condition := "unknown" } }

/-- First witness trajectory for the tolerance-formula claim (value 0). -/
def c3t1 : Traj := { times := [0], states := [], final_state := none, expect := [[0]] }

/-- Second witness trajectory for the tolerance-formula claim (value -2). -/
def c3t2 : Traj := { times := [0], states := [], final_state := none, expect := [[-2]] }

/-- Aggregation configured with the pair tolerance `(atol, rtol) = (1, 1/2)`
and `N = 100`, after ingesting `c3t1` (seed 7). -/
def c3r1 : MultiTrajResult :=
  { raw_ops := [0], opts := plainOpts, times := [0], trajectories := [],
    num_trajectories := 1, seeds := [7], sum_states := none, sum_final_states := none,
    sum_expect := some [[0]], sum2_expect := some [[0]],
    target_tols := some [(1, 1/2)],
    average_e_data := [[0]], var_e_data := [[0]], runs_e_data := [],
    target_ntraj := some 100, estimated_ntraj := some 100,
    policy := .targetTolEnd, stats := { run_time := 0, end_condition := "timeout" } }

/-- The aggregation `c3r1` after ingesting `c3t2` (seed 8): the target is
`1 + (1/2) * (-1) = 1/2`, the ratio `(2 - 1)/(1/2)^2 + 1 = 5`, and the check
returns `min(5, 100) - 2 = 3`. -/
def c3r2 : MultiTrajResult :=
  { raw_ops := [0], opts := plainOpts, times := [0], trajectories := [],
    num_trajectories := 2, seeds := [7, 8], sum_states := none, sum_final_states := none,
    sum_expect := some [[-2]], sum2_expect := some [[4]],
    target_tols := some [(1, 1/2)],
    average_e_data := [[-1]], var_e_data := [[1]], runs_e_data := [],
    target_ntraj := some 100, estimated_ntraj := some 5,
    policy := .targetTolEnd, stats := { run_time := 0, end_condition := "timeout" } }

/-! State-accumulation model: runs whose trajectories carry `K` ket
snapshots of dimension `d` and a ket final state, with no e-ops. -/

/-- Options leaving `store_states` unset (`None`), so that state storing is
enabled exactly when there are no e-ops. -/
def stOpts : Options :=
  { store_states := none, store_final_state := false, keep_runs_results := false }

/-- The outer product (projector matrix) of a ket vector. -/
def ketProj (v : List ℚ) : List (List ℚ) := v.map (fun a => v.map (fun b => a * b))

/-- Entrywise sum of the projectors of the kets `vs`, as a `d × d` matrix. -/
def projSum (vs : List (List ℚ)) (d : ℕ) : List (List ℚ) :=
  (List.range d).map (fun i => (List.range d).map (fun j =>
    (vs.map (fun v => v.getD i 0 * v.getD j 0)).sum))

/-- The coefficient vector of a ket (unused fallback for operators). -/
def stateVec : QState → List ℚ
  | .ket v => v
  | .oper _ => []

/-- The kets stored at snapshot index `k` across the ingested trajectories. -/
def ketsAt (ts : List Traj) (k : ℕ) : List (List ℚ) :=
  ts.map (fun t => stateVec (t.states.getD k (.ket [])))

/-- The final-state kets across the ingested trajectories. -/
def finalVecs (ts : List Traj) : List (List ℚ) :=
  ts.map (fun t => stateVec (t.final_state.getD (.ket [])))

/-- Whether a state is a ket of dimension `d`. -/
def isKetDb (d : ℕ) : QState → Bool
  | .ket v => v.length = d
  | .oper _ => false

/-- Whether an optional final state is a ket of dimension `d`. -/
def finalKetDb (d : ℕ) : Option QState → Bool
  | some (.ket v) => v.length = d
  | _ => false

/-- A trajectory carrying `K` dimension-`d` ket snapshots, a dimension-`d`
ket final state and no expectation data. -/
def NiceK (d K : ℕ) (t : Traj) : Prop :=
  t.expect = [] ∧ t.states.length = K ∧ (∀ s ∈ t.states, isKetDb d s = true) ∧
    finalKetDb d t.final_state = true

instance (d K : ℕ) (t : Traj) : Decidable (NiceK d K t) := by
  unfold NiceK
  infer_instance

/-- Invariant tying a state-storing aggregation (`stOpts`, no e-ops) to the
ket trajectories it has ingested: both state accumulators hold the operator
sums of the projectors. -/
structure KetRun (d K : ℕ) (ts : List Traj) (r : MultiTrajResult) : Prop where
  raw : r.raw_ops = []
  hopts : r.opts = stOpts
  pol : r.policy = .noEnd
  num : r.num_trajectories = ts.length
  sumS : r.sum_states = some ((List.range K).map (fun k =>
    QState.oper (projSum (ketsAt ts k) d)))
  sumF : r.sum_final_states = some (QState.oper (projSum (finalVecs ts) d))
  sumE : r.sum_expect = some []
  sum2E : r.sum2_expect = some []
  avgD : r.average_e_data = []
  varD : r.var_e_data = []
  runs : r.runs_e_data = []
  htrajs : r.trajectories = []

/-- A freshly constructed state-storing aggregation, before any ingestion. -/
structure KetStart (r : MultiTrajResult) : Prop where
  raw : r.raw_ops = []
  hopts : r.opts = stOpts
  pol : r.policy = .noEnd
  num : r.num_trajectories = 0
  hss : r.sum_states = none
  hsf : r.sum_final_states = none
  varD : r.var_e_data = []
  runs : r.runs_e_data = []
  htrajs : r.trajectories = []

/-- First witness trajectory for the state-accumulation claim. -/
def c9t1 : Traj :=
  { times := [0], states := [.ket [1, 0]], final_state := some (.ket [1, 0]), expect := [] }

/-- Second witness trajectory for the state-accumulation claim. -/
def c9t2 : Traj :=
  { times := [0], states := [.ket [0, 1]], final_state := some (.ket [0, 1]), expect := [] }

/-- Fallback for the state-accumulation witness. -/
def c9fb : MultiTrajResult := mkResult [] stOpts { run_time := 0, end_condition := "" }

/-- The state-storing aggregation built from the two ket trajectories. -/
def c9res : MultiTrajResult :=
  (addAll (mkResult [] stOpts { run_time := 0, end_condition := "" })
    [(1, c9t1), (2, c9t2)]).getD c9fb

/-! General list toolkit used by the verification below. -/

theorem length_range_map {α : Type} (f : ℕ → α) (n : ℕ) :
    ((List.range n).map f).length = n := by simp

theorem getD_range_map {α : Type} (f : ℕ → α) (d : α) {n i : ℕ} (h : i < n) :
    ((List.range n).map f).getD i d = f i := by
  rw [List.getD_eq_getElem _ _ (by simpa using h)]
  simp

theorem range_map_congr {α : Type} {f g : ℕ → α} {n : ℕ}
    (h : ∀ i, i < n → f i = g i) :
    (List.range n).map f = (List.range n).map g := by
  apply List.ext_getElem (by simp)
  intro i h1 h2
  simp only [List.getElem_map, List.getElem_range]
  exact h i (by simpa using h1)

theorem eq_range_map {α : Type} (d : α) (l : List α) :
    l = (List.range l.length).map (fun i => l.getD i d) := by
  apply List.ext_getElem (by simp)
  intro i h1 h2
  simp only [List.getElem_map, List.getElem_range]
  rw [List.getD_eq_getElem _ _ h1]

theorem zipWith_range_map {α β γ : Type} (f : ℕ → α) (g : ℕ → β) (op : α → β → γ) (n : ℕ) :
    List.zipWith op ((List.range n).map f) ((List.range n).map g)
      = (List.range n).map (fun i => op (f i) (g i)) := by
  apply List.ext_getElem (by simp)
  intro i h1 h2
  rw [List.getElem_zipWith]
  simp

theorem map_range_map {α β : Type} (f : ℕ → α) (g : α → β) (n : ℕ) :
    ((List.range n).map f).map g = (List.range n).map (fun i => g (f i)) := by
  rw [List.map_map]
  rfl

theorem set_range_map {α : Type} (f : ℕ → α) {n i : ℕ} (v : α) :
    ((List.range n).map f).set i v
      = (List.range n).map (fun j => if j = i then v else f j) := by
  apply List.ext_getElem (by simp)
  intro j h1 h2
  rw [List.getElem_set]
  by_cases hj : i = j
  · subst hj; simp
  · rw [if_neg hj]
    simp only [List.getElem_map, List.getElem_range]
    rw [if_neg (fun hji => hj hji.symm)]

theorem dictSet_of_lt {α : Type} {l : List α} {i : ℕ} (v : α) (h : i < l.length) :
    dictSet l i v = l.set i v := by simp [dictSet, h]

theorem dictSet_of_eq_length {α : Type} {l : List α} {i : ℕ} (v : α) (h : i = l.length) :
    dictSet l i v = l ++ [v] := by simp [dictSet, h]

theorem allSome_map_some {α : Type} (l : List α) : allSome (l.map some) = some l := by
  induction l with
  | nil => rfl
  | cons x xs ih => simp [allSome, ih]

theorem le_foldl_max (l : List ℚ) : ∀ a : ℚ, a ≤ l.foldl max a := by
  induction l with
  | nil => intro a; simp
  | cons x xs ih =>
    intro a
    calc a ≤ max a x := le_max_left a x
    _ ≤ xs.foldl max (max a x) := ih (max a x)

theorem mem_le_foldl_max {x : ℚ} : ∀ {l : List ℚ} (a : ℚ), x ∈ l → x ≤ l.foldl max a := by
  intro l
  induction l with
  | nil => intro a hx; cases hx
  | cons y ys ih =>
    intro a hx
    rcases List.mem_cons.mp hx with h | h
    · subst h
      calc x ≤ max a x := le_max_right a x
      _ ≤ ys.foldl max (max a x) := le_foldl_max ys (max a x)
    · exact ih (max a y) h

theorem foldl_max_mem : ∀ (l : List ℚ) (a : ℚ), l.foldl max a ∈ a :: l := by
  intro l
  induction l with
  | nil => intro a; simp
  | cons x xs ih =>
    intro a
    simp only [List.foldl_cons]
    rcases List.mem_cons.mp (ih (max a x)) with h | h
    · rcases max_choice a x with hm | hm
      · rw [h, hm]; exact List.mem_cons_self _ _
      · rw [h, hm]; exact List.mem_cons_of_mem _ (List.mem_cons_self _ _)
    · exact List.mem_cons_of_mem _ (List.mem_cons_of_mem _ h)

theorem le_listMaxD {x : ℚ} {l : List ℚ} (hx : x ∈ l) : x ≤ listMaxD l := by
  cases l with
  | nil => cases hx
  | cons y ys =>
    rcases List.mem_cons.mp hx with h | h
    · subst h; exact le_foldl_max ys x
    · exact mem_le_foldl_max y h

theorem listMaxD_mem {l : List ℚ} (h : l ≠ []) : listMaxD l ∈ l := by
  cases l with
  | nil => exact absurd rfl h
  | cons y ys =>
    rcases List.mem_cons.mp (foldl_max_mem ys y) with hm | hm
    · rw [listMaxD, hm]; exact List.mem_cons_self _ _
    · exact List.mem_cons_of_mem _ hm

/-! Sample-statistics lemmas. -/

theorem sum_map_sub_sq (c : ℚ) : ∀ xs : List ℚ,
    (xs.map (fun x => (x - c) ^ 2)).sum
      = (xs.map (fun x => x ^ 2)).sum - 2 * c * xs.sum + (xs.length : ℚ) * c ^ 2
  | [] => by simp
  | x :: xs => by
    simp only [List.map_cons, List.sum_cons, List.length_cons]
    rw [sum_map_sub_sq c xs]
    push_cast
    ring

theorem popVar_eq (xs : List ℚ) (h : xs ≠ []) :
    popVar xs = (xs.map (fun x => x ^ 2)).sum / (xs.length : ℚ) - sampleMean xs ^ 2 := by
  have h0 : xs.length ≠ 0 := fun hh => h (List.length_eq_zero.mp hh)
  have hn : (xs.length : ℚ) ≠ 0 := Nat.cast_ne_zero.mpr h0
  unfold popVar sampleMean
  rw [sum_map_sub_sq]
  field_simp
  ring

theorem popVar_nonneg (xs : List ℚ) : 0 ≤ popVar xs := by
  unfold popVar
  apply div_nonneg
  · apply List.sum_nonneg
    intro x hx
    simp only [List.mem_map] at hx
    obtain ⟨y, _, rfl⟩ := hx
    positivity
  · positivity

theorem samples_length (ts : List Traj) (i j : ℕ) :
    (samples ts i j).length = ts.length := by simp [samples]

theorem samples_append (l1 l2 : List Traj) (i j : ℕ) :
    samples (l1 ++ l2) i j = samples l1 i j ++ samples l2 i j := by simp [samples]

theorem samples_ne_nil {ts : List Traj} (h : ts ≠ []) (i j : ℕ) :
    samples ts i j ≠ [] := by
  simp [samples, h]

theorem varEntry_eq_popVar (ts : List Traj) (i j : ℕ) (h : ts ≠ []) :
    abs (sqEntry ts i j - abs (avgEntry ts i j ^ 2)) = popVar (samples ts i j) := by
  have hlen : (samples ts i j).length = ts.length := samples_length ts i j
  have hne : samples ts i j ≠ [] := samples_ne_nil h i j
  have h1 : abs (avgEntry ts i j ^ 2) = sampleMean (samples ts i j) ^ 2 := by
    rw [abs_of_nonneg (sq_nonneg _)]
    unfold avgEntry sampleMean
    rw [hlen]
  have h2 : sqEntry ts i j
      = ((samples ts i j).map (fun x => x ^ 2)).sum / ((samples ts i j).length : ℚ) := by
    unfold sqEntry
    rw [hlen]
  rw [h1, h2, ← popVar_eq _ hne, abs_of_nonneg (popVar_nonneg _)]

theorem avgEntry_eq_sampleMean (ts : List Traj) (i j : ℕ) :
    avgEntry ts i j = sampleMean (samples ts i j) := by
  unfold avgEntry sampleMean
  rw [samples_length]

theorem getElem?_range_map {α : Type} (f : ℕ → α) {n i : ℕ} (h : i < n) :
    ((List.range n).map f)[i]? = some (f i) := by
  rw [List.getElem?_eq_getElem (by simpa using h)]
  simp

theorem zipWith_snd_eq {α β : Type} :
    ∀ (a : List α) (b : List β), a.length = b.length →
      List.zipWith (fun _ z => z) a b = b
  | [], [], _ => rfl
  | [], _ :: _, h => by simp at h
  | _ :: _, [], h => by simp at h
  | _ :: as', b :: bs, h => by
    simp only [List.zipWith_cons_cons]
    rw [zipWith_snd_eq as' bs (by simpa using h)]

theorem eqFrame_refl (r : MultiTrajResult) : EqFrame r r := by
  unfold EqFrame
  exact ⟨rfl, rfl, rfl, rfl, rfl, rfl, rfl, rfl, rfl, rfl, rfl, rfl, rfl⟩

theorem eqFrame_trans {a b c : MultiTrajResult} (h1 : EqFrame a b) (h2 : EqFrame b c) :
    EqFrame a c := by
  unfold EqFrame at h1 h2 ⊢
  obtain ⟨e1, e2, e3, e4, e5, e6, e7, e8, e9, e10, e11, e12, e13⟩ := h1
  obtain ⟨f1, f2, f3, f4, f5, f6, f7, f8, f9, f10, f11, f12, f13⟩ := h2
  exact ⟨e1.trans f1, e2.trans f2, e3.trans f3, e4.trans f4, e5.trans f5, e6.trans f6,
    e7.trans f7, e8.trans f8, e9.trans f9, e10.trans f10, e11.trans f11, e12.trans f12,
    e13.trans f13⟩

theorem tRow_length {t : Traj} {m L : ℕ} (hEm : t.expect.length = m)
    (hErow : ∀ row ∈ t.expect, row.length = L) {i : ℕ} (h : i < m) :
    (tRow t i).length = L := by
  unfold tRow
  rw [List.getD_eq_getElem _ _ (by omega)]
  exact hErow _ (List.getElem_mem _)

theorem tRow_range_map {t : Traj} {m L : ℕ} (hEm : t.expect.length = m)
    (hErow : ∀ row ∈ t.expect, row.length = L) {i : ℕ} (h : i < m) :
    tRow t i = (List.range L).map (fun j => entryAt t i j) := by
  have hl : (tRow t i).length = L := tRow_length hEm hErow h
  calc tRow t i = (List.range (tRow t i).length).map (fun j => (tRow t i).getD j 0) :=
        eq_range_map 0 (tRow t i)
  _ = (List.range L).map (fun j => entryAt t i j) := by rw [hl]; rfl

/-- Characterization of one successful `_reduce_expect` loop iteration. -/
theorem reduceExpectStep_spec (t : Traj) (m L : ℕ) (S S2 : ℕ → List ℚ) {i : ℕ} (him : i < m)
    (hSilen : (S i).length = L) (hS2ilen : (S2 i).length = L)
    (hEm : t.expect.length = m) (hErow : ∀ row ∈ t.expect, row.length = L)
    (r : MultiTrajResult)
    (hsum : r.sum_expect = some ((List.range m).map S))
    (hsum2 : r.sum2_expect = some ((List.range m).map S2))
    (hruns : r.runs_e_data = []) :
    ∃ r', reduceExpectStep t r i = .ok r' ∧
      r'.sum_expect
        = some ((List.range m).map (fun jj => if jj = i then newSumRow S t i else S jj)) ∧
      r'.sum2_expect
        = some ((List.range m).map (fun jj => if jj = i then newSum2Row S2 t i else S2 jj)) ∧
      r'.average_e_data
        = dictSet r.average_e_data i (newAvgRow S t (r.num_trajectories : ℚ) i) ∧
      r'.var_e_data
        = dictSet r.var_e_data i (newVarRow S S2 t (r.num_trajectories : ℚ) i) ∧
      r'.runs_e_data = [] ∧ EqFrame r' r := by
  have hti : t.expect[i]? = some (tRow t i) := by
    rw [List.getElem?_eq_getElem (by omega)]
    unfold tRow
    rw [List.getD_eq_getElem _ _ (by omega)]
  have htl : (tRow t i).length = L := tRow_length hEm hErow him
  have hadd1 : npAddInto (S i) (tRow t i) = some (newSumRow S t i) := by
    unfold npAddInto newSumRow
    rw [if_pos (htl.trans hSilen.symm)]
  have hadd2 : npAddInto (S2 i) ((tRow t i).map (fun x => x ^ 2))
      = some (newSum2Row S2 t i) := by
    unfold npAddInto newSum2Row
    rw [if_pos (by simp [htl, hS2ilen])]
  unfold reduceExpectStep
  rw [hti, hsum, hsum2]
  simp only [Option.getD_some]
  rw [getElem?_range_map S him, getElem?_range_map S2 him]
  dsimp only
  rw [hadd1, hadd2]
  dsimp only
  simp only [hruns, List.isEmpty_nil, if_true]
  refine ⟨_, rfl, ?_, ?_, rfl, rfl, rfl, ?_⟩
  · simp only [set_range_map]
  · simp only [set_range_map]
  · unfold EqFrame
    exact ⟨rfl, rfl, rfl, rfl, rfl, rfl, rfl, rfl, rfl, rfl, rfl, rfl, rfl⟩

theorem newSumRow_length {t : Traj} {m L : ℕ} {S : ℕ → List ℚ} {i : ℕ}
    (hSilen : (S i).length = L) (hEm : t.expect.length = m)
    (hErow : ∀ row ∈ t.expect, row.length = L) (him : i < m) :
    (newSumRow S t i).length = L := by
  unfold newSumRow
  rw [List.length_zipWith, hSilen, tRow_length hEm hErow him, min_self]

theorem newSum2Row_length {t : Traj} {m L : ℕ} {S2 : ℕ → List ℚ} {i : ℕ}
    (hS2ilen : (S2 i).length = L) (hEm : t.expect.length = m)
    (hErow : ∀ row ∈ t.expect, row.length = L) (him : i < m) :
    (newSum2Row S2 t i).length = L := by
  unfold newSum2Row
  rw [List.length_zipWith, hS2ilen, List.length_map, tRow_length hEm hErow him, min_self]

theorem range_map_append_one {α : Type} (f : ℕ → α) (k : ℕ) (v : α) :
    (List.range k).map f ++ [v]
      = (List.range (k + 1)).map (fun j => if j = k then v else f j) := by
  rw [List.range_succ, List.map_append]
  congr 1
  · apply range_map_congr
    intro j hj
    rw [if_neg (by omega)]
  · simp

/-- Characterization of the `_reduce_expect` loop over indices `[k, k+cnt)`
when `std_e_data` already holds all `m` keys (every add after the first). -/
theorem reduceExpectAux_spec_full (t : Traj) (m L : ℕ)
    (hEm : t.expect.length = m) (hErow : ∀ row ∈ t.expect, row.length = L) :
    ∀ (cnt k : ℕ) (S S2 A V : ℕ → List ℚ) (r : MultiTrajResult),
      k + cnt ≤ m →
      (∀ i, i < m → (S i).length = L) →
      (∀ i, i < m → (S2 i).length = L) →
      r.sum_expect = some ((List.range m).map S) →
      r.sum2_expect = some ((List.range m).map S2) →
      r.average_e_data = (List.range m).map A →
      r.var_e_data = (List.range m).map V →
      r.runs_e_data = [] →
      ∃ r', reduceExpectAux t (List.range' k cnt) r = .ok r' ∧
        r'.sum_expect = some ((List.range m).map
          (fun i => if k ≤ i ∧ i < k + cnt then newSumRow S t i else S i)) ∧
        r'.sum2_expect = some ((List.range m).map
          (fun i => if k ≤ i ∧ i < k + cnt then newSum2Row S2 t i else S2 i)) ∧
        r'.average_e_data = (List.range m).map
          (fun i => if k ≤ i ∧ i < k + cnt
                    then newAvgRow S t (r.num_trajectories : ℚ) i else A i) ∧
        r'.var_e_data = (List.range m).map
          (fun i => if k ≤ i ∧ i < k + cnt
                    then newVarRow S S2 t (r.num_trajectories : ℚ) i else V i) ∧
        r'.runs_e_data = [] ∧ EqFrame r' r := by
  intro cnt
  induction cnt with
  | zero =>
    intro k S S2 A V r hkm hS hS2 hsum hsum2 havg hvar hruns
    refine ⟨r, rfl, ?_, ?_, ?_, ?_, hruns, eqFrame_refl r⟩
    · rw [hsum]
      exact congrArg _ (range_map_congr (fun i hi => by rw [if_neg (by omega)])).symm
    · rw [hsum2]
      exact congrArg _ (range_map_congr (fun i hi => by rw [if_neg (by omega)])).symm
    · rw [havg]
      exact (range_map_congr (fun i hi => by rw [if_neg (by omega)])).symm
    · rw [hvar]
      exact (range_map_congr (fun i hi => by rw [if_neg (by omega)])).symm
  | succ cnt ih =>
    intro k S S2 A V r hkm hS hS2 hsum hsum2 havg hvar hruns
    have hkm' : k < m := by omega
    obtain ⟨r1, hstep, h1sum, h1sum2, h1avg, h1var, h1runs, h1frame⟩ :=
      reduceExpectStep_spec t m L S S2 hkm' (hS k hkm') (hS2 k hkm') hEm hErow r hsum hsum2 hruns
    have hfr := h1frame
    obtain ⟨_, _, _, _, hnum1, _, _, _, _, _, _, _, _⟩ := hfr
    have h1avg' : r1.average_e_data = (List.range m).map
        (fun j => if j = k then newAvgRow S t (r.num_trajectories : ℚ) k else A j) := by
      rw [h1avg, havg, dictSet_of_lt _ (by simpa using hkm'), set_range_map]
    have h1var' : r1.var_e_data = (List.range m).map
        (fun j => if j = k then newVarRow S S2 t (r.num_trajectories : ℚ) k else V j) := by
      rw [h1var, hvar, dictSet_of_lt _ (by simpa using hkm'), set_range_map]
    have hS1len : ∀ i, i < m →
        ((fun j => if j = k then newSumRow S t k else S j) i).length = L := by
      intro i hi
      beta_reduce
      by_cases hik : i = k
      · subst hik
        rw [if_pos rfl]
        exact newSumRow_length (hS i hi) hEm hErow hi
      · rw [if_neg hik]
        exact hS i hi
    have hS21len : ∀ i, i < m →
        ((fun j => if j = k then newSum2Row S2 t k else S2 j) i).length = L := by
      intro i hi
      beta_reduce
      by_cases hik : i = k
      · subst hik
        rw [if_pos rfl]
        exact newSum2Row_length (hS2 i hi) hEm hErow hi
      · rw [if_neg hik]
        exact hS2 i hi
    obtain ⟨r', haux, h2sum, h2sum2, h2avg, h2var, h2runs, h2frame⟩ :=
      ih (k + 1)
        (fun j => if j = k then newSumRow S t k else S j)
        (fun j => if j = k then newSum2Row S2 t k else S2 j)
        (fun j => if j = k then newAvgRow S t (r.num_trajectories : ℚ) k else A j)
        (fun j => if j = k then newVarRow S S2 t (r.num_trajectories : ℚ) k else V j)
        r1 (by omega) hS1len hS21len
        h1sum h1sum2 h1avg' h1var' h1runs
    have hauxall : reduceExpectAux t (List.range' k (cnt + 1)) r = .ok r' := by
      have hcons : List.range' k (cnt + 1) = k :: List.range' (k + 1) cnt := rfl
      rw [hcons]
      unfold reduceExpectAux
      rw [hstep]
      exact haux
    refine ⟨r', hauxall, ?_, ?_, ?_, ?_, h2runs, eqFrame_trans h2frame h1frame⟩
    · rw [h2sum]
      apply congrArg
      apply range_map_congr
      intro i hi
      beta_reduce
      rcases Nat.lt_trichotomy i k with hlt | heq | hgt
      · have c1 : ¬(k + 1 ≤ i ∧ i < k + 1 + cnt) := by omega
        have c2 : ¬(k ≤ i ∧ i < k + (cnt + 1)) := by omega
        simp only [if_neg c1, if_neg c2, if_neg (show ¬ i = k by omega), if_true, if_false]
      · subst heq
        have c1 : ¬(i + 1 ≤ i ∧ i < i + 1 + cnt) := by omega
        have c2 : i ≤ i ∧ i < i + (cnt + 1) := by omega
        simp only [if_pos c2, if_neg c1, if_pos rfl, if_true, if_false]
      · by_cases hwin : i < k + 1 + cnt
        · have c1 : k + 1 ≤ i ∧ i < k + 1 + cnt := ⟨by omega, hwin⟩
          have c2 : k ≤ i ∧ i < k + (cnt + 1) := by omega
          simp only [if_pos c1, if_pos c2, if_true]
          unfold newSumRow
          beta_reduce
          simp only [if_neg (show ¬ i = k by omega)]
        · have c1 : ¬(k + 1 ≤ i ∧ i < k + 1 + cnt) := by omega
          have c2 : ¬(k ≤ i ∧ i < k + (cnt + 1)) := by omega
          simp only [if_neg c1, if_neg c2, if_neg (show ¬ i = k by omega), if_true, if_false]
    · rw [h2sum2]
      apply congrArg
      apply range_map_congr
      intro i hi
      beta_reduce
      rcases Nat.lt_trichotomy i k with hlt | heq | hgt
      · have c1 : ¬(k + 1 ≤ i ∧ i < k + 1 + cnt) := by omega
        have c2 : ¬(k ≤ i ∧ i < k + (cnt + 1)) := by omega
        simp only [if_neg c1, if_neg c2, if_neg (show ¬ i = k by omega), if_true, if_false]
      · subst heq
        have c1 : ¬(i + 1 ≤ i ∧ i < i + 1 + cnt) := by omega
        have c2 : i ≤ i ∧ i < i + (cnt + 1) := by omega
        simp only [if_pos c2, if_neg c1, if_pos rfl, if_true, if_false]
      · by_cases hwin : i < k + 1 + cnt
        · have c1 : k + 1 ≤ i ∧ i < k + 1 + cnt := ⟨by omega, hwin⟩
          have c2 : k ≤ i ∧ i < k + (cnt + 1) := by omega
          simp only [if_pos c1, if_pos c2, if_true]
          unfold newSum2Row
          beta_reduce
          simp only [if_neg (show ¬ i = k by omega)]
        · have c1 : ¬(k + 1 ≤ i ∧ i < k + 1 + cnt) := by omega
          have c2 : ¬(k ≤ i ∧ i < k + (cnt + 1)) := by omega
          simp only [if_neg c1, if_neg c2, if_neg (show ¬ i = k by omega), if_true, if_false]
    · rw [h2avg, hnum1]
      apply range_map_congr
      intro i hi
      beta_reduce
      rcases Nat.lt_trichotomy i k with hlt | heq | hgt
      · have c1 : ¬(k + 1 ≤ i ∧ i < k + 1 + cnt) := by omega
        have c2 : ¬(k ≤ i ∧ i < k + (cnt + 1)) := by omega
        simp only [if_neg c1, if_neg c2, if_neg (show ¬ i = k by omega), if_true, if_false]
      · subst heq
        have c1 : ¬(i + 1 ≤ i ∧ i < i + 1 + cnt) := by omega
        have c2 : i ≤ i ∧ i < i + (cnt + 1) := by omega
        simp only [if_pos c2, if_neg c1, if_pos rfl, if_true, if_false]
      · by_cases hwin : i < k + 1 + cnt
        · have c1 : k + 1 ≤ i ∧ i < k + 1 + cnt := ⟨by omega, hwin⟩
          have c2 : k ≤ i ∧ i < k + (cnt + 1) := by omega
          simp only [if_pos c1, if_pos c2, if_true]
          unfold newAvgRow newSumRow
          beta_reduce
          simp only [if_neg (show ¬ i = k by omega)]
        · have c1 : ¬(k + 1 ≤ i ∧ i < k + 1 + cnt) := by omega
          have c2 : ¬(k ≤ i ∧ i < k + (cnt + 1)) := by omega
          simp only [if_neg c1, if_neg c2, if_neg (show ¬ i = k by omega), if_true, if_false]
    · rw [h2var, hnum1]
      apply range_map_congr
      intro i hi
      beta_reduce
      rcases Nat.lt_trichotomy i k with hlt | heq | hgt
      · have c1 : ¬(k + 1 ≤ i ∧ i < k + 1 + cnt) := by omega
        have c2 : ¬(k ≤ i ∧ i < k + (cnt + 1)) := by omega
        simp only [if_neg c1, if_neg c2, if_neg (show ¬ i = k by omega), if_true, if_false]
      · subst heq
        have c1 : ¬(i + 1 ≤ i ∧ i < i + 1 + cnt) := by omega
        have c2 : i ≤ i ∧ i < i + (cnt + 1) := by omega
        simp only [if_pos c2, if_neg c1, if_pos rfl, if_true, if_false]
      · by_cases hwin : i < k + 1 + cnt
        · have c1 : k + 1 ≤ i ∧ i < k + 1 + cnt := ⟨by omega, hwin⟩
          have c2 : k ≤ i ∧ i < k + (cnt + 1) := by omega
          simp only [if_pos c1, if_pos c2, if_true]
          unfold newVarRow newAvgRow newSumRow newSum2Row
          beta_reduce
          simp only [if_neg (show ¬ i = k by omega)]
        · have c1 : ¬(k + 1 ≤ i ∧ i < k + 1 + cnt) := by omega
          have c2 : ¬(k ≤ i ∧ i < k + (cnt + 1)) := by omega
          simp only [if_neg c1, if_neg c2, if_neg (show ¬ i = k by omega), if_true, if_false]

/-- Characterization of the `_reduce_expect` loop over indices `[k, k+cnt)`
during the first add, when `std_e_data` holds exactly the first `k` keys and
grows by insertion. -/
theorem reduceExpectAux_spec_build (t : Traj) (m L : ℕ)
    (hEm : t.expect.length = m) (hErow : ∀ row ∈ t.expect, row.length = L) :
    ∀ (cnt k : ℕ) (S S2 A V : ℕ → List ℚ) (r : MultiTrajResult),
      k + cnt ≤ m →
      (∀ i, i < m → (S i).length = L) →
      (∀ i, i < m → (S2 i).length = L) →
      r.sum_expect = some ((List.range m).map S) →
      r.sum2_expect = some ((List.range m).map S2) →
      r.average_e_data = (List.range m).map A →
      r.var_e_data = (List.range k).map V →
      r.runs_e_data = [] →
      ∃ r', reduceExpectAux t (List.range' k cnt) r = .ok r' ∧
        r'.sum_expect = some ((List.range m).map
          (fun i => if k ≤ i ∧ i < k + cnt then newSumRow S t i else S i)) ∧
        r'.sum2_expect = some ((List.range m).map
          (fun i => if k ≤ i ∧ i < k + cnt then newSum2Row S2 t i else S2 i)) ∧
        r'.average_e_data = (List.range m).map
          (fun i => if k ≤ i ∧ i < k + cnt
                    then newAvgRow S t (r.num_trajectories : ℚ) i else A i) ∧
        r'.var_e_data = (List.range (k + cnt)).map
          (fun i => if k ≤ i
                    then newVarRow S S2 t (r.num_trajectories : ℚ) i else V i) ∧
        r'.runs_e_data = [] ∧ EqFrame r' r := by
  intro cnt
  induction cnt with
  | zero =>
    intro k S S2 A V r hkm hS hS2 hsum hsum2 havg hvar hruns
    refine ⟨r, rfl, ?_, ?_, ?_, ?_, hruns, eqFrame_refl r⟩
    · rw [hsum]
      exact congrArg _ (range_map_congr (fun i hi => by rw [if_neg (by omega)])).symm
    · rw [hsum2]
      exact congrArg _ (range_map_congr (fun i hi => by rw [if_neg (by omega)])).symm
    · rw [havg]
      exact (range_map_congr (fun i hi => by rw [if_neg (by omega)])).symm
    · rw [hvar]
      simp only [Nat.add_zero]
      exact (range_map_congr (fun i hi => by rw [if_neg (by omega)])).symm
  | succ cnt ih =>
    intro k S S2 A V r hkm hS hS2 hsum hsum2 havg hvar hruns
    have hkm' : k < m := by omega
    obtain ⟨r1, hstep, h1sum, h1sum2, h1avg, h1var, h1runs, h1frame⟩ :=
      reduceExpectStep_spec t m L S S2 hkm' (hS k hkm') (hS2 k hkm') hEm hErow r hsum hsum2 hruns
    have hfr := h1frame
    obtain ⟨_, _, _, _, hnum1, _, _, _, _, _, _, _, _⟩ := hfr
    have h1avg' : r1.average_e_data = (List.range m).map
        (fun j => if j = k then newAvgRow S t (r.num_trajectories : ℚ) k else A j) := by
      rw [h1avg, havg, dictSet_of_lt _ (by simpa using hkm'), set_range_map]
    have h1var' : r1.var_e_data = (List.range (k + 1)).map
        (fun j => if j = k then newVarRow S S2 t (r.num_trajectories : ℚ) k else V j) := by
      rw [h1var, hvar, dictSet_of_eq_length _ (by simp), range_map_append_one]
    have hS1len : ∀ i, i < m →
        ((fun j => if j = k then newSumRow S t k else S j) i).length = L := by
      intro i hi
      beta_reduce
      by_cases hik : i = k
      · subst hik
        rw [if_pos rfl]
        exact newSumRow_length (hS i hi) hEm hErow hi
      · rw [if_neg hik]
        exact hS i hi
    have hS21len : ∀ i, i < m →
        ((fun j => if j = k then newSum2Row S2 t k else S2 j) i).length = L := by
      intro i hi
      beta_reduce
      by_cases hik : i = k
      · subst hik
        rw [if_pos rfl]
        exact newSum2Row_length (hS2 i hi) hEm hErow hi
      · rw [if_neg hik]
        exact hS2 i hi
    obtain ⟨r', haux, h2sum, h2sum2, h2avg, h2var, h2runs, h2frame⟩ :=
      ih (k + 1)
        (fun j => if j = k then newSumRow S t k else S j)
        (fun j => if j = k then newSum2Row S2 t k else S2 j)
        (fun j => if j = k then newAvgRow S t (r.num_trajectories : ℚ) k else A j)
        (fun j => if j = k then newVarRow S S2 t (r.num_trajectories : ℚ) k else V j)
        r1 (by omega) hS1len hS21len
        h1sum h1sum2 h1avg' h1var' h1runs
    have hauxall : reduceExpectAux t (List.range' k (cnt + 1)) r = .ok r' := by
      have hcons : List.range' k (cnt + 1) = k :: List.range' (k + 1) cnt := rfl
      rw [hcons]
      unfold reduceExpectAux
      rw [hstep]
      exact haux
    refine ⟨r', hauxall, ?_, ?_, ?_, ?_, h2runs, eqFrame_trans h2frame h1frame⟩
    · rw [h2sum]
      apply congrArg
      apply range_map_congr
      intro i hi
      beta_reduce
      rcases Nat.lt_trichotomy i k with hlt | heq | hgt
      · have c1 : ¬(k + 1 ≤ i ∧ i < k + 1 + cnt) := by omega
        have c2 : ¬(k ≤ i ∧ i < k + (cnt + 1)) := by omega
        simp only [if_neg c1, if_neg c2, if_neg (show ¬ i = k by omega), if_true, if_false]
      · subst heq
        have c1 : ¬(i + 1 ≤ i ∧ i < i + 1 + cnt) := by omega
        have c2 : i ≤ i ∧ i < i + (cnt + 1) := by omega
        simp only [if_pos c2, if_neg c1, if_pos rfl, if_true, if_false]
      · by_cases hwin : i < k + 1 + cnt
        · have c1 : k + 1 ≤ i ∧ i < k + 1 + cnt := ⟨by omega, hwin⟩
          have c2 : k ≤ i ∧ i < k + (cnt + 1) := by omega
          simp only [if_pos c1, if_pos c2, if_true]
          unfold newSumRow
          beta_reduce
          simp only [if_neg (show ¬ i = k by omega)]
        · have c1 : ¬(k + 1 ≤ i ∧ i < k + 1 + cnt) := by omega
          have c2 : ¬(k ≤ i ∧ i < k + (cnt + 1)) := by omega
          simp only [if_neg c1, if_neg c2, if_neg (show ¬ i = k by omega), if_true, if_false]
    · rw [h2sum2]
      apply congrArg
      apply range_map_congr
      intro i hi
      beta_reduce
      rcases Nat.lt_trichotomy i k with hlt | heq | hgt
      · have c1 : ¬(k + 1 ≤ i ∧ i < k + 1 + cnt) := by omega
        have c2 : ¬(k ≤ i ∧ i < k + (cnt + 1)) := by omega
        simp only [if_neg c1, if_neg c2, if_neg (show ¬ i = k by omega), if_true, if_false]
      · subst heq
        have c1 : ¬(i + 1 ≤ i ∧ i < i + 1 + cnt) := by omega
        have c2 : i ≤ i ∧ i < i + (cnt + 1) := by omega
        simp only [if_pos c2, if_neg c1, if_pos rfl, if_true, if_false]
      · by_cases hwin : i < k + 1 + cnt
        · have c1 : k + 1 ≤ i ∧ i < k + 1 + cnt := ⟨by omega, hwin⟩
          have c2 : k ≤ i ∧ i < k + (cnt + 1) := by omega
          simp only [if_pos c1, if_pos c2, if_true]
          unfold newSum2Row
          beta_reduce
          simp only [if_neg (show ¬ i = k by omega)]
        · have c1 : ¬(k + 1 ≤ i ∧ i < k + 1 + cnt) := by omega
          have c2 : ¬(k ≤ i ∧ i < k + (cnt + 1)) := by omega
          simp only [if_neg c1, if_neg c2, if_neg (show ¬ i = k by omega), if_true, if_false]
    · rw [h2avg, hnum1]
      apply range_map_congr
      intro i hi
      beta_reduce
      rcases Nat.lt_trichotomy i k with hlt | heq | hgt
      · have c1 : ¬(k + 1 ≤ i ∧ i < k + 1 + cnt) := by omega
        have c2 : ¬(k ≤ i ∧ i < k + (cnt + 1)) := by omega
        simp only [if_neg c1, if_neg c2, if_neg (show ¬ i = k by omega), if_true, if_false]
      · subst heq
        have c1 : ¬(i + 1 ≤ i ∧ i < i + 1 + cnt) := by omega
        have c2 : i ≤ i ∧ i < i + (cnt + 1) := by omega
        simp only [if_pos c2, if_neg c1, if_pos rfl, if_true, if_false]
      · by_cases hwin : i < k + 1 + cnt
        · have c1 : k + 1 ≤ i ∧ i < k + 1 + cnt := ⟨by omega, hwin⟩
          have c2 : k ≤ i ∧ i < k + (cnt + 1) := by omega
          simp only [if_pos c1, if_pos c2, if_true]
          unfold newAvgRow newSumRow
          beta_reduce
          simp only [if_neg (show ¬ i = k by omega)]
        · have c1 : ¬(k + 1 ≤ i ∧ i < k + 1 + cnt) := by omega
          have c2 : ¬(k ≤ i ∧ i < k + (cnt + 1)) := by omega
          simp only [if_neg c1, if_neg c2, if_neg (show ¬ i = k by omega), if_true, if_false]
    · rw [h2var, hnum1]
      have hlen : k + 1 + cnt = k + (cnt + 1) := by omega
      rw [hlen]
      apply range_map_congr
      intro i hi
      beta_reduce
      rcases Nat.lt_trichotomy i k with hlt | heq | hgt
      · have c1 : ¬(k + 1 ≤ i) := by omega
        have c2 : ¬(k ≤ i) := by omega
        simp only [if_neg c1, if_neg c2, if_neg (show ¬ i = k by omega), if_true, if_false]
      · subst heq
        have c1 : ¬(i + 1 ≤ i) := by omega
        have c2 : i ≤ i := by omega
        simp only [if_pos c2, if_neg c1, if_pos rfl, if_true, if_false]
      · have c1 : k + 1 ≤ i := by omega
        have c2 : k ≤ i := by omega
        simp only [if_pos c1, if_pos c2, if_true]
        unfold newVarRow newAvgRow newSumRow newSum2Row
        beta_reduce
        simp only [if_neg (show ¬ i = k by omega)]

theorem earlyFinish_noEnd {r : MultiTrajResult} (h : r.policy = .noEnd) :
    earlyFinish r = (r, Rem.inf) := by
  unfold earlyFinish
  rw [h]

theorem earlyFinish_fixed {r : MultiTrajResult} (h : r.policy = .fixedEnd) :
    earlyFinish r = fixedEnd r := by
  unfold earlyFinish
  rw [h]

theorem earlyFinish_tol {r : MultiTrajResult} (h : r.policy = .targetTolEnd) :
    earlyFinish r = targetTolEnd r := by
  unfold earlyFinish
  rw [h]

theorem fixedEnd_zero {r : MultiTrajResult}
    (h : r.target_ntraj.getD 0 - (r.num_trajectories : ℤ) = 0) :
    fixedEnd r = ({ r with stats := { r.stats with end_condition := "ntraj reached" } },
      Rem.val ((r.target_ntraj.getD 0 - (r.num_trajectories : ℤ) : ℤ) : ℚ)) := by
  unfold fixedEnd
  dsimp only
  rw [if_pos h]

theorem fixedEnd_nonzero {r : MultiTrajResult}
    (h : ¬ r.target_ntraj.getD 0 - (r.num_trajectories : ℤ) = 0) :
    fixedEnd r = (r, Rem.val ((r.target_ntraj.getD 0 - (r.num_trajectories : ℤ) : ℤ) : ℚ)) := by
  unfold fixedEnd
  dsimp only
  rw [if_neg h]

theorem targetTolEnd_one {r : MultiTrajResult} (h : r.num_trajectories ≤ 1) :
    targetTolEnd r = (r, Rem.inf) := by
  unfold targetTolEnd
  rw [if_pos h]

theorem targetTolEnd_reached {r : MultiTrajResult} (h1 : ¬ r.num_trajectories ≤ 1)
    (h2 : tolRem r ≤ 0) :
    targetTolEnd r
      = ({ { r with estimated_ntraj := some (tolEst r) } with
            stats := { r.stats with end_condition := "target tolerance reached" } },
         Rem.val (tolRem r)) := by
  unfold targetTolEnd
  rw [if_neg h1]
  dsimp only
  rw [if_pos h2]

theorem targetTolEnd_notReached {r : MultiTrajResult} (h1 : ¬ r.num_trajectories ≤ 1)
    (h2 : ¬ tolRem r ≤ 0) :
    targetTolEnd r = ({ r with estimated_ntraj := some (tolEst r) }, Rem.val (tolRem r)) := by
  unfold targetTolEnd
  rw [if_neg h1]
  dsimp only
  rw [if_neg h2]

/-- `_early_finish_check` only writes `stats` and `_estimated_ntraj`. -/
theorem earlyFinish_frame (r : MultiTrajResult) :
    (earlyFinish r).1.raw_ops = r.raw_ops ∧ (earlyFinish r).1.opts = r.opts ∧
    (earlyFinish r).1.times = r.times ∧ (earlyFinish r).1.trajectories = r.trajectories ∧
    (earlyFinish r).1.num_trajectories = r.num_trajectories ∧
    (earlyFinish r).1.seeds = r.seeds ∧ (earlyFinish r).1.sum_states = r.sum_states ∧
    (earlyFinish r).1.sum_final_states = r.sum_final_states ∧
    (earlyFinish r).1.sum_expect = r.sum_expect ∧
    (earlyFinish r).1.sum2_expect = r.sum2_expect ∧
    (earlyFinish r).1.target_tols = r.target_tols ∧
    (earlyFinish r).1.average_e_data = r.average_e_data ∧
    (earlyFinish r).1.var_e_data = r.var_e_data ∧
    (earlyFinish r).1.runs_e_data = r.runs_e_data ∧
    (earlyFinish r).1.target_ntraj = r.target_ntraj ∧
    (earlyFinish r).1.policy = r.policy := by
  cases hpol : r.policy
  · rw [earlyFinish_noEnd hpol]
    exact ⟨rfl, rfl, rfl, rfl, rfl, rfl, rfl, rfl, rfl, rfl, rfl, rfl, rfl, rfl, rfl, hpol⟩
  · rw [earlyFinish_fixed hpol]
    by_cases h : r.target_ntraj.getD 0 - (r.num_trajectories : ℤ) = 0
    · rw [fixedEnd_zero h]
      exact ⟨rfl, rfl, rfl, rfl, rfl, rfl, rfl, rfl, rfl, rfl, rfl, rfl, rfl, rfl, rfl, hpol⟩
    · rw [fixedEnd_nonzero h]
      exact ⟨rfl, rfl, rfl, rfl, rfl, rfl, rfl, rfl, rfl, rfl, rfl, rfl, rfl, rfl, rfl, hpol⟩
  · rw [earlyFinish_tol hpol]
    by_cases h1 : r.num_trajectories ≤ 1
    · rw [targetTolEnd_one h1]
      exact ⟨rfl, rfl, rfl, rfl, rfl, rfl, rfl, rfl, rfl, rfl, rfl, rfl, rfl, rfl, rfl, hpol⟩
    · by_cases h2 : tolRem r ≤ 0
      · rw [targetTolEnd_reached h1 h2]
        exact ⟨rfl, rfl, rfl, rfl, rfl, rfl, rfl, rfl, rfl, rfl, rfl, rfl, rfl, rfl, rfl, hpol⟩
      · rw [targetTolEnd_notReached h1 h2]
        exact ⟨rfl, rfl, rfl, rfl, rfl, rfl, rfl, rfl, rfl, rfl, rfl, rfl, rfl, rfl, rfl, hpol⟩

theorem earlyFinish_goodRun {ops : List ℕ} {τ : List ℚ} {m L : ℕ} {ts : List Traj}
    {r : MultiTrajResult} (G : GoodRun ops τ m L ts r) :
    GoodRun ops τ m L ts (earlyFinish r).1 := by
  obtain ⟨f1, f2, f3, f4, f5, f6, f7, f8, f9, f10, f11, f12, f13, f14, f15, f16⟩ :=
    earlyFinish_frame r
  exact ⟨f1.trans G.raw, G.hm, f2.trans G.hopts, f3.trans G.htimes, f5.trans G.num,
    f9.trans G.sumE, f10.trans G.sum2E, f12.trans G.avgD, f13.trans G.varD,
    f14.trans G.runs, f4.trans G.htrajs, f7.trans G.hss, f8.trans G.hsf⟩

theorem addFirstTraj_opts (r : MultiTrajResult) (t : Traj) :
    (addFirstTraj r t).opts = r.opts := by
  unfold addFirstTraj
  dsimp only
  repeat' split
  all_goals rfl

theorem incrementTraj_opts (r : MultiTrajResult) (t : Traj) :
    (incrementTraj r t).opts = r.opts := by
  unfold incrementTraj
  dsimp only
  split
  · exact addFirstTraj_opts r t
  · rfl

/-- With no e-ops the `_reduce_expect` loop body is empty, so skipping the
processor and running it on an empty index list agree. -/
theorem reduceExpect_skip (r : MultiTrajResult) (t : Traj) :
    (if r.raw_ops.isEmpty then Except.ok r else reduceExpect t r) = reduceExpect t r := by
  by_cases h : r.raw_ops.isEmpty
  · rw [if_pos h]
    unfold reduceExpect
    rw [List.isEmpty_iff.mp h]
    rfl
  · rw [if_neg h]

/-- Evaluation of `add` when the options store neither states nor raw runs:
only `_increment_traj` and `_reduce_expect` act, then the finish check. -/
theorem add_eval_plain (r : MultiTrajResult) (s : ℕ) (t : Traj)
    (hopts : r.opts = plainOpts) :
    r.add s t =
      (match reduceExpect t (incrementTraj { r with seeds := r.seeds ++ [s] } t) with
       | .error r' => .err r'
       | .ok rf => .ok (earlyFinish rf).1 (earlyFinish rf).2) := by
  unfold MultiTrajResult.add
  dsimp only
  generalize hgen : incrementTraj { r with seeds := r.seeds ++ [s] } t = rb
  have hbo : rb.opts = plainOpts := by
    rw [← hgen, incrementTraj_opts]
    exact hopts
  rw [hbo]
  simp only [plainOpts, Bool.false_eq_true, if_false]
  unfold MultiTrajResult.storeStates
  rw [hbo]
  simp only [plainOpts, Option.getD_some, Bool.false_eq_true, Bool.false_or, if_false]
  rw [hbo]
  simp only [plainOpts, Option.getD_some, Bool.false_eq_true, Bool.false_or, if_false]
  rw [reduceExpect_skip]

theorem incrementTraj_zero {r : MultiTrajResult} (h : r.num_trajectories = 0) (t : Traj) :
    incrementTraj r t
      = { addFirstTraj r t with
          num_trajectories := (addFirstTraj r t).num_trajectories + 1 } := by
  unfold incrementTraj
  dsimp only
  rw [if_pos h]

theorem incrementTraj_pos {r : MultiTrajResult} (h : ¬ r.num_trajectories = 0) (t : Traj) :
    incrementTraj r t = { r with num_trajectories := r.num_trajectories + 1 } := by
  unfold incrementTraj
  dsimp only
  rw [if_neg h]

theorem addFirstTraj_nice {m L : ℕ} {τ : List ℚ} {t : Traj} (hN : Nice m L τ t)
    (r : MultiTrajResult) (hopts : r.opts = plainOpts) :
    addFirstTraj r t
      = { { { r with times := t.times } with
            sum_expect := some (t.expect.map (fun row => List.map (fun _ => (0 : ℚ)) row))
            sum2_expect := some (t.expect.map (fun row => List.map (fun _ => (0 : ℚ)) row)) } with
          average_e_data := List.zipWith (fun _ z => z) r.raw_ops
            (t.expect.map (fun row => List.map (fun _ => (0 : ℚ)) row)) } := by
  obtain ⟨ht, hm, hrow, hst, hfs⟩ := hN
  unfold addFirstTraj
  rw [hst, hfs]
  dsimp only
  rw [hopts]
  simp only [plainOpts, List.isEmpty_nil, if_true, Bool.false_eq_true, if_false]

theorem samples_single_sum (t : Traj) (i j : ℕ) :
    (samples [t] i j).sum = entryAt t i j := by
  simp [samples]

/-- The accumulator row written for e-op `i` when trajectory `t` arrives after
`ts`, in terms of the across-trajectory sums. -/
theorem newSumRow_spec {ts : List Traj} {t : Traj} {m L : ℕ} {τ : List ℚ}
    (hN : Nice m L τ t) {i : ℕ} (him : i < m) :
    newSumRow (fun i' => (List.range L).map (fun j => (samples ts i' j).sum)) t i
      = (List.range L).map (fun j => (samples (ts ++ [t]) i j).sum) := by
  unfold newSumRow
  beta_reduce
  rw [tRow_range_map hN.2.1 hN.2.2.1 him, zipWith_range_map]
  apply range_map_congr
  intro j hj
  rw [samples_append, List.sum_append, samples_single_sum]

theorem newSum2Row_spec {ts : List Traj} {t : Traj} {m L : ℕ} {τ : List ℚ}
    (hN : Nice m L τ t) {i : ℕ} (him : i < m) :
    newSum2Row (fun i' => (List.range L).map (fun j => ((samples ts i' j).map (fun x => x ^ 2)).sum)) t i
      = (List.range L).map (fun j => ((samples (ts ++ [t]) i j).map (fun x => x ^ 2)).sum) := by
  unfold newSum2Row
  beta_reduce
  rw [tRow_range_map hN.2.1 hN.2.2.1 him, map_range_map, zipWith_range_map]
  apply range_map_congr
  intro j hj
  rw [samples_append, List.map_append, List.sum_append]
  simp [samples, entryAt]

theorem newAvgRow_spec {ts : List Traj} {t : Traj} {m L : ℕ} {τ : List ℚ}
    (hN : Nice m L τ t) {i : ℕ} (him : i < m) :
    newAvgRow (fun i' => (List.range L).map (fun j => (samples ts i' j).sum)) t
      ((ts.length + 1 : ℕ) : ℚ) i
      = (List.range L).map (fun j => avgEntry (ts ++ [t]) i j) := by
  unfold newAvgRow
  rw [newSumRow_spec hN him, map_range_map]
  apply range_map_congr
  intro j hj
  unfold avgEntry
  rw [List.length_append]
  norm_num

theorem newVarRow_spec {ts : List Traj} {t : Traj} {m L : ℕ} {τ : List ℚ}
    (hN : Nice m L τ t) {i : ℕ} (him : i < m) :
    newVarRow (fun i' => (List.range L).map (fun j => (samples ts i' j).sum))
      (fun i' => (List.range L).map (fun j => ((samples ts i' j).map (fun x => x ^ 2)).sum))
      t ((ts.length + 1 : ℕ) : ℚ) i
      = (List.range L).map
          (fun j => abs (sqEntry (ts ++ [t]) i j - abs (avgEntry (ts ++ [t]) i j ^ 2))) := by
  unfold newVarRow
  rw [newSum2Row_spec hN him, newAvgRow_spec hN him, map_range_map, zipWith_range_map]
  apply range_map_congr
  intro j hj
  unfold sqEntry
  rw [List.length_append]
  norm_num

theorem nice_zeros {m L : ℕ} {τ : List ℚ} {t : Traj} (hN : Nice m L τ t) :
    t.expect.map (fun row => List.map (fun _ => (0 : ℚ)) row)
      = (List.range m).map
          (fun i => (List.range L).map (fun j => (samples ([] : List Traj) i j).sum)) := by
  apply List.ext_getElem
  · simp [hN.2.1]
  · intro i h1 h2
    simp only [List.getElem_map, List.getElem_range]
    apply List.ext_getElem
    · simp [hN.2.2.1 _ (List.getElem_mem _)]
    · intro j hh1 hh2
      simp [samples]

/-- One successful `add` onto a `plainOpts` aggregation that already ingested
the nonempty list `ts`: the outcome is `earlyFinish` of a state accumulating
`ts ++ [t]`, and only `seeds`, the accumulators and the finish-check fields
move. -/
theorem add_step_spec {ops : List ℕ} {τ : List ℚ} {m L : ℕ} {ts : List Traj}
    {r : MultiTrajResult} (G : GoodRun ops τ m L ts r) (hts : ts ≠ [])
    {t : Traj} (hN : Nice m L τ t) (s : ℕ) :
    ∃ rPre, r.add s t = .ok (earlyFinish rPre).1 (earlyFinish rPre).2 ∧
      GoodRun ops τ m L (ts ++ [t]) rPre ∧
      rPre.policy = r.policy ∧ rPre.target_tols = r.target_tols ∧
      rPre.target_ntraj = r.target_ntraj ∧ rPre.estimated_ntraj = r.estimated_ntraj ∧
      rPre.stats = r.stats ∧ rPre.seeds = r.seeds ++ [s] := by
  have hEm : t.expect.length = m := hN.2.1
  have hErow := hN.2.2.1
  obtain ⟨ro, oo, τo, trjo, no, sdo, sso, sfo, seo, s2o, tto, ao, vo, runo, tno, eno, po, sto⟩ := r
  obtain ⟨g1, g2, g3, g4, g5, g6, g7, g8, g9, g10, g11, g12, g13⟩ := G
  dsimp only at g1 g3 g4 g5 g6 g7 g8 g9 g10 g11 g12 g13
  subst g1 g3 g4 g5 g6 g7 g8 g9 g10 g11 g12 g13
  rw [add_eval_plain _ s t rfl]
  rw [incrementTraj_pos (by simpa using hts) t]
  dsimp only
  obtain ⟨r', haux, h2sum, h2sum2, h2avg, h2var, h2runs, h2frame⟩ :=
    reduceExpectAux_spec_full t m L hEm hErow m 0
      (fun i => (List.range L).map (fun j => (samples ts i j).sum))
      (fun i => (List.range L).map (fun j => ((samples ts i j).map (fun x => x ^ 2)).sum))
      (fun i => (List.range L).map (fun j => avgEntry ts i j))
      (fun i => (List.range L).map
        (fun j => abs (sqEntry ts i j - abs (avgEntry ts i j ^ 2))))
      { raw_ops := ro, opts := plainOpts, times := τo, trajectories := [],
        num_trajectories := ts.length + 1, seeds := sdo ++ [s], sum_states := none,
        sum_final_states := none, sum_expect := some (sumMat ts m L),
        sum2_expect := some (sumSqMat ts m L), target_tols := tto,
        average_e_data := avgMat ts m L, var_e_data := varMat ts m L,
        runs_e_data := [], target_ntraj := tno, estimated_ntraj := eno,
        policy := po, stats := sto }
      (by omega) (by intro i hi; simp) (by intro i hi; simp)
      rfl rfl rfl rfl rfl
  have hred : reduceExpect t
      ({ raw_ops := ro, opts := plainOpts, times := τo, trajectories := [],
         num_trajectories := ts.length + 1, seeds := sdo ++ [s], sum_states := none,
         sum_final_states := none, sum_expect := some (sumMat ts m L),
         sum2_expect := some (sumSqMat ts m L), target_tols := tto,
         average_e_data := avgMat ts m L, var_e_data := varMat ts m L,
         runs_e_data := [], target_ntraj := tno, estimated_ntraj := eno,
         policy := po, stats := sto } : MultiTrajResult) = .ok r' := by
    unfold reduceExpect
    dsimp only
    rw [g2, List.range_eq_range']
    exact haux
  rw [hred]
  have hfr := h2frame
  obtain ⟨f1, f2, f3, f4, f5, f6, f7, f8, f9, f10, f11, f12, f13⟩ := hfr
  refine ⟨r', rfl, ?_, f12, f9, f10, f11, f13, f6⟩
  refine ⟨f1, g2, f2, f3, by rw [f5]; simp, ?_, ?_, ?_, ?_, h2runs, f4, f7, f8⟩
  · rw [h2sum]
    apply congrArg
    unfold sumMat
    apply range_map_congr
    intro i hi
    rw [if_pos (by omega)]
    exact newSumRow_spec hN hi
  · rw [h2sum2]
    apply congrArg
    unfold sumSqMat
    apply range_map_congr
    intro i hi
    rw [if_pos (by omega)]
    exact newSum2Row_spec hN hi
  · rw [h2avg]
    unfold avgMat
    apply range_map_congr
    intro i hi
    rw [if_pos (by omega)]
    exact newAvgRow_spec hN hi
  · rw [h2var]
    unfold varMat
    apply range_map_congr
    intro i hi
    rw [if_pos (by omega)]
    exact newVarRow_spec hN hi

/-- The first successful `add` on a freshly constructed `plainOpts`
aggregation: `_add_first_traj` runs and the result accumulates `[t]`. -/
theorem add_first_spec {ops : List ℕ} {m L : ℕ} {τ : List ℚ} {r : MultiTrajResult}
    (G : GoodStart ops r) (hm : ops.length = m) {t : Traj} (hN : Nice m L τ t) (s : ℕ) :
    ∃ rPre, r.add s t = .ok (earlyFinish rPre).1 (earlyFinish rPre).2 ∧
      GoodRun ops τ m L [t] rPre ∧
      rPre.policy = r.policy ∧ rPre.target_tols = r.target_tols ∧
      rPre.target_ntraj = r.target_ntraj ∧ rPre.estimated_ntraj = r.estimated_ntraj ∧
      rPre.stats = r.stats ∧ rPre.seeds = r.seeds ++ [s] := by
  have hEm : t.expect.length = m := hN.2.1
  have hErow := hN.2.2.1
  obtain ⟨ro, oo, τo, trjo, no, sdo, sso, sfo, seo, s2o, tto, ao, vo, runo, tno, eno, po, sto⟩ := r
  obtain ⟨g1, g2, g3, g4, g5, g6, g7, g8⟩ := G
  dsimp only at g1 g2 g3 g4 g5 g6 g7 g8
  subst g1 g2 g3 g4 g5 g6 g7 g8
  rw [add_eval_plain _ s t rfl]
  rw [incrementTraj_zero rfl t]
  rw [addFirstTraj_nice hN _ rfl]
  dsimp only
  rw [nice_zeros hN]
  rw [zipWith_snd_eq ro _ (by simp [hm])]
  obtain ⟨r', haux, h2sum, h2sum2, h2avg, h2var, h2runs, h2frame⟩ :=
    reduceExpectAux_spec_build t m L hEm hErow m 0
      (fun i => (List.range L).map (fun j => (samples ([] : List Traj) i j).sum))
      (fun i => (List.range L).map (fun j => (samples ([] : List Traj) i j).sum))
      (fun i => (List.range L).map (fun j => (samples ([] : List Traj) i j).sum))
      (fun i => (List.range L).map (fun j => (samples ([] : List Traj) i j).sum))
      { raw_ops := ro, opts := plainOpts, times := t.times, trajectories := [],
        num_trajectories := 0 + 1, seeds := sdo ++ [s], sum_states := none,
        sum_final_states := none,
        sum_expect := some ((List.range m).map
          (fun i => (List.range L).map (fun j => (samples ([] : List Traj) i j).sum))),
        sum2_expect := some ((List.range m).map
          (fun i => (List.range L).map (fun j => (samples ([] : List Traj) i j).sum))),
        target_tols := tto,
        average_e_data := (List.range m).map
          (fun i => (List.range L).map (fun j => (samples ([] : List Traj) i j).sum)),
        var_e_data := [], runs_e_data := [], target_ntraj := tno, estimated_ntraj := eno,
        policy := po, stats := sto }
      (by omega) (by intro i hi; simp) (by intro i hi; simp)
      rfl rfl rfl rfl rfl
  have hred : reduceExpect t
      ({ raw_ops := ro, opts := plainOpts, times := t.times, trajectories := [],
         num_trajectories := 0 + 1, seeds := sdo ++ [s], sum_states := none,
         sum_final_states := none,
         sum_expect := some ((List.range m).map
           (fun i => (List.range L).map (fun j => (samples ([] : List Traj) i j).sum))),
         sum2_expect := some ((List.range m).map
           (fun i => (List.range L).map (fun j => (samples ([] : List Traj) i j).sum))),
         target_tols := tto,
         average_e_data := (List.range m).map
           (fun i => (List.range L).map (fun j => (samples ([] : List Traj) i j).sum)),
         var_e_data := [], runs_e_data := [], target_ntraj := tno, estimated_ntraj := eno,
         policy := po, stats := sto } : MultiTrajResult) = .ok r' := by
    unfold reduceExpect
    dsimp only
    have hrr : List.range ro.length = List.range' 0 m := by
      rw [hm, List.range_eq_range']
    rw [hrr]
    exact haux
  rw [hred]
  have hfr := h2frame
  obtain ⟨f1, f2, f3, f4, f5, f6, f7, f8, f9, f10, f11, f12, f13⟩ := hfr
  refine ⟨r', rfl, ?_, f12, f9, f10, f11, f13, f6⟩
  refine ⟨f1, hm, f2, f3.trans hN.1, by rw [f5]; rfl, ?_, ?_, ?_, ?_, h2runs, f4, f7, f8⟩
  · rw [h2sum]
    apply congrArg
    unfold sumMat
    apply range_map_congr
    intro i hi
    rw [if_pos (by omega)]
    exact newSumRow_spec hN hi
  · rw [h2sum2]
    apply congrArg
    unfold sumSqMat
    apply range_map_congr
    intro i hi
    rw [if_pos (by omega)]
    have hz : (fun i' => (List.range L).map (fun j => (samples ([] : List Traj) i' j).sum))
        = (fun i' => (List.range L).map
            (fun j => ((samples ([] : List Traj) i' j).map (fun x => x ^ 2)).sum)) := by
      funext i'
      simp [samples]
    rw [hz]
    exact newSum2Row_spec hN hi
  · rw [h2avg]
    unfold avgMat
    apply range_map_congr
    intro i hi
    rw [if_pos (by omega)]
    exact newAvgRow_spec hN hi
  · rw [h2var]
    unfold varMat
    rw [show (0 + m) = m from Nat.zero_add m]
    apply range_map_congr
    intro i hi
    rw [if_pos (by omega)]
    have hz : (fun i' => (List.range L).map (fun j => (samples ([] : List Traj) i' j).sum))
        = (fun i' => (List.range L).map
            (fun j => ((samples ([] : List Traj) i' j).map (fun x => x ^ 2)).sum)) := by
      funext i'
      simp [samples]
    have hv := @newVarRow_spec ([] : List Traj) t m L τ hN i hi
    rw [← hz] at hv
    exact hv

theorem addAll_from_good {ops : List ℕ} {τ : List ℚ} {m L : ℕ} :
    ∀ (ps : List (ℕ × Traj)) {ts : List Traj} {r : MultiTrajResult},
      GoodRun ops τ m L ts r → ts ≠ [] → (∀ p ∈ ps, Nice m L τ p.2) →
      ∃ r', addAll r ps = some r' ∧ GoodRun ops τ m L (ts ++ ps.map Prod.snd) r' ∧
        r'.policy = r.policy ∧ r'.target_tols = r.target_tols ∧
        r'.target_ntraj = r.target_ntraj ∧ r'.seeds = r.seeds ++ ps.map Prod.fst := by
  intro ps
  induction ps with
  | nil =>
    intro ts r G hts hN
    refine ⟨r, rfl, ?_, rfl, rfl, rfl, by simp⟩
    simpa using G
  | cons p rest ih =>
    intro ts r G hts hN
    obtain ⟨rPre, hadd, GPre, hpol, htols, hntraj, hest, hstats, hseeds⟩ :=
      add_step_spec G hts (hN p (List.mem_cons_self p rest)) p.1
    obtain ⟨f1, f2, f3, f4, f5, f6, f7, f8, f9, f10, f11, f12, f13, f14, f15, f16⟩ :=
      earlyFinish_frame rPre
    obtain ⟨r', hall, G', hpol', htols', hntraj', hseeds'⟩ :=
      ih (earlyFinish_goodRun GPre) (by simp)
        (fun q hq => hN q (List.mem_cons_of_mem p hq))
    refine ⟨r', ?_, ?_, ?_, ?_, ?_, ?_⟩
    · show addAll r ((p.1, p.2) :: rest) = some r'
      unfold addAll
      rw [hadd]
      exact hall
    · have : ts ++ [p.2] ++ rest.map Prod.snd = ts ++ (p :: rest).map Prod.snd := by
        simp
      rw [← this]
      exact G'
    · rw [hpol', f16, hpol]
    · rw [htols', f11, htols]
    · rw [hntraj', f15, hntraj]
    · rw [hseeds', f6, hseeds]
      simp

theorem addAll_spec {ops : List ℕ} {m L : ℕ} {τ : List ℚ} {r0 : MultiTrajResult}
    (G : GoodStart ops r0) (hm : ops.length = m) (ps : List (ℕ × Traj)) (hps : ps ≠ [])
    (hN : ∀ p ∈ ps, Nice m L τ p.2) :
    ∃ r', addAll r0 ps = some r' ∧ GoodRun ops τ m L (ps.map Prod.snd) r' ∧
      r'.policy = r0.policy ∧ r'.target_tols = r0.target_tols ∧
      r'.target_ntraj = r0.target_ntraj ∧ r'.seeds = r0.seeds ++ ps.map Prod.fst := by
  match ps, hps with
  | (p :: rest), _ =>
    obtain ⟨rPre, hadd, GPre, hpol, htols, hntraj, hest, hstats, hseeds⟩ :=
      add_first_spec G hm (hN p (List.mem_cons_self p rest)) p.1
    obtain ⟨f1, f2, f3, f4, f5, f6, f7, f8, f9, f10, f11, f12, f13, f14, f15, f16⟩ :=
      earlyFinish_frame rPre
    obtain ⟨r', hall, G', hpol', htols', hntraj', hseeds'⟩ :=
      addAll_from_good rest (earlyFinish_goodRun GPre) (by simp)
        (fun q hq => hN q (List.mem_cons_of_mem p hq))
    refine ⟨r', ?_, ?_, ?_, ?_, ?_, ?_⟩
    · show addAll r0 ((p.1, p.2) :: rest) = some r'
      unfold addAll
      rw [hadd]
      exact hall
    · simpa using G'
    · rw [hpol', f16, hpol]
    · rw [htols', f11, htols]
    · rw [hntraj', f15, hntraj]
    · rw [hseeds', f6, hseeds]
      simp

theorem mkResult_goodStart (ops : List ℕ) (st : Stats) :
    GoodStart ops (mkResult ops plainOpts st) :=
  ⟨rfl, rfl, rfl, rfl, rfl, rfl, rfl, rfl⟩

/-- C1: for every sequence of identically shaped trajectories ingested by a
`MultiTrajResult` (plain options), each `average_expect[k][t]` is the
arithmetic mean of the trajectories' `expect[k][t]`, each `std_expect[k][t]`
is the population standard deviation of the same sample, and every entry of
`std_expect` of any aggregation state whatsoever is nonnegative (the stored
radicand is wrapped in `abs` before the square root). -/
theorem C1_expect_statistics
    (ops : List ℕ) (m L : ℕ) (τ : List ℚ) (st : Stats) (ps : List (ℕ × Traj))
    (hm : ops.length = m) (hps : ps ≠ []) (hN : ∀ p ∈ ps, Nice m L τ p.2)
    {r : MultiTrajResult} (hrun : addAll (mkResult ops plainOpts st) ps = some r) :
    (∀ i j, i < m → j < L →
      (r.average_expect.getD i []).getD j 0 = sampleMean (samples (ps.map Prod.snd) i j) ∧
      (r.std_expect.getD i []).getD j 0 = popStd (samples (ps.map Prod.snd) i j) ∧
      0 ≤ (r.std_expect.getD i []).getD j 0) ∧
    (∀ rAny : MultiTrajResult, ∀ row ∈ rAny.std_expect, ∀ x ∈ row, 0 ≤ x) := by
  constructor
  · intro i j hi hj
    obtain ⟨r', hall, G, -, -, -, -⟩ :=
      addAll_spec (mkResult_goodStart ops st) hm ps hps hN
    rw [hrun] at hall
    have hre : r = r' := Option.some.inj hall
    subst hre
    have hts : ps.map Prod.snd ≠ [] := by simpa using hps
    have havg : r.average_expect = avgMat (ps.map Prod.snd) m L := G.avgD
    have hstd : r.std_expect
        = (List.range m).map (fun i' => (List.range L).map
            (fun j' => Real.sqrt
              ((abs (sqEntry (ps.map Prod.snd) i' j'
                - abs (avgEntry (ps.map Prod.snd) i' j' ^ 2)) : ℚ))) ) := by
      show r.var_e_data.map _ = _
      rw [G.varD]
      unfold varMat
      rw [map_range_map]
      apply range_map_congr
      intro i' hi'
      rw [map_range_map]
    refine ⟨?_, ?_, ?_⟩
    · rw [havg]
      unfold avgMat
      rw [getD_range_map _ _ hi, getD_range_map _ _ hj]
      exact avgEntry_eq_sampleMean _ i j
    · rw [hstd, getD_range_map _ _ hi, getD_range_map _ _ hj,
        varEntry_eq_popVar _ i j hts]
      rfl
    · rw [hstd, getD_range_map _ _ hi, getD_range_map _ _ hj]
      exact Real.sqrt_nonneg _
  · intro rAny row hrow x hx
    unfold MultiTrajResult.std_expect at hrow
    obtain ⟨vrow, -, rfl⟩ := List.mem_map.mp hrow
    obtain ⟨q, -, rfl⟩ := List.mem_map.mp hx
    exact Real.sqrt_nonneg _

theorem C1_expect_statistics_witness :
    addAll (mkResult [0] plainOpts { run_time := 0, end_condition := "" }) c1ps = some c1res ∧
    (c1res.average_expect.getD 0 []).getD 1 0 = sampleMean (samples (c1ps.map Prod.snd) 0 1) ∧
    (c1res.std_expect.getD 0 []).getD 1 0 = popStd (samples (c1ps.map Prod.snd) 0 1) ∧
    0 ≤ (c1res.std_expect.getD 0 []).getD 1 0 := by
  have hrun : addAll (mkResult [0] plainOpts { run_time := 0, end_condition := "" }) c1ps
      = some c1res := by
    norm_num [c1res, c1ps, c1t1, c1t2, c1t3, addAll, MultiTrajResult.add, incrementTraj,
      addFirstTraj, mkResult, plainOpts, MultiTrajResult.storeStates, reduceExpect,
      reduceExpectAux, reduceExpectStep, npAddInto, dictSet, earlyFinish, c1fallback]
  have h := @C1_expect_statistics [0] 1 3 [0, 1, 2] { run_time := 0, end_condition := "" }
    c1ps rfl (by decide) (by decide) c1res hrun
  exact ⟨hrun, h.1 0 1 (by decide) (by decide)⟩

/-- Evaluation of `add_end_condition` with no tolerance: it records the
target count, resets the end condition to "timeout" and installs the
fixed-count check. -/
theorem addEndCondition_none_spec (r0 : MultiTrajResult) (N : ℤ) :
    r0.addEndCondition N none
      = .ok { { r0 with target_ntraj := some N,
                        stats := { r0.stats with end_condition := "timeout" } } with
              policy := .fixedEnd } := rfl

/-- Behaviour of the finish check on a fixed-count state with `n`
trajectories: the returned remainder is `N - n`, the count is untouched, and
the end condition is set to "ntraj reached" exactly when the count hits `N`
(otherwise the pre-existing "timeout" survives). -/
theorem fixedFinal {N : ℤ} {rPre : MultiTrajResult} {n : ℕ}
    (hpol : rPre.policy = .fixedEnd) (htn : rPre.target_ntraj = some N)
    (hnum : rPre.num_trajectories = n) (hst : rPre.stats.end_condition = "timeout") :
    (earlyFinish rPre).2 = .val ((N - (n : ℤ) : ℤ) : ℚ) ∧
    (earlyFinish rPre).1.num_trajectories = n ∧
    (((n : ℕ) : ℤ) = N → (earlyFinish rPre).1.stats.end_condition = "ntraj reached") ∧
    (((n : ℕ) : ℤ) < N → (earlyFinish rPre).1.stats.end_condition = "timeout") := by
  have hleft : rPre.target_ntraj.getD 0 - (rPre.num_trajectories : ℤ) = N - (n : ℤ) := by
    rw [htn, hnum]
    rfl
  rw [earlyFinish_fixed hpol]
  by_cases hz : N - (n : ℤ) = 0
  · rw [fixedEnd_zero (hleft.trans hz)]
    refine ⟨?_, ?_, fun _ => rfl, fun h => absurd hz (by omega)⟩
    · dsimp only
      rw [hleft]
    · dsimp only
      exact hnum
  · rw [fixedEnd_nonzero (fun hc => hz (hleft.symm.trans hc))]
    refine ⟨?_, ?_, fun hc => absurd hc (by omega), fun _ => ?_⟩
    · dsimp only
      rw [hleft]
    · dsimp only
      exact hnum
    · dsimp only
      exact hst

/-- Running a list of trajectories through a fixed-count aggregation whose
count stays strictly below the target keeps the policy, the target and the
"timeout" end condition. -/
theorem fixedRunChain {ops : List ℕ} {τ : List ℚ} {m L : ℕ} {N : ℤ} :
    ∀ (ps : List (ℕ × Traj)) {ts : List Traj} {r : MultiTrajResult},
      GoodRun ops τ m L ts r → ts ≠ [] →
      r.policy = .fixedEnd → r.target_ntraj = some N →
      r.stats.end_condition = "timeout" →
      (∀ p ∈ ps, Nice m L τ p.2) →
      ((ts.length : ℤ) + (ps.length : ℤ) < N) →
      ∃ r', addAll r ps = some r' ∧
        GoodRun ops τ m L (ts ++ ps.map Prod.snd) r' ∧
        r'.policy = .fixedEnd ∧ r'.target_ntraj = some N ∧
        r'.stats.end_condition = "timeout" := by
  intro ps
  induction ps with
  | nil =>
    intro ts r G hts hpol htn hst hN hlt
    exact ⟨r, rfl, by simpa using G, hpol, htn, hst⟩
  | cons p rest ih =>
    intro ts r G hts hpol htn hst hN hlt
    obtain ⟨p1, p2⟩ := p
    obtain ⟨rPre, hadd, GPre, hpol', _, htn', _, hstats', _⟩ :=
      add_step_spec G hts (hN (p1, p2) (List.mem_cons_self _ rest)) p1
    have hpolF : rPre.policy = .fixedEnd := hpol'.trans hpol
    have htnF : rPre.target_ntraj = some N := htn'.trans htn
    have hnumF : rPre.num_trajectories = ts.length + 1 := by
      rw [GPre.num]
      simp
    have hne : ¬ (rPre.target_ntraj.getD 0 - (rPre.num_trajectories : ℤ) = 0) := by
      rw [htnF, hnumF]
      simp only [Option.getD_some]
      have h2 := hlt
      simp only [List.length_cons] at h2
      omega
    rw [earlyFinish_fixed hpolF, fixedEnd_nonzero hne] at hadd
    dsimp only at hadd
    have hstF : rPre.stats.end_condition = "timeout" := by
      rw [hstats']
      exact hst
    obtain ⟨r', hall, G', hp', ht', hs'⟩ :=
      ih GPre (by simp) hpolF htnF hstF
        (fun q hq => hN q (List.mem_cons_of_mem _ hq))
        (by
          have h2 := hlt
          simp only [List.length_cons] at h2
          simp only [List.length_append, List.length_cons, List.length_nil]
          omega)
    refine ⟨r', ?_, ?_, hp', ht', hs'⟩
    · show addAll r ((p1, p2) :: rest) = some r'
      unfold addAll
      rw [hadd]
      exact hall
    · have he : ts ++ [p2] ++ rest.map Prod.snd = ts ++ ((p1, p2) :: rest).map Prod.snd := by
        simp
      rw [← he]
      exact G'

/-- C6: under the fixed-count policy installed by `add_end_condition(N)` with
no tolerance, the `n`-th successful `add` (at any position `n = pre.length +
1 ≤ N` of the ingestion sequence) returns exactly `N - n`; when `n = N` the
value returned is `0` and the end condition becomes "ntraj reached", while
for `n < N` the end condition is still "timeout" (so not "ntraj reached"). -/
theorem C6_fixed_count
    (ops : List ℕ) (m L : ℕ) (τ : List ℚ) (st : Stats) (N : ℤ) (r0 : MultiTrajResult)
    (hsetup : (mkResult ops plainOpts st).addEndCondition N none = .ok r0)
    (hm : ops.length = m)
    (ps : List (ℕ × Traj)) (hN : ∀ p ∈ ps, Nice m L τ p.2)
    (hlen : ((ps.length : ℕ) : ℤ) ≤ N)
    (pre : List (ℕ × Traj)) (s : ℕ) (t : Traj) (post : List (ℕ × Traj))
    (hsplit : ps = pre ++ (s, t) :: post) :
    ∃ rp r', addAll r0 pre = some rp ∧
      rp.add s t = .ok r' (.val ((N - ((pre.length + 1 : ℕ) : ℤ) : ℤ) : ℚ)) ∧
      r'.num_trajectories = pre.length + 1 ∧
      (((pre.length + 1 : ℕ) : ℤ) = N → r'.stats.end_condition = "ntraj reached") ∧
      (((pre.length + 1 : ℕ) : ℤ) < N → r'.stats.end_condition = "timeout") := by
  rw [addEndCondition_none_spec] at hsetup
  have hr0 := (Except.ok.inj hsetup).symm
  have G0 : GoodStart ops r0 := by
    rw [hr0]
    exact ⟨rfl, rfl, rfl, rfl, rfl, rfl, rfl, rfl⟩
  have hp0 : r0.policy = .fixedEnd := by rw [hr0]
  have ht0 : r0.target_ntraj = some N := by rw [hr0]
  have hs0 : r0.stats.end_condition = "timeout" := by rw [hr0]
  subst hsplit
  have hNt : Nice m L τ t := hN (s, t) (by simp)
  cases pre with
  | nil =>
    obtain ⟨rPre, hadd, GPre, hpol, _, htn, _, hstats, _⟩ := add_first_spec G0 hm hNt s
    have hpolF : rPre.policy = .fixedEnd := hpol.trans hp0
    have htnF : rPre.target_ntraj = some N := htn.trans ht0
    have hnumF : rPre.num_trajectories = List.length ([] : List (ℕ × Traj)) + 1 :=
      GPre.num.trans rfl
    have hstF : rPre.stats.end_condition = "timeout" := by
      rw [hstats]
      exact hs0
    obtain ⟨hrem, hnum', hcEq, hcLt⟩ := fixedFinal hpolF htnF hnumF hstF
    refine ⟨r0, (earlyFinish rPre).1, rfl, ?_, hnum', hcEq, hcLt⟩
    rw [hadd, hrem]
  | cons q qre =>
    obtain ⟨q1, q2⟩ := q
    have hNq : Nice m L τ q2 := hN (q1, q2) (by simp)
    have hNqre : ∀ p ∈ qre, Nice m L τ p.2 := fun p hp =>
      hN p (by simp [List.mem_append, hp])
    have hL : (((q1, q2) :: qre) ++ (s, t) :: post).length
        = qre.length + post.length + 2 := by
      simp only [List.length_append, List.length_cons]
      omega
    rw [hL] at hlen
    obtain ⟨rPre1, hadd1, GPre1, hpol1, _, htn1, _, hstats1, _⟩ :=
      add_first_spec G0 hm hNq q1
    have hpolF1 : rPre1.policy = .fixedEnd := hpol1.trans hp0
    have htnF1 : rPre1.target_ntraj = some N := htn1.trans ht0
    have hnumF1 : rPre1.num_trajectories = 1 := GPre1.num.trans rfl
    have hstF1 : rPre1.stats.end_condition = "timeout" := by
      rw [hstats1]
      exact hs0
    have hne1 : ¬ (rPre1.target_ntraj.getD 0 - (rPre1.num_trajectories : ℤ) = 0) := by
      rw [htnF1, hnumF1]
      simp only [Option.getD_some]
      omega
    rw [earlyFinish_fixed hpolF1, fixedEnd_nonzero hne1] at hadd1
    dsimp only at hadd1
    obtain ⟨rp, hallq, Grp, hpolrp, htnrp, hstrp⟩ :=
      fixedRunChain qre GPre1 (by simp) hpolF1 htnF1 hstF1 hNqre
        (by
          simp only [List.length_cons, List.length_nil]
          omega)
    have haddAll : addAll r0 ((q1, q2) :: qre) = some rp := by
      unfold addAll
      rw [hadd1]
      exact hallq
    obtain ⟨rPre2, hadd2, GPre2, hpol2, _, htn2, _, hstats2, _⟩ :=
      add_step_spec Grp (by simp) hNt s
    have hpolF2 : rPre2.policy = .fixedEnd := hpol2.trans hpolrp
    have htnF2 : rPre2.target_ntraj = some N := htn2.trans htnrp
    have hnumF2 : rPre2.num_trajectories = List.length ((q1, q2) :: qre) + 1 := by
      rw [GPre2.num]
      simp only [List.length_append, List.length_cons, List.length_nil, List.length_map]
      omega
    have hstF2 : rPre2.stats.end_condition = "timeout" := by
      rw [hstats2]
      exact hstrp
    obtain ⟨hrem, hnum', hcEq, hcLt⟩ := fixedFinal hpolF2 htnF2 hnumF2 hstF2
    refine ⟨rp, (earlyFinish rPre2).1, haddAll, ?_, hnum', hcEq, hcLt⟩
    rw [hadd2, hrem]

theorem C6_fixed_count_witness :
    ∃ rp r', addAll c6r0 [(1, c6t)] = some rp ∧
      rp.add 2 c6t
        = .ok r' (.val ((2 - ((List.length [(1, c6t)] + 1 : ℕ) : ℤ) : ℤ) : ℚ)) ∧
      r'.num_trajectories = 2 ∧ r'.stats.end_condition = "ntraj reached" ∧
      ((2 - ((List.length [(1, c6t)] + 1 : ℕ) : ℤ) : ℤ) : ℚ) = 0 := by
  obtain ⟨rp, r', h1, h2, h3, h4, h5⟩ :=
    C6_fixed_count [0] 1 1 [0] { run_time := 0, end_condition := "" } 2 c6r0 rfl rfl
      [(1, c6t), (2, c6t)] (by decide) (by decide) [(1, c6t)] 2 c6t [] rfl
  exact ⟨rp, r', h1, h2, h3, h4 (by decide), by norm_num⟩

theorem zipWith3_eq_zipWith_zip {α β γ δ : Type} (f : α → β → γ → δ) :
    ∀ (a : List α) (b : List β) (c : List γ),
      zipWith3 f a b c = List.zipWith (fun p z => f p.1 p.2 z) (a.zip b) c := by
  intro a
  induction a with
  | nil => intro b c; cases b <;> cases c <;> rfl
  | cons x as ih =>
    intro b c
    cases b with
    | nil => cases c <;> rfl
    | cons y bs =>
      cases c with
      | nil => rfl
      | cons z cs =>
        show f x y z :: zipWith3 f as bs cs
            = List.zipWith (fun p z => f p.1 p.2 z) ((x, y) :: as.zip bs) (z :: cs)
        rw [List.zipWith_cons_cons, ih]

theorem zipWith3_range_map {α β γ δ : Type} (f : ℕ → α) (g : ℕ → β) (h : ℕ → γ)
    (op : α → β → γ → δ) (n : ℕ) :
    zipWith3 op ((List.range n).map f) ((List.range n).map g) ((List.range n).map h)
      = (List.range n).map (fun i => op (f i) (g i) (h i)) := by
  rw [zipWith3_eq_zipWith_zip, List.zip_map' f g,
    zipWith_range_map (fun a => (f a, g a)) h (fun p z => op p.1 p.2 z) n]

theorem zipWith_getD_range_map {α β γ : Type} (f : ℕ → α) (op : α → β → γ) (d : β)
    (l : List β) {n : ℕ} (hl : l.length = n) :
    List.zipWith op ((List.range n).map f) l
      = (List.range n).map (fun i => op (f i) (l.getD i d)) := by
  conv_lhs => rw [eq_range_map d l]
  rw [hl]
  exact zipWith_range_map f (fun i => l.getD i d) op n

theorem mem_flatten_range_map {α : Type} {g : ℕ → ℕ → α} {m L : ℕ} {x : α} :
    x ∈ ((List.range m).map (fun i => (List.range L).map (g i))).flatten
      ↔ ∃ i, i < m ∧ ∃ j, j < L ∧ x = g i j := by
  constructor
  · intro hx
    obtain ⟨l, hl, hxl⟩ := List.mem_flatten.mp hx
    obtain ⟨i, hi, rfl⟩ := List.mem_map.mp hl
    obtain ⟨j, hj, rfl⟩ := List.mem_map.mp hxl
    exact ⟨i, List.mem_range.mp hi, j, List.mem_range.mp hj, rfl⟩
  · rintro ⟨i, hi, j, hj, rfl⟩
    exact List.mem_flatten.mpr ⟨_, List.mem_map.mpr ⟨i, List.mem_range.mpr hi, rfl⟩,
      List.mem_map.mpr ⟨j, List.mem_range.mpr hj, rfl⟩⟩

theorem listMaxD_le {l : List ℚ} {c : ℚ} (h0 : 0 ≤ c) (hall : ∀ x ∈ l, x ≤ c) :
    listMaxD l ≤ c := by
  cases l with
  | nil => exact h0
  | cons a as => exact hall _ (foldl_max_mem as a)

/-- The local `avg` of `_target_tolerance_end` on a state accumulating `ts`
is the matrix of sample means. -/
theorem tolAvg_spec {ops : List ℕ} {τ : List ℚ} {m L : ℕ} {ts : List Traj}
    {r : MultiTrajResult} (G : GoodRun ops τ m L ts r) :
    tolAvg r = (List.range m).map (fun i =>
      (List.range L).map (fun j => avgEntry ts i j)) := by
  unfold tolAvg
  rw [G.sumE, G.num]
  simp only [Option.getD_some]
  unfold sumMat
  rw [map_range_map]
  apply range_map_congr
  intro i hi
  rw [map_range_map]
  rfl

/-- The local `avg2` is the matrix of sample mean squares. -/
theorem tolAvg2_spec {ops : List ℕ} {τ : List ℚ} {m L : ℕ} {ts : List Traj}
    {r : MultiTrajResult} (G : GoodRun ops τ m L ts r) :
    tolAvg2 r = (List.range m).map (fun i =>
      (List.range L).map (fun j => sqEntry ts i j)) := by
  unfold tolAvg2
  rw [G.sum2E, G.num]
  simp only [Option.getD_some]
  unfold sumSqMat
  rw [map_range_map]
  apply range_map_congr
  intro i hi
  rw [map_range_map]
  rfl

/-- The local `target` is the matrix of `targetEntry` values (note the raw
mean, not its absolute value). -/
theorem tolTarget_spec {ops : List ℕ} {τ : List ℚ} {m L : ℕ} {ts : List Traj}
    {r : MultiTrajResult} (G : GoodRun ops τ m L ts r)
    {tols : List (ℚ × ℚ)} (htols : r.target_tols = some tols) (hlen : tols.length = m) :
    tolTarget r = (List.range m).map (fun i =>
      (List.range L).map (fun j => targetEntry ts tols i j)) := by
  unfold tolTarget
  rw [tolAvg_spec G, htols]
  simp only [Option.getD_some]
  rw [zipWith_getD_range_map _ _ (0, 0) tols hlen]
  apply range_map_congr
  intro i hi
  rw [map_range_map]
  rfl

/-- The ratio array of `_target_tolerance_end` is the matrix of `ratioEntry`
values. -/
theorem tolRatios_spec {ops : List ℕ} {τ : List ℚ} {m L : ℕ} {ts : List Traj}
    {r : MultiTrajResult} (G : GoodRun ops τ m L ts r)
    {tols : List (ℚ × ℚ)} (htols : r.target_tols = some tols) (hlen : tols.length = m) :
    tolRatios r = (List.range m).map (fun i =>
      (List.range L).map (fun j => ratioEntry ts tols i j)) := by
  unfold tolRatios
  rw [tolAvg2_spec G, tolAvg_spec G, tolTarget_spec G htols hlen, zipWith3_range_map]
  apply range_map_congr
  intro i hi
  rw [zipWith3_range_map]
  rfl

/-- The value computed by `_target_tolerance_end` past the first trajectory,
read over the ingested data. -/
theorem tolRem_spec {ops : List ℕ} {τ : List ℚ} {m L : ℕ} {ts : List Traj}
    {r : MultiTrajResult} (G : GoodRun ops τ m L ts r)
    {tols : List (ℚ × ℚ)} (htols : r.target_tols = some tols) (hlen : tols.length = m)
    {N : ℤ} (htn : r.target_ntraj = some N) :
    tolRem r = tolValData m L ts tols N := by
  unfold tolRem tolEst tolTargetNtraj tolValData
  rw [tolRatios_spec G htols hlen, htn, G.num]
  simp only [Option.getD_some]

/-- One `add` past the first trajectory under the target-tolerance policy:
the returned remainder is exactly `tolValData` of the enlarged data set, and
the end condition fires exactly when that value is nonpositive. -/
theorem tolStepAdd {ops : List ℕ} {τ : List ℚ} {m L : ℕ} {ts : List Traj}
    {r : MultiTrajResult} (G : GoodRun ops τ m L ts r) (hts : ts ≠ [])
    (hpol : r.policy = .targetTolEnd) {t : Traj} (hNt : Nice m L τ t) (s : ℕ)
    {tols : List (ℚ × ℚ)} {N : ℤ} (htols : r.target_tols = some tols)
    (hlen : tols.length = m) (htn : r.target_ntraj = some N) :
    ∃ r', r.add s t = .ok r' (.val (tolValData m L (ts ++ [t]) tols N)) ∧
      r'.num_trajectories = ts.length + 1 ∧
      (tolValData m L (ts ++ [t]) tols N ≤ 0 →
        r'.stats.end_condition = "target tolerance reached") ∧
      (¬ tolValData m L (ts ++ [t]) tols N ≤ 0 → r'.stats = r.stats) := by
  obtain ⟨rPre, hadd, GPre, hpol', htols', htn', _, hstats', _⟩ := add_step_spec G hts hNt s
  have hpolF : rPre.policy = .targetTolEnd := hpol'.trans hpol
  have htolsF : rPre.target_tols = some tols := htols'.trans htols
  have htnF : rPre.target_ntraj = some N := htn'.trans htn
  have hn1 : ¬ rPre.num_trajectories ≤ 1 := by
    rw [GPre.num]
    simp only [List.length_append, List.length_cons, List.length_nil]
    have := List.length_pos.mpr hts
    omega
  have hrem : tolRem rPre = tolValData m L (ts ++ [t]) tols N :=
    tolRem_spec GPre htolsF hlen htnF
  rw [earlyFinish_tol hpolF] at hadd
  by_cases hq : tolRem rPre ≤ 0
  · rw [targetTolEnd_reached hn1 hq] at hadd
    dsimp only at hadd
    rw [hrem] at hadd hq
    refine ⟨_, hadd, ?_, fun _ => rfl, fun hc => absurd hq hc⟩
    dsimp only
    rw [GPre.num]
    simp
  · rw [targetTolEnd_notReached hn1 hq] at hadd
    dsimp only at hadd
    rw [hrem] at hadd hq
    refine ⟨_, hadd, ?_, fun hc => absurd hc hq, fun _ => ?_⟩
    · dsimp only
      rw [GPre.num]
      simp
    · dsimp only
      exact hstats'

/-- Ratios are bounded by the sample count whenever every per-entry variance
is at most `(n - 1)` times the squared (nonzero) target, so the reported
value is then nonpositive. -/
theorem tolValData_nonpos {m L : ℕ} {ts : List Traj} {tols : List (ℚ × ℚ)} {N : ℤ}
    (htg : ∀ i, i < m → ∀ j, j < L → targetEntry ts tols i j ≠ 0)
    (hSE : ∀ i, i < m → ∀ j, j < L →
      sqEntry ts i j - |avgEntry ts i j| ^ 2
        ≤ ((ts.length : ℚ) - 1) * targetEntry ts tols i j ^ 2) :
    tolValData m L ts tols N ≤ 0 := by
  unfold tolValData
  rw [sub_nonpos]
  refine le_trans (min_le_left _ _) (listMaxD_le (Nat.cast_nonneg _) ?_)
  intro x hx
  obtain ⟨i, hi, j, hj, rfl⟩ := mem_flatten_range_map.mp hx
  unfold ratioEntry
  have htg2 : (0 : ℚ) < targetEntry ts tols i j ^ 2 := by
    have h0 := htg i hi j hj
    positivity
  have hdiv : (sqEntry ts i j - |avgEntry ts i j| ^ 2) / targetEntry ts tols i j ^ 2
      ≤ (ts.length : ℚ) - 1 := by
    rw [div_le_iff₀ htg2]
    exact hSE i hi j hj
  linarith

/-- C7 (amended): under the target-tolerance policy the remainder returned
by `add` is infinite after exactly one trajectory; once more than one is in,
the returned remainder is the finite value `tolValData` (which may be
negative); and whenever every per-entry variance is at most `(n-1)` times
its squared nonzero target — i.e. every per-observable, per-time standard
error is at most its target — that value is `≤ 0`. -/
theorem C7_target_tolerance_remaining
    (ops : List ℕ) (m L : ℕ) (τ : List ℚ) (s : ℕ) (t : Traj)
    (hNt : Nice m L τ t) (hm : ops.length = m) :
    (∀ r : MultiTrajResult, r.policy = .targetTolEnd → GoodStart ops r →
      ∃ r', r.add s t = .ok r' .inf) ∧
    (∀ r : MultiTrajResult, r.policy = .targetTolEnd →
      ∀ ts, GoodRun ops τ m L ts r → ts ≠ [] →
      ∀ tols : List (ℚ × ℚ), ∀ N : ℤ,
        r.target_tols = some tols → tols.length = m → r.target_ntraj = some N →
        ∃ r', r.add s t = .ok r' (.val (tolValData m L (ts ++ [t]) tols N)) ∧
          ((∀ i, i < m → ∀ j, j < L → targetEntry (ts ++ [t]) tols i j ≠ 0) →
           (∀ i, i < m → ∀ j, j < L →
              sqEntry (ts ++ [t]) i j - |avgEntry (ts ++ [t]) i j| ^ 2
                ≤ (((ts ++ [t]).length : ℚ) - 1) * targetEntry (ts ++ [t]) tols i j ^ 2) →
           tolValData m L (ts ++ [t]) tols N ≤ 0)) := by
  constructor
  · intro r hpol G
    obtain ⟨rPre, hadd, GPre, hpol', _, _, _, _, _⟩ := add_first_spec G hm hNt s
    have hpolF : rPre.policy = .targetTolEnd := hpol'.trans hpol
    have h1 : rPre.num_trajectories ≤ 1 := by simp [GPre.num]
    rw [earlyFinish_tol hpolF, targetTolEnd_one h1] at hadd
    dsimp only at hadd
    exact ⟨rPre, hadd⟩
  · intro r hpol ts G hts tols N htols hlen htn
    obtain ⟨r', hadd, -, -, -⟩ := tolStepAdd G hts hpol hNt s htols hlen htn
    exact ⟨r', hadd, fun htg hSE => tolValData_nonpos htg hSE⟩

theorem C7_target_tolerance_remaining_witness :
    (∃ r', c7r0.add 9 c7t = .ok r' .inf) ∧
    (∃ r', c7r1.add 9 c7t
        = .ok r' (.val (tolValData 1 1 ([c7t] ++ [c7t]) [(1, 0)] 100)) ∧
      tolValData 1 1 ([c7t] ++ [c7t]) [(1, 0)] 100 ≤ 0) := by
  obtain ⟨ha, hb⟩ := C7_target_tolerance_remaining [0] 1 1 [0] 9 c7t (by decide) rfl
  constructor
  · exact ha c7r0 rfl ⟨rfl, rfl, rfl, rfl, rfl, rfl, rfl, rfl⟩
  · have hGood : GoodRun [0] [0] 1 1 [c7t] c7r1 := by
      refine ⟨rfl, rfl, rfl, rfl, rfl, ?_, ?_, ?_, ?_, rfl, rfl, rfl, rfl⟩ <;>
        norm_num [c7r1, c7t, sumMat, sumSqMat, avgMat, varMat, samples, entryAt,
          avgEntry, sqEntry, List.range_succ]
    obtain ⟨r', hadd, himp⟩ := hb c7r1 rfl [c7t] hGood (by decide) [(1, 0)] 100 rfl rfl rfl
    refine ⟨r', hadd, himp ?_ ?_⟩
    · intro i hi j hj
      obtain rfl : i = 0 := by omega
      obtain rfl : j = 0 := by omega
      norm_num [targetEntry, avgEntry, samples, entryAt, c7t]
    · intro i hi j hj
      obtain rfl : i = 0 := by omega
      obtain rfl : j = 0 := by omega
      norm_num [targetEntry, avgEntry, sqEntry, samples, entryAt, c7t]

/-- C7 counterexample to the original claim: with two identical trajectories
(zero variance) and scalar tolerance 1, the second `add` on `c7r1` returns
the negative finite value `-1`, so the remainder with more than one
trajectory is not always nonnegative. -/
theorem C7_counterexample :
    c7r1.add 9 c7t = .ok c7r2 (.val (-1)) ∧ c7r2.num_trajectories = 2 ∧
      ¬ (0 : ℚ) ≤ -1 := by
  refine ⟨?_, rfl, by norm_num⟩
  norm_num [c7r1, c7r2, c7t, MultiTrajResult.add, incrementTraj, addFirstTraj, plainOpts,
    MultiTrajResult.storeStates, reduceExpect, reduceExpectAux, reduceExpectStep,
    npAddInto, dictSet, earlyFinish, targetTolEnd, tolRem, tolEst, tolTargetNtraj,
    tolRatios, tolAvg, tolAvg2, tolTarget, listMaxD, zipWith3, List.range_succ, min_def]

/-- C3 (amended): under the target-tolerance policy the `n`-th `add`
(`n >= 2`) returns exactly `min(max((avg2 - |avg|^2)/target^2 + 1), N) - n`
where `target = atol + rtol * avg` uses the raw (not absolute) mean and no
ceiling is taken, and the end condition becomes "target tolerance reached"
exactly when that value is nonpositive (otherwise "timeout" remains). -/
theorem C3_target_tolerance_formula
    (ops : List ℕ) (m L : ℕ) (τ : List ℚ) (ts : List Traj) (r : MultiTrajResult)
    (G : GoodRun ops τ m L ts r) (hts : ts ≠ []) (hpol : r.policy = .targetTolEnd)
    (s : ℕ) (t : Traj) (hNt : Nice m L τ t)
    (tols : List (ℚ × ℚ)) (N : ℤ) (htols : r.target_tols = some tols)
    (hlen : tols.length = m) (htn : r.target_ntraj = some N)
    (hst : r.stats.end_condition = "timeout") :
    ∃ r', r.add s t = .ok r' (.val (tolValData m L (ts ++ [t]) tols N)) ∧
      r'.num_trajectories = ts.length + 1 ∧
      (tolValData m L (ts ++ [t]) tols N ≤ 0 →
        r'.stats.end_condition = "target tolerance reached") ∧
      (¬ tolValData m L (ts ++ [t]) tols N ≤ 0 →
        r'.stats.end_condition = "timeout") := by
  obtain ⟨r', hadd, hnum, h1, h2⟩ := tolStepAdd G hts hpol hNt s htols hlen htn
  refine ⟨r', hadd, hnum, h1, fun hc => ?_⟩
  rw [h2 hc]
  exact hst

theorem C3_target_tolerance_formula_witness :
    ∃ r', c3r1.add 8 c3t2
        = .ok r' (.val (tolValData 1 1 ([c3t1] ++ [c3t2]) [(1, 1/2)] 100)) ∧
      r'.stats.end_condition = "timeout" ∧
      tolValData 1 1 ([c3t1] ++ [c3t2]) [(1, 1/2)] 100 = 3 := by
  have hval : tolValData 1 1 ([c3t1] ++ [c3t2]) [(1, 1/2)] 100 = 3 := by
    norm_num [tolValData, ratioEntry, targetEntry, avgEntry, sqEntry, samples, entryAt,
      listMaxD, c3t1, c3t2, List.range_succ, min_def]
  have hGood : GoodRun [0] [0] 1 1 [c3t1] c3r1 := by
    refine ⟨rfl, rfl, rfl, rfl, rfl, ?_, ?_, ?_, ?_, rfl, rfl, rfl, rfl⟩ <;>
      norm_num [c3r1, c3t1, sumMat, sumSqMat, avgMat, varMat, samples, entryAt,
        avgEntry, sqEntry, List.range_succ]
  obtain ⟨r', hadd, hnum, h1, h2⟩ :=
    C3_target_tolerance_formula [0] 1 1 [0] [c3t1] c3r1 hGood (by decide) rfl 8 c3t2
      (by decide) [(1, 1/2)] 100 rfl rfl rfl rfl
  refine ⟨r', hadd, h2 ?_, hval⟩
  rw [hval]
  norm_num

/-- C3 counterexample to the original claim: at the state `c3r2` (samples
`0` and `-2`, tolerance pair `(1, 1/2)`, `N = 100`) the code returns `3`,
while the claimed formula — absolute mean in the target and a ceiling on the
maximum ratio — evaluates to `0` on the very same accumulators. -/
theorem C3_counterexample :
    c3r1.add 8 c3t2 = .ok c3r2 (.val 3) ∧
    specTargetRemaining (c3r2.sum_expect.getD []) (c3r2.sum2_expect.getD [])
      ((c3r2.num_trajectories : ℕ) : ℚ) (c3r2.target_tols.getD []) 100 = 0 ∧
    (3 : ℚ) ≠ 0 := by
  refine ⟨?_, ?_, by norm_num⟩
  · norm_num [c3r1, c3r2, c3t2, MultiTrajResult.add, incrementTraj, addFirstTraj,
      plainOpts, MultiTrajResult.storeStates, reduceExpect, reduceExpectAux,
      reduceExpectStep, npAddInto, dictSet, earlyFinish, targetTolEnd, tolRem, tolEst,
      tolTargetNtraj, tolRatios, tolAvg, tolAvg2, tolTarget, listMaxD, zipWith3,
      List.range_succ, min_def]
  · norm_num [c3r2, specTargetRemaining, listMaxD, zipWith3, min_def]
    have hceil : ⌈(13 / 9 : ℚ)⌉ = (2 : ℤ) := by
      rw [Int.ceil_eq_iff]
      constructor <;> norm_num
    rw [hceil]
    norm_num

theorem reduceExpectStep_congr {t t' : Traj} (h : t.expect = t'.expect)
    (r : MultiTrajResult) (i : ℕ) : reduceExpectStep t r i = reduceExpectStep t' r i := by
  unfold reduceExpectStep
  rw [h]

theorem reduceExpectAux_congr {t t' : Traj} (h : t.expect = t'.expect) :
    ∀ (l : List ℕ) (r : MultiTrajResult), reduceExpectAux t l r = reduceExpectAux t' l r := by
  intro l
  induction l with
  | nil => intro r; rfl
  | cons i is ih =>
    intro r
    show (match reduceExpectStep t r i with
          | .error r' => Except.error r'
          | .ok r' => reduceExpectAux t is r')
        = (match reduceExpectStep t' r i with
          | .error r' => Except.error r'
          | .ok r' => reduceExpectAux t' is r')
    rw [reduceExpectStep_congr h r i]
    cases reduceExpectStep t' r i with
    | error r' => rfl
    | ok r' => exact ih r'

theorem reduceExpect_congr {t t' : Traj} (h : t.expect = t'.expect) (r : MultiTrajResult) :
    reduceExpect t r = reduceExpect t' r := by
  unfold reduceExpect
  exact reduceExpectAux_congr h _ r

/-- On a non-fresh `plainOpts` aggregation, `add` inspects nothing of the
trajectory but its `expect` array: in particular the time grid is never
compared against the stored one. -/
theorem add_times_congr {r : MultiTrajResult} (hopts : r.opts = plainOpts)
    (hnum : r.num_trajectories ≠ 0) (s : ℕ) {t t' : Traj} (h : t.expect = t'.expect) :
    r.add s t = r.add s t' := by
  rw [add_eval_plain r s t hopts, add_eval_plain r s t' hopts,
    incrementTraj_pos (by exact hnum) t, incrementTraj_pos (by exact hnum) t',
    reduceExpect_congr h]

/-- The `_reduce_expect` loop raises on its first iteration when row 0 of
the trajectory can be broadcast-added onto neither the length-`L`
accumulator row nor as a scalar, and the error carries the state unchanged. -/
theorem reduceExpect_fail0 {t : Traj} {r : MultiTrajResult} {m' L : ℕ} {ts : List Traj}
    (hro : r.raw_ops.length = m' + 1)
    (hse : r.sum_expect = some (sumMat ts (m' + 1) L))
    (hs2 : r.sum2_expect = some (sumSqMat ts (m' + 1) L))
    (hEm : t.expect.length = m' + 1)
    (hbad1 : (tRow t 0).length ≠ L) (hbad2 : (tRow t 0).length ≠ 1) :
    reduceExpect t r = .error r := by
  have hstep : reduceExpectStep t r 0 = .error r := by
    unfold reduceExpectStep
    have h0 : t.expect[0]? = some (tRow t 0) := by
      rw [List.getElem?_eq_getElem (by omega)]
      unfold tRow
      rw [List.getD_eq_getElem _ _ (by omega)]
    rw [h0, hse, hs2]
    simp only [Option.getD_some]
    unfold sumMat sumSqMat
    rw [getElem?_range_map _ (Nat.succ_pos m'), getElem?_range_map _ (Nat.succ_pos m')]
    dsimp only
    have hnp : npAddInto ((List.range L).map (fun j => (samples ts 0 j).sum)) (tRow t 0)
        = none := by
      unfold npAddInto
      rw [if_neg (by rw [length_range_map]; exact hbad1), if_neg hbad2]
    rw [hnp]
  unfold reduceExpect
  rw [hro, List.range_succ_eq_map]
  show (match reduceExpectStep t r 0 with
        | .error r' => Except.error r'
        | .ok r' => reduceExpectAux t ((List.range m').map Nat.succ) r') = Except.error r
  rw [hstep]

/-- C5: shape handling of `add` past the first trajectory, as the code
actually behaves.  (1) A trajectory differing in its time grid (any `τ'`) is
accepted silently: the add succeeds and the count grows.  (2) A trajectory
whose first expect row matches neither the established length `L` nor the
broadcast length 1 raises a (numpy broadcast, not `ShapeMismatch`) error,
but only after the seed was appended and the count incremented, so the
aggregation does not remain in its pre-add state (though the accumulator
sums are untouched). -/
theorem C5_shape_mismatch
    (ops : List ℕ) (m L : ℕ) (τ : List ℚ) (ts : List Traj) (r : MultiTrajResult)
    (G : GoodRun ops τ m L ts r) (hts : ts ≠ []) (s : ℕ) :
    (∀ t : Traj, Nice m L τ t → ∀ τ' : List ℚ,
      ∃ r' rem, r.add s { t with times := τ' } = .ok r' rem ∧
        r'.num_trajectories = ts.length + 1) ∧
    (∀ t : Traj, 1 ≤ m → t.expect.length = m →
      (tRow t 0).length ≠ L → (tRow t 0).length ≠ 1 →
      ∃ r', r.add s t = .err r' ∧ r'.seeds = r.seeds ++ [s] ∧
        r'.num_trajectories = r.num_trajectories + 1 ∧
        r'.sum_expect = r.sum_expect ∧ r'.sum2_expect = r.sum2_expect ∧
        r'.average_e_data = r.average_e_data ∧ r'.var_e_data = r.var_e_data ∧
        ¬ (r' = r)) := by
  constructor
  · intro t hNt τ'
    have hnum : r.num_trajectories ≠ 0 := by
      rw [G.num]
      exact fun h0 => hts (List.eq_nil_of_length_eq_zero h0)
    have heq : r.add s { t with times := τ' } = r.add s t :=
      add_times_congr G.hopts hnum s rfl
    obtain ⟨rPre, hadd, GPre, -, -, -, -, -, -⟩ := add_step_spec G hts hNt s
    refine ⟨(earlyFinish rPre).1, (earlyFinish rPre).2, ?_, ?_⟩
    · rw [heq, hadd]
    · have f5 := (earlyFinish_frame rPre).2.2.2.2.1
      rw [f5, GPre.num]
      simp
  · intro t hm1 hEm hbad1 hbad2
    obtain ⟨m', rfl⟩ : ∃ m', m = m' + 1 := ⟨m - 1, by omega⟩
    obtain ⟨ro, oo, τo, trjo, no, sdo, sso, sfo, seo, s2o, tto, ao, vo, runo, tno, eno, po,
      sto⟩ := r
    obtain ⟨g1, g2, g3, g4, g5, g6, g7, g8, g9, g10, g11, g12, g13⟩ := G
    dsimp only at g1 g3 g4 g5 g6 g7 g8 g9 g10 g11 g12 g13
    subst g1 g3 g4 g5 g6 g7 g8 g9 g10 g11 g12 g13
    rw [add_eval_plain _ s t rfl]
    rw [incrementTraj_pos (by simpa using hts) t]
    dsimp only
    have hred : reduceExpect t
        ({ raw_ops := ro, opts := plainOpts, times := τo, trajectories := [],
           num_trajectories := ts.length + 1, seeds := sdo ++ [s], sum_states := none,
           sum_final_states := none, sum_expect := some (sumMat ts (m' + 1) L),
           sum2_expect := some (sumSqMat ts (m' + 1) L), target_tols := tto,
           average_e_data := avgMat ts (m' + 1) L, var_e_data := varMat ts (m' + 1) L,
           runs_e_data := [], target_ntraj := tno, estimated_ntraj := eno,
           policy := po, stats := sto } : MultiTrajResult)
        = .error
          ({ raw_ops := ro, opts := plainOpts, times := τo, trajectories := [],
             num_trajectories := ts.length + 1, seeds := sdo ++ [s], sum_states := none,
             sum_final_states := none, sum_expect := some (sumMat ts (m' + 1) L),
             sum2_expect := some (sumSqMat ts (m' + 1) L), target_tols := tto,
             average_e_data := avgMat ts (m' + 1) L, var_e_data := varMat ts (m' + 1) L,
             runs_e_data := [], target_ntraj := tno, estimated_ntraj := eno,
             policy := po, stats := sto } : MultiTrajResult) :=
      reduceExpect_fail0 g2 rfl rfl hEm hbad1 hbad2
    rw [hred]
    refine ⟨_, rfl, rfl, rfl, rfl, rfl, rfl, rfl, ?_⟩
    intro heq
    have hs := congrArg MultiTrajResult.seeds heq
    simp at hs

theorem C5_shape_mismatch_witness :
    (∃ r' rem, c5r1.add 4 { c5t1 with times := [5, 9] } = .ok r' rem ∧
      r'.num_trajectories = 2) ∧
    (∃ r', c5r1.add 4 c5tBadShape = .err r' ∧ r'.seeds = [3] ++ [4] ∧
      r'.num_trajectories = 2 ∧ ¬ (r' = c5r1)) := by
  have hGood : GoodRun [0] [0, 1] 1 2 [c5t1] c5r1 := by
    refine ⟨rfl, rfl, rfl, rfl, rfl, ?_, ?_, ?_, ?_, rfl, rfl, rfl, rfl⟩ <;>
      norm_num [c5r1, c5t1, sumMat, sumSqMat, avgMat, varMat, samples, entryAt,
        avgEntry, sqEntry, List.range_succ]
  obtain ⟨h1, h2⟩ := C5_shape_mismatch [0] 1 2 [0, 1] [c5t1] c5r1 hGood (by decide) 4
  constructor
  · obtain ⟨r', rem, hadd, hnum⟩ := h1 c5t1 (by decide) [5, 9]
    exact ⟨r', rem, hadd, hnum⟩
  · obtain ⟨r', hadd, hseeds, hnum, -, -, -, -, hne⟩ :=
      h2 c5tBadShape (by decide) (by decide) (by decide) (by decide)
    exact ⟨r', hadd, hseeds, hnum, hne⟩

/-- C5 counterexample to the original claim: a subsequent trajectory with a
mismatched time grid does not fail at all (the add is accepted and folded
into the statistics), and a trajectory with a mismatched expect row raises
only after `seeds` and `num_trajectories` were already mutated, so the
aggregation is not in its pre-add state. -/
theorem C5_counterexample :
    (c5r1.add 4 c5tBadTimes = .ok c5r2 .inf ∧ ¬ c5tBadTimes.times = c5r1.times) ∧
    (c5r1.add 4 c5tBadShape = .err c5rErr ∧ ¬ c5rErr = c5r1) := by
  refine ⟨⟨?_, by decide⟩, ?_, by decide⟩
  · norm_num [c5r1, c5r2, c5tBadTimes, MultiTrajResult.add, incrementTraj, addFirstTraj,
      plainOpts, MultiTrajResult.storeStates, reduceExpect, reduceExpectAux,
      reduceExpectStep, npAddInto, dictSet, earlyFinish, List.range_succ]
  · norm_num [c5r1, c5rErr, c5tBadShape, MultiTrajResult.add, incrementTraj, addFirstTraj,
      plainOpts, MultiTrajResult.storeStates, reduceExpect, reduceExpectAux,
      reduceExpectStep, npAddInto, dictSet, earlyFinish, List.range_succ]

theorem range_map_snoc {α : Type} (f : ℕ → α) (k : ℕ) :
    (List.range k).map f ++ [f k] = (List.range (k + 1)).map f := by
  rw [List.range_succ, List.map_append]
  rfl

theorem mAvgRow_unfold (tsa tsb : List Traj) (L : ℕ) (n : ℚ) (i : ℕ) :
    (mSumRow tsa tsb L i).map (fun x => x / n) = mAvgRow tsa tsb L n i := rfl

theorem mVarRow_unfold (tsa tsb : List Traj) (L : ℕ) (n : ℚ) (i : ℕ) :
    List.zipWith (fun x2 x => abs (x2 - abs (x ^ 2)))
      ((mSum2Row tsa tsb L i).map (fun x => x / n))
      ((mSumRow tsa tsb L i).map (fun x => x / n)) = mVarRow tsa tsb L n i := rfl

/-- One iteration of the `__add__` merge loop on compatible length-`L`
accumulator rows appends the elementwise-summed rows and the statistics
recomputed from them. -/
theorem mergeExpectStep_spec {a b : MultiTrajResult} {m L : ℕ} {tsa tsb : List Traj}
    (hsa : a.sum_expect = some (sumMat tsa m L))
    (hs2a : a.sum2_expect = some (sumSqMat tsa m L))
    (hsb : b.sum_expect = some (sumMat tsb m L))
    (hs2b : b.sum2_expect = some (sumSqMat tsb m L))
    {i : ℕ} (him : i < m) (c : MultiTrajResult)
    (hce : c.sum_expect = some ((List.range i).map (mSumRow tsa tsb L)))
    (hc2 : c.sum2_expect = some ((List.range i).map (mSum2Row tsa tsb L)))
    (hca : c.average_e_data
      = (List.range i).map (mAvgRow tsa tsb L (c.num_trajectories : ℚ)))
    (hcv : c.var_e_data
      = (List.range i).map (mVarRow tsa tsb L (c.num_trajectories : ℚ)))
    (hct : c.trajectories = []) :
    mergeExpectStep a b c i = some
      { c with
        sum_expect := some ((List.range (i + 1)).map (mSumRow tsa tsb L)),
        sum2_expect := some ((List.range (i + 1)).map (mSum2Row tsa tsb L)),
        average_e_data :=
          (List.range (i + 1)).map (mAvgRow tsa tsb L (c.num_trajectories : ℚ)),
        var_e_data :=
          (List.range (i + 1)).map (mVarRow tsa tsb L (c.num_trajectories : ℚ)) } := by
  unfold mergeExpectStep
  rw [hsa, hsb, hs2a, hs2b]
  simp only [Option.getD_some]
  unfold sumMat sumSqMat
  rw [getElem?_range_map _ him, getElem?_range_map _ him, getElem?_range_map _ him,
    getElem?_range_map _ him]
  dsimp only
  have hnp1 : npAdd ((List.range L).map (fun j => (samples tsa i j).sum))
      ((List.range L).map (fun j => (samples tsb i j).sum))
      = some (mSumRow tsa tsb L i) := by
    unfold npAdd
    rw [if_pos (by rw [length_range_map, length_range_map])]
    rw [zipWith_range_map]
    rfl
  have hnp2 : npAdd
      ((List.range L).map (fun j => ((samples tsa i j).map (fun x => x ^ 2)).sum))
      ((List.range L).map (fun j => ((samples tsb i j).map (fun x => x ^ 2)).sum))
      = some (mSum2Row tsa tsb L i) := by
    unfold npAdd
    rw [if_pos (by rw [length_range_map, length_range_map])]
    rw [zipWith_range_map]
    rfl
  rw [hnp1, hnp2]
  dsimp only
  rw [hce, hc2, hca, hcv]
  simp only [Option.getD_some]
  rw [dictSet_of_eq_length _ (length_range_map _ _).symm,
    dictSet_of_eq_length _ (length_range_map _ _).symm]
  rw [show ((List.range i).map (mSumRow tsa tsb L)) ++ [mSumRow tsa tsb L i]
      = (List.range (i + 1)).map (mSumRow tsa tsb L) from range_map_snoc _ i]
  rw [show ((List.range i).map (mSum2Row tsa tsb L)) ++ [mSum2Row tsa tsb L i]
      = (List.range (i + 1)).map (mSum2Row tsa tsb L) from range_map_snoc _ i]
  rw [mVarRow_unfold, mAvgRow_unfold]
  rw [range_map_snoc (mAvgRow tsa tsb L (c.num_trajectories : ℚ)) i,
    range_map_snoc (mVarRow tsa tsb L (c.num_trajectories : ℚ)) i]
  rw [hct]
  simp only [List.isEmpty_nil, if_true]

/-- Characterization of the merge loop over indices `[i0, i0+k)` on a
trajectory-free half-built result. -/
theorem mergeExpectAux_spec {a b : MultiTrajResult} {m L : ℕ} {tsa tsb : List Traj}
    (hsa : a.sum_expect = some (sumMat tsa m L))
    (hs2a : a.sum2_expect = some (sumSqMat tsa m L))
    (hsb : b.sum_expect = some (sumMat tsb m L))
    (hs2b : b.sum2_expect = some (sumSqMat tsb m L)) :
    ∀ (k i0 : ℕ) (c : MultiTrajResult), i0 + k ≤ m →
      c.sum_expect = some ((List.range i0).map (mSumRow tsa tsb L)) →
      c.sum2_expect = some ((List.range i0).map (mSum2Row tsa tsb L)) →
      c.average_e_data = (List.range i0).map (mAvgRow tsa tsb L (c.num_trajectories : ℚ)) →
      c.var_e_data = (List.range i0).map (mVarRow tsa tsb L (c.num_trajectories : ℚ)) →
      c.trajectories = [] →
      ∃ c', mergeExpectAux a b (List.range' i0 k) c = some c' ∧
        c'.sum_expect = some ((List.range (i0 + k)).map (mSumRow tsa tsb L)) ∧
        c'.sum2_expect = some ((List.range (i0 + k)).map (mSum2Row tsa tsb L)) ∧
        c'.average_e_data
          = (List.range (i0 + k)).map (mAvgRow tsa tsb L (c.num_trajectories : ℚ)) ∧
        c'.var_e_data
          = (List.range (i0 + k)).map (mVarRow tsa tsb L (c.num_trajectories : ℚ)) ∧
        c'.raw_ops = c.raw_ops ∧ c'.opts = c.opts ∧ c'.times = c.times ∧
        c'.trajectories = c.trajectories ∧ c'.num_trajectories = c.num_trajectories ∧
        c'.seeds = c.seeds ∧ c'.sum_states = c.sum_states ∧
        c'.sum_final_states = c.sum_final_states ∧ c'.target_tols = c.target_tols ∧
        c'.target_ntraj = c.target_ntraj ∧ c'.estimated_ntraj = c.estimated_ntraj ∧
        c'.policy = c.policy ∧ c'.stats = c.stats ∧
        c'.runs_e_data = c.runs_e_data := by
  intro k
  induction k with
  | zero =>
    intro i0 c hle h1 h2 h3 h4 h5
    refine ⟨c, rfl, ?_, ?_, ?_, ?_, rfl, rfl, rfl, rfl, rfl, rfl, rfl, rfl, rfl, rfl, rfl,
      rfl, rfl, rfl⟩
    · rw [Nat.add_zero]
      exact h1
    · rw [Nat.add_zero]
      exact h2
    · rw [Nat.add_zero]
      exact h3
    · rw [Nat.add_zero]
      exact h4
  | succ n ih =>
    intro i0 c hle h1 h2 h3 h4 h5
    rw [List.range'_succ]
    have hstep := mergeExpectStep_spec hsa hs2a hsb hs2b
      (show i0 < m by omega) c h1 h2 h3 h4 h5
    show ∃ c', (match mergeExpectStep a b c i0 with
                | some c2 => mergeExpectAux a b (List.range' (i0 + 1) n) c2
                | none => none) = some c' ∧ _
    rw [hstep]
    obtain ⟨c', hrun, e1, e2, e3, e4, f1, f2, f3, f4, f5, f6, f7, f8, f9, f10, f11, f12,
      f13, f14⟩ := ih (i0 + 1)
      { c with
        sum_expect := some ((List.range (i0 + 1)).map (mSumRow tsa tsb L)),
        sum2_expect := some ((List.range (i0 + 1)).map (mSum2Row tsa tsb L)),
        average_e_data :=
          (List.range (i0 + 1)).map (mAvgRow tsa tsb L (c.num_trajectories : ℚ)),
        var_e_data :=
          (List.range (i0 + 1)).map (mVarRow tsa tsb L (c.num_trajectories : ℚ)) }
      (by omega) rfl rfl rfl rfl h5
    have hkey : i0 + (n + 1) = (i0 + 1) + n := by omega
    refine ⟨c', hrun, ?_, ?_, ?_, ?_, f1, f2, f3, f4, f5, f6, f7, f8, f9, f10, f11, f12,
      f13, f14⟩
    · rw [hkey]
      exact e1
    · rw [hkey]
      exact e2
    · rw [hkey]
      exact e3
    · rw [hkey]
      exact e4

theorem mSumRow_eq (tsa tsb : List Traj) (L i : ℕ) :
    mSumRow tsa tsb L i = (List.range L).map (fun j => (samples (tsa ++ tsb) i j).sum) := by
  unfold mSumRow
  apply range_map_congr
  intro j hj
  rw [samples_append, List.sum_append]

theorem mSum2Row_eq (tsa tsb : List Traj) (L i : ℕ) :
    mSum2Row tsa tsb L i
      = (List.range L).map (fun j => ((samples (tsa ++ tsb) i j).map (fun x => x ^ 2)).sum) := by
  unfold mSum2Row
  apply range_map_congr
  intro j hj
  rw [samples_append, List.map_append, List.sum_append]

/-- The rows built by the merge loop agree with the accumulators of a single
run over the concatenated trajectory list. -/
theorem mRows_to_full (tsa tsb : List Traj) (m L : ℕ) :
    ((List.range m).map (mSumRow tsa tsb L) = sumMat (tsa ++ tsb) m L) ∧
    ((List.range m).map (mSum2Row tsa tsb L) = sumSqMat (tsa ++ tsb) m L) ∧
    ((List.range m).map (mAvgRow tsa tsb L ((tsa.length + tsb.length : ℕ) : ℚ))
        = avgMat (tsa ++ tsb) m L) ∧
    ((List.range m).map (mVarRow tsa tsb L ((tsa.length + tsb.length : ℕ) : ℚ))
        = varMat (tsa ++ tsb) m L) := by
  have hn : ((tsa.length + tsb.length : ℕ) : ℚ) = ((tsa ++ tsb).length : ℚ) := by
    rw [List.length_append]
  refine ⟨?_, ?_, ?_, ?_⟩
  · apply range_map_congr
    intro i hi
    exact mSumRow_eq tsa tsb L i
  · apply range_map_congr
    intro i hi
    exact mSum2Row_eq tsa tsb L i
  · apply range_map_congr
    intro i hi
    unfold mAvgRow
    rw [mSumRow_eq, map_range_map]
    apply range_map_congr
    intro j hj
    unfold avgEntry
    rw [hn]
  · apply range_map_congr
    intro i hi
    unfold mVarRow mAvgRow
    rw [mSum2Row_eq, mSumRow_eq, map_range_map, map_range_map, zipWith_range_map]
    apply range_map_congr
    intro j hj
    rw [hn]
    rfl

/-- Merging two trajectory-free `plainOpts` aggregations over the same ops
and time grid succeeds; the result accumulates the concatenated data, its
stopping rule is reset to the unbounded default, and the returned left
operand carries the shared, rewritten stats dict. -/
theorem mergeAdd_spec {ops : List ℕ} {τ : List ℚ} {m L : ℕ} {tsa tsb : List Traj}
    {a b : MultiTrajResult} (Ga : GoodRun ops τ m L tsa a) (Gb : GoodRun ops τ m L tsb b) :
    ∃ c, a.mergeAdd b
        = .ok c { a with stats := { run_time := a.stats.run_time + b.stats.run_time,
                                    end_condition := "Merged results" } } ∧
      GoodRun ops τ m L (tsa ++ tsb) c ∧ c.seeds = a.seeds ++ b.seeds ∧
      c.stats = { run_time := a.stats.run_time + b.stats.run_time,
                  end_condition := "Merged results" } ∧
      c.target_tols = none ∧ c.policy = .noEnd ∧ c.target_ntraj = none ∧
      c.estimated_ntraj = none := by
  obtain ⟨aro, aoo, aτ, atr, ano, asd, ass, asf, ase, as2, att, aa, av, arn, atn, aen, ap,
    ast⟩ := a
  obtain ⟨g1, g2, g3, g4, g5, g6, g7, g8, g9, g10, g11, g12, g13⟩ := Ga
  dsimp only at g1 g3 g4 g5 g6 g7 g8 g9 g10 g11 g12 g13
  subst g1 g3 g4 g5 g6 g7 g8 g9 g10 g11 g12 g13
  obtain ⟨bro, boo, bτ, btr, bno, bsd, bss, bsf, bse, bs2, btt, ba, bv, brn, btn, ben, bp,
    bst⟩ := b
  obtain ⟨k1, k2, k3, k4, k5, k6, k7, k8, k9, k10, k11, k12, k13⟩ := Gb
  dsimp only at k1 k3 k4 k5 k6 k7 k8 k9 k10 k11 k12 k13
  subst k1 k3 k4 k5 k6 k7 k8 k9 k10 k11 k12 k13
  unfold MultiTrajResult.mergeAdd
  rw [if_neg (fun hc => hc rfl), if_neg (fun hc => hc rfl)]
  dsimp only
  simp only [mkResult, List.isEmpty_nil, not_true, false_and, if_false]
  obtain ⟨c', hrun, e1, e2, e3, e4, f1, f2, f3, f4, f5, f6, f7, f8, f9, f10, f11, f12,
    f13, f14⟩ :=
    @mergeExpectAux_spec
      { raw_ops := bro, opts := plainOpts, times := bτ, trajectories := [],
        num_trajectories := tsa.length, seeds := asd, sum_states := none,
        sum_final_states := none, sum_expect := some (sumMat tsa m L),
        sum2_expect := some (sumSqMat tsa m L), target_tols := att,
        average_e_data := avgMat tsa m L, var_e_data := varMat tsa m L,
        runs_e_data := [], target_ntraj := atn, estimated_ntraj := aen,
        policy := ap, stats := ast }
      { raw_ops := bro, opts := plainOpts, times := bτ, trajectories := [],
        num_trajectories := tsb.length, seeds := bsd, sum_states := none,
        sum_final_states := none, sum_expect := some (sumMat tsb m L),
        sum2_expect := some (sumSqMat tsb m L), target_tols := btt,
        average_e_data := avgMat tsb m L, var_e_data := varMat tsb m L,
        runs_e_data := [], target_ntraj := btn, estimated_ntraj := ben,
        policy := bp, stats := bst }
      m L tsa tsb rfl rfl rfl rfl m 0
      { raw_ops := bro, opts := plainOpts, times := bτ, trajectories := [],
        num_trajectories := tsa.length + tsb.length, seeds := asd ++ bsd,
        sum_states := none, sum_final_states := none, sum_expect := some [],
        sum2_expect := some [], target_tols := none, average_e_data := [],
        var_e_data := [], runs_e_data := [], target_ntraj := none,
        estimated_ntraj := none, policy := .noEnd,
        stats := { ast with end_condition := "unknown" } }
      (by omega) rfl rfl rfl rfl rfl
  rw [g2, List.range_eq_range']
  rw [hrun]
  dsimp only
  dsimp only at e1 e2 e3 e4
  rw [Nat.zero_add] at e1 e2 e3 e4
  rw [(mRows_to_full tsa tsb m L).1] at e1
  rw [(mRows_to_full tsa tsb m L).2.1] at e2
  rw [(mRows_to_full tsa tsb m L).2.2.1] at e3
  rw [(mRows_to_full tsa tsb m L).2.2.2] at e4
  refine ⟨_, rfl, ?_, ?_, ?_, ?_, ?_, ?_, ?_⟩
  · refine ⟨f1, g2, f2, f3, ?_, e1, e2, e3, e4, f14, f4, f7, f8⟩
    exact f5.trans (List.length_append tsa tsb).symm
  · exact f6
  · rfl
  · exact f9
  · exact f12
  · exact f10
  · exact f11

/-- A successful merge-loop iteration only writes the expect accumulators,
the derived statistics and the per-run store. -/
theorem mergeExpectStep_frame {a b c : MultiTrajResult} {i : ℕ} {c' : MultiTrajResult}
    (h : mergeExpectStep a b c i = some c') :
    c'.raw_ops = c.raw_ops ∧ c'.opts = c.opts ∧ c'.times = c.times ∧
    c'.trajectories = c.trajectories ∧ c'.num_trajectories = c.num_trajectories ∧
    c'.seeds = c.seeds ∧ c'.sum_states = c.sum_states ∧
    c'.sum_final_states = c.sum_final_states ∧ c'.target_tols = c.target_tols ∧
    c'.target_ntraj = c.target_ntraj ∧ c'.estimated_ntraj = c.estimated_ntraj ∧
    c'.policy = c.policy ∧ c'.stats = c.stats := by
  unfold mergeExpectStep at h
  dsimp only at h
  repeat' split at h
  all_goals try cases h
  all_goals exact ⟨rfl, rfl, rfl, rfl, rfl, rfl, rfl, rfl, rfl, rfl, rfl, rfl, rfl⟩

theorem mergeExpectAux_frame {a b : MultiTrajResult} :
    ∀ (l : List ℕ) {c c' : MultiTrajResult}, mergeExpectAux a b l c = some c' →
      c'.raw_ops = c.raw_ops ∧ c'.opts = c.opts ∧ c'.times = c.times ∧
      c'.trajectories = c.trajectories ∧ c'.num_trajectories = c.num_trajectories ∧
      c'.seeds = c.seeds ∧ c'.sum_states = c.sum_states ∧
      c'.sum_final_states = c.sum_final_states ∧ c'.target_tols = c.target_tols ∧
      c'.target_ntraj = c.target_ntraj ∧ c'.estimated_ntraj = c.estimated_ntraj ∧
      c'.policy = c.policy ∧ c'.stats = c.stats := by
  intro l
  induction l with
  | nil =>
    intro c c' h
    obtain rfl := Option.some.inj h
    exact ⟨rfl, rfl, rfl, rfl, rfl, rfl, rfl, rfl, rfl, rfl, rfl, rfl, rfl⟩
  | cons i is ih =>
    intro c c' h
    have h2 : (match mergeExpectStep a b c i with
               | some c2 => mergeExpectAux a b is c2
               | none => none) = some c' := h
    cases hstep : mergeExpectStep a b c i with
    | none => rw [hstep] at h2; cases h2
    | some c2 =>
      rw [hstep] at h2
      obtain ⟨s1, s2, s3, s4, s5, s6, s7, s8, s9, s10, s11, s12, s13⟩ :=
        mergeExpectStep_frame hstep
      obtain ⟨t1, t2, t3, t4, t5, t6, t7, t8, t9, t10, t11, t12, t13⟩ := ih h2
      exact ⟨t1.trans s1, t2.trans s2, t3.trans s3, t4.trans s4, t5.trans s5,
        t6.trans s6, t7.trans s7, t8.trans s8, t9.trans s9, t10.trans s10,
        t11.trans s11, t12.trans s12, t13.trans s13⟩

/-- `__add__` raises the compatibility `ValueError` exactly when the e-op
lists or the time grids differ. -/
theorem mergeAdd_incompat_iff (a b : MultiTrajResult) :
    a.mergeAdd b = .incompat ↔ (a.raw_ops ≠ b.raw_ops ∨ a.times ≠ b.times) := by
  unfold MultiTrajResult.mergeAdd
  by_cases h1 : a.raw_ops ≠ b.raw_ops
  · rw [if_pos h1]
    exact iff_of_true rfl (Or.inl h1)
  · rw [if_neg h1]
    by_cases h2 : a.times ≠ b.times
    · rw [if_pos h2]
      exact iff_of_true rfl (Or.inr h2)
    · rw [if_neg h2]
      refine iff_of_false ?_ (fun hOr => hOr.elim (fun h => h1 h) (fun h => h2 h))
      intro hEq
      dsimp only at hEq
      repeat' split at hEq
      all_goals cases hEq

/-- Structural facts about any successful merge, with no assumption on the
operands: counts add, seeds concatenate, the end condition is "Merged
results", raw trajectories are retained only when both operands retained
some, and a state sum is present only when both operands have one. -/
theorem mergeAdd_ok_fields {a b c selfA : MultiTrajResult}
    (h : a.mergeAdd b = .ok c selfA) :
    c.num_trajectories = a.num_trajectories + b.num_trajectories ∧
    c.seeds = a.seeds ++ b.seeds ∧
    c.stats.end_condition = "Merged results" ∧
    c.stats.run_time = a.stats.run_time + b.stats.run_time ∧
    c.times = a.times ∧
    c.trajectories = (if ¬a.trajectories.isEmpty ∧ ¬b.trajectories.isEmpty
                      then a.trajectories ++ b.trajectories else []) ∧
    (c.sum_states = match a.sum_states, b.sum_states with
                    | some x, some y => some (x ++ y)
                    | _, _ => none) ∧
    a.raw_ops = b.raw_ops ∧ a.times = b.times := by
  unfold MultiTrajResult.mergeAdd at h
  by_cases h1 : a.raw_ops ≠ b.raw_ops
  · rw [if_pos h1] at h
    cases h
  · rw [if_neg h1] at h
    by_cases h2 : a.times ≠ b.times
    · rw [if_pos h2] at h
      cases h
    · rw [if_neg h2] at h
      dsimp only at h
      rcases hass : a.sum_states with - | x <;> rcases hbss : b.sum_states with - | y <;>
        rcases hasf : a.sum_final_states with - | fx <;>
        rcases hbsf : b.sum_final_states with - | fy <;>
        rw [hass, hbss, hasf, hbsf] at h <;> dsimp only at h ⊢
      all_goals try (split at h)
      all_goals try cases h
      all_goals try
        (rename_i fsOpt heq
         obtain ⟨q, hq, rfl⟩ := Option.map_eq_some'.mp heq
         dsimp only at h)
      all_goals try (split at h)
      all_goals try cases h
      all_goals
        (obtain ⟨f1, f2, f3, f4, f5, f6, f7, f8, f9, f10, f11, f12, f13⟩ :=
          mergeExpectAux_frame _ (by assumption)
         exact ⟨f5, f6, rfl, rfl, f3, f4, f7, not_not.mp h1, not_not.mp h2⟩)

theorem avgEntry_comm (l1 l2 : List Traj) (i j : ℕ) :
    avgEntry (l1 ++ l2) i j = avgEntry (l2 ++ l1) i j := by
  unfold avgEntry
  rw [samples_append, samples_append, List.sum_append, List.sum_append,
    List.length_append, List.length_append]
  push_cast
  ring

theorem sqEntry_comm (l1 l2 : List Traj) (i j : ℕ) :
    sqEntry (l1 ++ l2) i j = sqEntry (l2 ++ l1) i j := by
  unfold sqEntry
  rw [samples_append, samples_append, List.map_append, List.map_append,
    List.sum_append, List.sum_append, List.length_append, List.length_append]
  push_cast
  ring

theorem avgMat_comm (l1 l2 : List Traj) (m L : ℕ) :
    avgMat (l1 ++ l2) m L = avgMat (l2 ++ l1) m L := by
  unfold avgMat
  apply range_map_congr
  intro i hi
  apply range_map_congr
  intro j hj
  exact avgEntry_comm l1 l2 i j

theorem varMat_comm (l1 l2 : List Traj) (m L : ℕ) :
    varMat (l1 ++ l2) m L = varMat (l2 ++ l1) m L := by
  unfold varMat
  apply range_map_congr
  intro i hi
  apply range_map_congr
  intro j hj
  rw [avgEntry_comm l1 l2 i j, sqEntry_comm l1 l2 i j]

/-- C8: merging fails with the compatibility error exactly when the e-op
lists or time grids differ; a successful merge has the summed count, the
concatenated seeds, the "Merged results" end condition, retains raw
trajectories only when both operands do (otherwise none), keeps a state sum
only when both operands have one, and on shape-compatible accumulating
states its expect accumulators are the elementwise sums (equal to those of a
single run over the concatenated data). -/
theorem C8_merge (a b : MultiTrajResult) :
    (a.mergeAdd b = .incompat ↔ (a.raw_ops ≠ b.raw_ops ∨ a.times ≠ b.times)) ∧
    (∀ c selfA, a.mergeAdd b = .ok c selfA →
      c.num_trajectories = a.num_trajectories + b.num_trajectories ∧
      c.seeds = a.seeds ++ b.seeds ∧
      c.stats.end_condition = "Merged results" ∧
      c.trajectories = (if ¬a.trajectories.isEmpty ∧ ¬b.trajectories.isEmpty
                        then a.trajectories ++ b.trajectories else []) ∧
      (c.sum_states = match a.sum_states, b.sum_states with
                      | some x, some y => some (x ++ y)
                      | _, _ => none)) ∧
    (∀ (ops : List ℕ) (τ : List ℚ) (m L : ℕ) (tsa tsb : List Traj),
      GoodRun ops τ m L tsa a → GoodRun ops τ m L tsb b →
      ∃ c selfA, a.mergeAdd b = .ok c selfA ∧
        c.sum_expect = some (sumMat (tsa ++ tsb) m L) ∧
        c.sum2_expect = some (sumSqMat (tsa ++ tsb) m L)) := by
  refine ⟨mergeAdd_incompat_iff a b, ?_, ?_⟩
  · intro c selfA h
    obtain ⟨p1, p2, p3, p4, p5, p6, p7, p8, p9⟩ := mergeAdd_ok_fields h
    exact ⟨p1, p2, p3, p6, p7⟩
  · intro ops τ m L tsa tsb Ga Gb
    obtain ⟨c, hok, Gc, -, -, -, -, -, -⟩ := mergeAdd_spec Ga Gb
    exact ⟨c, _, hok, Gc.sumE, Gc.sum2E⟩

/-- C4: `__add__` does not leave the left operand unmodified.  The merge of
`c4a` (run time 5) and `c4b` (run time 7) succeeds, and the `self` object the
caller still holds comes back with its stats dict mutated: run time 12 and
end condition "Merged results", while the accumulators are untouched.  The
aggregation state `c4a` the caller had before the merge is gone. -/
theorem C4_stats_aliasing :
    c4a.mergeAdd c4b = .ok c4c c4self ∧
    c4self.num_trajectories = c4a.num_trajectories ∧
    c4self.seeds = c4a.seeds ∧ c4self.sum_expect = c4a.sum_expect ∧
    c4self.stats.run_time = 12 ∧ c4self.stats.end_condition = "Merged results" ∧
    c4a.stats.run_time = 5 ∧ c4a.stats.end_condition = "unknown" ∧
    ¬ (c4self = c4a) := by
  refine ⟨?_, rfl, rfl, rfl, rfl, rfl, rfl, rfl, by decide⟩
  norm_num [c4a, c4b, c4c, c4self, MultiTrajResult.mergeAdd, mkResult, mergeExpectAux,
    mergeExpectStep, npAdd, dictSet, plainOpts, List.range_succ]

/-- C10: the merged aggregation has no active stopping rule regardless of
the operands' policies: its target tolerances are dropped, its policy is the
unbounded default, the target and estimated counts are cleared, and every
subsequent `add` on it reports an infinite remaining estimate. -/
theorem C10_merge_resets_policy
    (ops : List ℕ) (τ : List ℚ) (m L : ℕ) (tsa tsb : List Traj)
    (a b : MultiTrajResult) (htsa : tsa ≠ [])
    (Ga : GoodRun ops τ m L tsa a) (Gb : GoodRun ops τ m L tsb b) :
    ∃ c selfA, a.mergeAdd b = .ok c selfA ∧
      c.target_tols = none ∧ c.policy = .noEnd ∧ c.target_ntraj = none ∧
      c.estimated_ntraj = none ∧
      (∀ s (t : Traj), Nice m L τ t → ∃ r', c.add s t = .ok r' .inf) := by
  obtain ⟨c, hok, Gc, -, -, htols, hpol, htn, hen⟩ := mergeAdd_spec Ga Gb
  refine ⟨c, _, hok, htols, hpol, htn, hen, ?_⟩
  intro s t hNt
  have hts : tsa ++ tsb ≠ [] := by
    intro h0
    exact htsa (List.append_eq_nil.mp h0).1
  obtain ⟨rPre, hadd, GPre, hpol', -, -, -, -, -⟩ := add_step_spec Gc hts hNt s
  have hre : rPre.policy = .noEnd := hpol'.trans hpol
  rw [earlyFinish_noEnd hre] at hadd
  dsimp only at hadd
  exact ⟨rPre, hadd⟩

theorem C10_merge_resets_policy_witness :
    ∃ c selfA, c10a.mergeAdd c10b = .ok c selfA ∧
      c.target_tols = none ∧ c.policy = .noEnd ∧ c.target_ntraj = none ∧
      (∃ r', c.add 6 c10t = .ok r' .inf) := by
  have hGa : GoodRun [0] [0] 1 1 [c10t] c10a := by
    refine ⟨rfl, rfl, rfl, rfl, rfl, ?_, ?_, ?_, ?_, rfl, rfl, rfl, rfl⟩ <;>
      norm_num [c10a, c10t, sumMat, sumSqMat, avgMat, varMat, samples, entryAt,
        avgEntry, sqEntry, List.range_succ]
  have hGb : GoodRun [0] [0] 1 1 [c10t] c10b := by
    refine ⟨rfl, rfl, rfl, rfl, rfl, ?_, ?_, ?_, ?_, rfl, rfl, rfl, rfl⟩ <;>
      norm_num [c10b, c10t, sumMat, sumSqMat, avgMat, varMat, samples, entryAt,
        avgEntry, sqEntry, List.range_succ]
  obtain ⟨c, selfA, hok, htols, hpol, htn, hen, hinf⟩ :=
    C10_merge_resets_policy [0] [0] 1 1 [c10t] [c10t] c10a c10b (by decide) hGa hGb
  exact ⟨c, selfA, hok, htols, hpol, htn, hinf 6 c10t (by decide)⟩

/-- C2: for any partition of an identically shaped trajectory set into two
nonempty sequences, merging the two partial aggregations reproduces the
average and standard-deviation data of the single full aggregation; merging
in either order agrees (commutativity up to seed ordering), and merging
three aggregations in either grouping gives identical statistics, counts,
seeds and stats (associativity). -/
theorem C2_merge_partition
    (ops : List ℕ) (m L : ℕ) (τ : List ℚ) (st1 st2 st3 : Stats)
    (ps qs : List (ℕ × Traj)) (hps : ps ≠ []) (hqs : qs ≠ [])
    (hN : ∀ p ∈ ps ++ qs, Nice m L τ p.2) (hm : ops.length = m)
    (ra rb rfull : MultiTrajResult)
    (hra : addAll (mkResult ops plainOpts st1) ps = some ra)
    (hrb : addAll (mkResult ops plainOpts st2) qs = some rb)
    (hfull : addAll (mkResult ops plainOpts st3) (ps ++ qs) = some rfull) :
    (∃ c selfA, ra.mergeAdd rb = .ok c selfA ∧
      c.average_expect = rfull.average_expect ∧
      c.var_e_data = rfull.var_e_data ∧
      c.std_expect = rfull.std_expect ∧
      c.num_trajectories = rfull.num_trajectories ∧
      c.seeds = ra.seeds ++ rb.seeds) ∧
    (∃ c' selfA', rb.mergeAdd ra = .ok c' selfA' ∧
      c'.average_expect = rfull.average_expect ∧
      c'.var_e_data = rfull.var_e_data ∧
      c'.std_expect = rfull.std_expect) ∧
    (∀ (rs : List (ℕ × Traj)) (st4 : Stats) (rc : MultiTrajResult), rs ≠ [] →
      (∀ p ∈ rs, Nice m L τ p.2) →
      addAll (mkResult ops plainOpts st4) rs = some rc →
      ∃ cab x1 cl x2 cbc x3 cr x4,
        ra.mergeAdd rb = .ok cab x1 ∧ cab.mergeAdd rc = .ok cl x2 ∧
        rb.mergeAdd rc = .ok cbc x3 ∧ ra.mergeAdd cbc = .ok cr x4 ∧
        cl.average_expect = cr.average_expect ∧ cl.var_e_data = cr.var_e_data ∧
        cl.num_trajectories = cr.num_trajectories ∧ cl.seeds = cr.seeds ∧
        cl.stats = cr.stats) := by
  have hNp : ∀ p ∈ ps, Nice m L τ p.2 := fun p hp =>
    hN p (List.mem_append.mpr (Or.inl hp))
  have hNq : ∀ p ∈ qs, Nice m L τ p.2 := fun p hp =>
    hN p (List.mem_append.mpr (Or.inr hp))
  obtain ⟨ra', hra', Ga, -, -, -, -⟩ :=
    addAll_spec (mkResult_goodStart ops st1) hm ps hps hNp
  rw [hra] at hra'
  obtain rfl := Option.some.inj hra'
  obtain ⟨rb', hrb', Gb, -, -, -, -⟩ :=
    addAll_spec (mkResult_goodStart ops st2) hm qs hqs hNq
  rw [hrb] at hrb'
  obtain rfl := Option.some.inj hrb'
  obtain ⟨rf', hfull', Gf, -, -, -, -⟩ :=
    addAll_spec (mkResult_goodStart ops st3) hm (ps ++ qs) (by simp [hps]) hN
  rw [hfull] at hfull'
  obtain rfl := Option.some.inj hfull'
  have hmapapp : (ps ++ qs).map Prod.snd = ps.map Prod.snd ++ qs.map Prod.snd :=
    List.map_append _ ps qs
  refine ⟨?_, ?_, ?_⟩
  · obtain ⟨c, hok, Gc, hseeds, -, -, -, -, -⟩ := mergeAdd_spec Ga Gb
    refine ⟨c, _, hok, ?_, ?_, ?_, ?_, hseeds⟩
    · show c.average_e_data = rfull.average_e_data
      rw [Gc.avgD, Gf.avgD, hmapapp]
    · rw [Gc.varD, Gf.varD, hmapapp]
    · show c.var_e_data.map _ = rfull.var_e_data.map _
      rw [Gc.varD, Gf.varD, hmapapp]
    · rw [Gc.num, Gf.num, hmapapp]
  · obtain ⟨c', hok, Gc', -, -, -, -, -, -⟩ := mergeAdd_spec Gb Ga
    refine ⟨c', _, hok, ?_, ?_, ?_⟩
    · show c'.average_e_data = rfull.average_e_data
      rw [Gc'.avgD, Gf.avgD, hmapapp, avgMat_comm]
    · rw [Gc'.varD, Gf.varD, hmapapp, varMat_comm]
    · show c'.var_e_data.map _ = rfull.var_e_data.map _
      rw [Gc'.varD, Gf.varD, hmapapp, varMat_comm]
  · intro rs st4 rc hrs hNr hrc
    obtain ⟨rc', hrc', Gr, -, -, -, -⟩ :=
      addAll_spec (mkResult_goodStart ops st4) hm rs hrs hNr
    rw [hrc] at hrc'
    obtain rfl := Option.some.inj hrc'
    obtain ⟨cab, hok1, Gab, hs1, hst1, -, -, -, -⟩ := mergeAdd_spec Ga Gb
    obtain ⟨cl, hok2, Gl, hs2, hst2, -, -, -, -⟩ := mergeAdd_spec Gab Gr
    obtain ⟨cbc, hok3, Gbc, hs3, hst3, -, -, -, -⟩ := mergeAdd_spec Gb Gr
    obtain ⟨cr, hok4, Gcr, hs4, hst4, -, -, -, -⟩ := mergeAdd_spec Ga Gbc
    refine ⟨cab, _, cl, _, cbc, _, cr, _, hok1, hok2, hok3, hok4, ?_, ?_, ?_, ?_, ?_⟩
    · show cl.average_e_data = cr.average_e_data
      rw [Gl.avgD, Gcr.avgD, List.append_assoc]
    · rw [Gl.varD, Gcr.varD, List.append_assoc]
    · rw [Gl.num, Gcr.num, List.append_assoc]
    · rw [hs2, hs4, hs1, hs3, List.append_assoc]
    · rw [hst2, hst4, hst1, hst3]
      dsimp only
      rw [add_assoc]

theorem C2_merge_partition_witness :
    (∃ c selfA, c2ra.mergeAdd c2rb = .ok c selfA ∧
      c.average_expect = c2rfull.average_expect ∧
      c.var_e_data = c2rfull.var_e_data ∧
      c.num_trajectories = c2rfull.num_trajectories) ∧
    (∃ c' selfA', c2rb.mergeAdd c2ra = .ok c' selfA' ∧
      c'.average_expect = c2rfull.average_expect) := by
  have hra : addAll (mkResult [0] plainOpts { run_time := 0, end_condition := "" })
      [(1, c2w1)] = some c2ra := by
    norm_num [c2ra, c2w1, addAll, MultiTrajResult.add, incrementTraj, addFirstTraj,
      mkResult, plainOpts, MultiTrajResult.storeStates, reduceExpect, reduceExpectAux,
      reduceExpectStep, npAddInto, dictSet, earlyFinish, List.range_succ]
  have hrb : addAll (mkResult [0] plainOpts { run_time := 0, end_condition := "" })
      [(2, c2w2)] = some c2rb := by
    norm_num [c2rb, c2w2, addAll, MultiTrajResult.add, incrementTraj, addFirstTraj,
      mkResult, plainOpts, MultiTrajResult.storeStates, reduceExpect, reduceExpectAux,
      reduceExpectStep, npAddInto, dictSet, earlyFinish, List.range_succ]
  have hfull : addAll (mkResult [0] plainOpts { run_time := 0, end_condition := "" })
      ([(1, c2w1)] ++ [(2, c2w2)]) = some c2rfull := by
    norm_num [c2rfull, c2w1, c2w2, addAll, MultiTrajResult.add, incrementTraj,
      addFirstTraj, mkResult, plainOpts, MultiTrajResult.storeStates, reduceExpect,
      reduceExpectAux, reduceExpectStep, npAddInto, dictSet, earlyFinish,
      List.range_succ]
  obtain ⟨h1, h2, h3⟩ :=
    C2_merge_partition [0] 1 1 [0] { run_time := 0, end_condition := "" }
      { run_time := 0, end_condition := "" } { run_time := 0, end_condition := "" }
      [(1, c2w1)] [(2, c2w2)] (by decide) (by decide) (by decide) rfl
      c2ra c2rb c2rfull hra hrb hfull
  obtain ⟨c, selfA, hok, ha, hv, hs, hn, -⟩ := h1
  obtain ⟨c', selfA', hok', ha', -, -⟩ := h2
  exact ⟨⟨c, selfA, hok, ha, hv, hn⟩, ⟨c', selfA', hok', ha'⟩⟩

theorem toDM_ket (v : List ℚ) : toDM (QState.ket v) = QState.oper (ketProj v) := rfl

theorem toDM_oper (M : List (List ℚ)) : toDM (QState.oper M) = QState.oper M := rfl

theorem ketProj_range {v : List ℚ} {d : ℕ} (hv : v.length = d) :
    ketProj v = (List.range d).map (fun i => (List.range d).map
      (fun j => v.getD i 0 * v.getD j 0)) := by
  unfold ketProj
  conv_lhs => rw [eq_range_map (0 : ℚ) v]
  rw [hv, map_range_map]
  apply range_map_congr
  intro i hi
  rw [map_range_map]

theorem zero_of_ketProj {v : List ℚ} {d : ℕ} (hv : v.length = d) :
    (ketProj v).map (fun row => row.map (fun _ => (0 : ℚ)))
      = (List.range d).map (fun _ => (List.range d).map (fun _ => (0 : ℚ))) := by
  rw [ketProj_range hv, map_range_map]
  apply range_map_congr
  intro i hi
  rw [map_range_map]

theorem qadd_proj {vs : List (List ℚ)} {d : ℕ} {v : List ℚ} (hv : v.length = d) :
    qadd (QState.oper (projSum vs d)) (QState.oper (ketProj v))
      = some (QState.oper (projSum (vs ++ [v]) d)) := by
  rw [ketProj_range hv]
  unfold qadd
  dsimp only
  have hsh : matShape (projSum vs d)
      = matShape ((List.range d).map (fun i => (List.range d).map
          (fun j => v.getD i 0 * v.getD j 0))) := by
    unfold matShape projSum
    rw [map_range_map, map_range_map]
    apply range_map_congr
    intro i hi
    rw [length_range_map, length_range_map]
  rw [if_pos hsh]
  refine congrArg (fun M => some (QState.oper M)) ?_
  unfold projSum
  rw [zipWith_range_map]
  apply range_map_congr
  intro i hi
  rw [zipWith_range_map]
  apply range_map_congr
  intro j hj
  simp [List.map_append, List.sum_append]

theorem ketsAt_append (ts : List Traj) (t : Traj) (k : ℕ) :
    ketsAt (ts ++ [t]) k = ketsAt ts k ++ [stateVec (t.states.getD k (.ket []))] := by
  unfold ketsAt
  rw [List.map_append]
  rfl

theorem finalVecs_append (ts : List Traj) (t : Traj) :
    finalVecs (ts ++ [t]) = finalVecs ts ++ [stateVec (t.final_state.getD (.ket []))] := by
  unfold finalVecs
  rw [List.map_append]
  rfl

theorem isKet_elim {d : ℕ} {s : QState} (h : isKetDb d s = true) :
    ∃ v, s = QState.ket v ∧ v.length = d := by
  cases s with
  | ket v => exact ⟨v, rfl, by simpa [isKetDb] using h⟩
  | oper M => simp [isKetDb] at h

theorem finalKet_elim {d : ℕ} {o : Option QState} (h : finalKetDb d o = true) :
    ∃ w, o = some (QState.ket w) ∧ w.length = d := by
  match o with
  | none => simp [finalKetDb] at h
  | some (.ket w) => exact ⟨w, rfl, by simpa [finalKetDb] using h⟩
  | some (.oper M) => simp [finalKetDb] at h

theorem addFirstTraj_raw (r : MultiTrajResult) (t : Traj) :
    (addFirstTraj r t).raw_ops = r.raw_ops := by
  unfold addFirstTraj
  dsimp only
  repeat' split
  all_goals rfl

theorem incrementTraj_raw (r : MultiTrajResult) (t : Traj) :
    (incrementTraj r t).raw_ops = r.raw_ops := by
  unfold incrementTraj
  dsimp only
  split
  · exact addFirstTraj_raw r t
  · rfl

theorem reduceStates_frame {r r' : MultiTrajResult} {t : Traj}
    (h : reduceStates r t = .ok r') : r'.opts = r.opts ∧ r'.raw_ops = r.raw_ops := by
  unfold reduceStates at h
  repeat' split at h
  all_goals try cases h
  all_goals exact ⟨rfl, rfl⟩

theorem reduceFinalState_frame {r r' : MultiTrajResult} {t : Traj}
    (h : reduceFinalState r t = .ok r') : r'.opts = r.opts ∧ r'.raw_ops = r.raw_ops := by
  unfold reduceFinalState at h
  repeat' split at h
  all_goals try cases h
  all_goals exact ⟨rfl, rfl⟩

/-- Evaluation of `add` when the options store states (and there are no
e-ops): `_increment_traj`, `_reduce_states` and `_reduce_final_state` act,
then the finish check. -/
theorem add_eval_states (r : MultiTrajResult) (s : ℕ) (t : Traj)
    (hopts : r.opts = stOpts) (hraw : r.raw_ops = []) :
    r.add s t =
      (match reduceStates (incrementTraj { r with seeds := r.seeds ++ [s] } t) t with
       | .error r' => .err r'
       | .ok rd =>
         match reduceFinalState rd t with
         | .error r' => .err r'
         | .ok re => .ok (earlyFinish re).1 (earlyFinish re).2) := by
  unfold MultiTrajResult.add
  dsimp only
  generalize hgen : incrementTraj { r with seeds := r.seeds ++ [s] } t = rb
  have hbo : rb.opts = stOpts := by
    rw [← hgen, incrementTraj_opts]
    exact hopts
  have hbr : rb.raw_ops = [] := by
    rw [← hgen, incrementTraj_raw]
    exact hraw
  rw [hbo]
  simp only [stOpts, Bool.false_eq_true, if_false]
  unfold MultiTrajResult.storeStates
  rw [hbo, hbr]
  simp only [stOpts, Option.getD_none, List.isEmpty_nil, if_true]
  cases hrs : reduceStates rb t with
  | error r' => rfl
  | ok rd =>
    dsimp only
    obtain ⟨ho, hr⟩ := reduceStates_frame hrs
    rw [ho, hbo, hr, hbr]
    simp only [stOpts, Option.getD_none, List.isEmpty_nil, Bool.true_or, if_true]
    cases hrf : reduceFinalState rd t with
    | error r' => rfl
    | ok re =>
      dsimp only
      obtain ⟨-, hre⟩ := reduceFinalState_frame hrf
      rw [hre, hr, hbr]
      simp only [List.isEmpty_nil, if_true]

/-- `_reduce_states` on an aggregation whose `K` state sums accumulate the
projectors of `ts`, fed a trajectory of `K` dimension-`d` kets: each ket is
converted to its projector and added elementwise. -/
theorem reduceStates_spec {d K : ℕ} {ts : List Traj} {r : MultiTrajResult}
    (hss : r.sum_states = some ((List.range K).map (fun k =>
      QState.oper (projSum (ketsAt ts k) d))))
    {t : Traj} (hlen : t.states.length = K)
    (hkets : ∀ s ∈ t.states, isKetDb d s = true) :
    reduceStates r t = .ok { r with sum_states := some ((List.range K).map (fun k =>
      QState.oper (projSum (ketsAt (ts ++ [t]) k) d))) } := by
  unfold reduceStates
  rw [hss]
  dsimp only
  have hzip : List.zipWith (fun accu s => qadd accu (toDM s))
      ((List.range K).map (fun k => QState.oper (projSum (ketsAt ts k) d))) t.states
      = (List.range K).map (fun k =>
          some (QState.oper (projSum (ketsAt (ts ++ [t]) k) d))) := by
    rw [zipWith_getD_range_map _ _ (QState.ket []) t.states hlen]
    apply range_map_congr
    intro k hk
    have hmem : t.states.getD k (QState.ket []) ∈ t.states := by
      rw [List.getD_eq_getElem _ _ (by omega)]
      exact List.getElem_mem _
    obtain ⟨v, hv, hvd⟩ := isKet_elim (hkets _ hmem)
    rw [hv, toDM_ket, qadd_proj hvd, ketsAt_append, hv]
    rfl
  rw [hzip, (map_range_map _ some K).symm, allSome_map_some]

/-- `_reduce_final_state` adds the projector of the trajectory's ket final
state onto the accumulated projector sum. -/
theorem reduceFinalState_spec {d : ℕ} {ts : List Traj} {r : MultiTrajResult}
    (hsf : r.sum_final_states = some (QState.oper (projSum (finalVecs ts) d)))
    {t : Traj} {w : List ℚ} (hfw : t.final_state = some (.ket w)) (hwd : w.length = d) :
    reduceFinalState r t = .ok { r with
      sum_final_states := some (QState.oper (projSum (finalVecs (ts ++ [t])) d)) } := by
  unfold reduceFinalState
  rw [hfw, hsf]
  dsimp only
  rw [toDM_ket, qadd_proj hwd]
  rw [finalVecs_append ts t, hfw]
  rfl

theorem addK_step_spec {d K : ℕ} {ts : List Traj} {r : MultiTrajResult}
    (G : KetRun d K ts r) (hts : ts ≠ []) {t : Traj} (hNt : NiceK d K t) (s : ℕ) :
    ∃ r', r.add s t = .ok r' .inf ∧ KetRun d K (ts ++ [t]) r' ∧
      r'.seeds = r.seeds ++ [s] ∧ r'.stats = r.stats := by
  obtain ⟨hexp, hlen, hkets, hfin⟩ := hNt
  obtain ⟨w, hfw, hwd⟩ := finalKet_elim hfin
  obtain ⟨ro, oo, τo, trjo, no, sdo, sso, sfo, seo, s2o, tto, ao, vo, runo, tno, eno, po,
    sto⟩ := r
  obtain ⟨g1, g2, g3, g4, g5, g6, g7, g8, g9, g10, g11, g12⟩ := G
  dsimp only at g1 g2 g3 g4 g5 g6 g7 g8 g9 g10 g11 g12
  subst g1 g2 g3 g4 g5 g6 g7 g8 g9 g10 g11 g12
  rw [add_eval_states _ s t rfl rfl]
  rw [incrementTraj_pos (by simpa using hts) t]
  dsimp only
  rw [reduceStates_spec rfl hlen hkets]
  dsimp only
  rw [reduceFinalState_spec rfl hfw hwd]
  dsimp only
  rw [earlyFinish_noEnd rfl]
  refine ⟨_, rfl, ?_, rfl, rfl⟩
  exact ⟨rfl, rfl, rfl, by simp, rfl, rfl, rfl, rfl, rfl, rfl, rfl, rfl⟩

theorem addK_first_spec {d K : ℕ} (hK : 1 ≤ K) {r : MultiTrajResult}
    (G : KetStart r) {t : Traj} (hNt : NiceK d K t) (s : ℕ) :
    ∃ r', r.add s t = .ok r' .inf ∧ KetRun d K [t] r' ∧
      r'.seeds = r.seeds ++ [s] ∧ r'.stats = r.stats := by
  obtain ⟨hexp, hlen, hkets, hfin⟩ := hNt
  obtain ⟨w, hfw, hwd⟩ := finalKet_elim hfin
  obtain ⟨ro, oo, τo, trjo, no, sdo, sso, sfo, seo, s2o, tto, ao, vo, runo, tno, eno, po,
    sto⟩ := r
  obtain ⟨g1, g2, g3, g4, g5, g6, g7, g8, g9⟩ := G
  dsimp only at g1 g2 g3 g4 g5 g6 g7 g8 g9
  subst g1 g2 g3 g4 g5 g6 g7 g8 g9
  rw [add_eval_states _ s t rfl rfl]
  rw [incrementTraj_zero rfl t]
  unfold addFirstTraj
  dsimp only
  rw [hexp, hfw]
  dsimp only
  simp only [stOpts, Bool.false_eq_true, if_false]
  have hSt : ¬(t.states.isEmpty = true) := by
    intro hc
    rw [List.isEmpty_iff.mp hc] at hlen
    simp at hlen
    omega
  rw [if_neg hSt]
  have hzero : t.states.map (fun s => qzeroLike (toDM s))
      = (List.range K).map (fun k =>
          QState.oper (projSum (ketsAt ([] : List Traj) k) d)) := by
    conv_lhs => rw [eq_range_map (QState.ket []) t.states]
    rw [hlen, map_range_map]
    apply range_map_congr
    intro k hk
    have hmem : t.states.getD k (QState.ket []) ∈ t.states := by
      rw [List.getD_eq_getElem _ _ (by omega)]
      exact List.getElem_mem _
    obtain ⟨v, hv, hvd⟩ := isKet_elim (hkets _ hmem)
    rw [hv, toDM_ket]
    dsimp only [qzeroLike]
    rw [zero_of_ketProj hvd]
    rfl
  rw [hzero]
  have hzf : qzeroLike (toDM (QState.ket w))
      = QState.oper (projSum (finalVecs ([] : List Traj)) d) := by
    rw [toDM_ket]
    dsimp only [qzeroLike]
    rw [zero_of_ketProj hwd]
    rfl
  rw [hzf]
  rw [reduceStates_spec rfl hlen hkets]
  dsimp only
  rw [reduceFinalState_spec rfl hfw hwd]
  dsimp only
  rw [earlyFinish_noEnd rfl]
  refine ⟨_, rfl, ?_, rfl, rfl⟩
  exact ⟨rfl, rfl, rfl, rfl, rfl, rfl, rfl, rfl, rfl, rfl, rfl, rfl⟩

theorem addAllK {d K : ℕ} :
    ∀ (ps : List (ℕ × Traj)) {ts : List Traj} {r : MultiTrajResult},
      KetRun d K ts r → ts ≠ [] → (∀ p ∈ ps, NiceK d K p.2) →
      ∃ r', addAll r ps = some r' ∧ KetRun d K (ts ++ ps.map Prod.snd) r' := by
  intro ps
  induction ps with
  | nil =>
    intro ts r G hts hN
    exact ⟨r, rfl, by simpa using G⟩
  | cons p rest ih =>
    intro ts r G hts hN
    obtain ⟨p1, p2⟩ := p
    obtain ⟨r1, hadd, G1, -, -⟩ :=
      addK_step_spec G hts (hN (p1, p2) (List.mem_cons_self _ rest)) p1
    obtain ⟨r', hall, G'⟩ := ih G1 (by simp)
      (fun q hq => hN q (List.mem_cons_of_mem _ hq))
    refine ⟨r', ?_, ?_⟩
    · show addAll r ((p1, p2) :: rest) = some r'
      unfold addAll
      rw [hadd]
      exact hall
    · have he : ts ++ [p2] ++ rest.map Prod.snd = ts ++ ((p1, p2) :: rest).map Prod.snd := by
        simp
      rw [← he]
      exact G'

theorem mkResult_ketStart (st : Stats) : KetStart (mkResult [] stOpts st) :=
  ⟨rfl, rfl, rfl, rfl, rfl, rfl, rfl, rfl, rfl⟩

/-- C9: with state storing enabled (here: `store_states` unset and no
e-ops, so storing is on), every state entering the accumulators is first
converted to density-matrix form — a ket becomes its projector, an operator
is kept as-is — and the accumulated sums are the operator sums of those
projectors; `average_states` and `average_final_state` are exactly those
sums divided entrywise by `num_trajectories`. -/
theorem C9_state_accumulation
    (d K : ℕ) (hK : 1 ≤ K) (st : Stats) (ps : List (ℕ × Traj)) (hps : ps ≠ [])
    (hN : ∀ p ∈ ps, NiceK d K p.2)
    {r : MultiTrajResult} (hrun : addAll (mkResult [] stOpts st) ps = some r) :
    (∀ v : List ℚ, toDM (QState.ket v) = QState.oper (ketProj v)) ∧
    (∀ M : List (List ℚ), toDM (QState.oper M) = QState.oper M) ∧
    r.raw_ops = [] ∧ r.num_trajectories = ps.length ∧
    r.sum_states = some ((List.range K).map (fun k =>
      QState.oper (projSum (ketsAt (ps.map Prod.snd) k) d))) ∧
    r.sum_final_states = some (QState.oper (projSum (finalVecs (ps.map Prod.snd)) d)) ∧
    r.average_states = some ((List.range K).map (fun k =>
      QState.oper ((projSum (ketsAt (ps.map Prod.snd) k) d).map
        (fun row => row.map (fun x => x / (r.num_trajectories : ℚ)))))) ∧
    r.average_final_state = some (QState.oper
      ((projSum (finalVecs (ps.map Prod.snd)) d).map
        (fun row => row.map (fun x => x / (r.num_trajectories : ℚ))))) := by
  obtain ⟨p, rest, rfl⟩ : ∃ p rest, ps = p :: rest := by
    cases ps with
    | nil => exact absurd rfl hps
    | cons p rest => exact ⟨p, rest, rfl⟩
  obtain ⟨p1, p2⟩ := p
  obtain ⟨r1, hadd, G1, -, -⟩ :=
    addK_first_spec hK (mkResult_ketStart st)
      (hN (p1, p2) (List.mem_cons_self _ rest)) p1
  obtain ⟨r', hall, G'⟩ := addAllK rest G1 (by simp)
    (fun q hq => hN q (List.mem_cons_of_mem _ hq))
  have hrun' : addAll (mkResult [] stOpts st) ((p1, p2) :: rest) = some r' := by
    unfold addAll
    rw [hadd]
    exact hall
  rw [hrun] at hrun'
  obtain rfl := Option.some.inj hrun'
  have hts : [p2] ++ rest.map Prod.snd = ((p1, p2) :: rest).map Prod.snd := by simp
  rw [hts] at G'
  refine ⟨fun v => rfl, fun M => rfl, G'.raw, by simp [G'.num], G'.sumS, G'.sumF, ?_, ?_⟩
  · show r.sum_states.map _ = _
    rw [G'.sumS]
    simp only [Option.map_some']
    refine congrArg some ?_
    rw [map_range_map]
    apply range_map_congr
    intro k hk
    rfl
  · show r.sum_final_states.map _ = _
    rw [G'.sumF]
    rfl

theorem C9_state_accumulation_witness :
    addAll (mkResult [] stOpts { run_time := 0, end_condition := "" })
        [(1, c9t1), (2, c9t2)] = some c9res ∧
    toDM (QState.ket [1, 0]) = QState.oper (ketProj [1, 0]) ∧
    c9res.sum_states = some ((List.range 1).map (fun k =>
      QState.oper (projSum (ketsAt ([(1, c9t1), (2, c9t2)].map Prod.snd) k) 2))) ∧
    c9res.average_states = some ((List.range 1).map (fun k =>
      QState.oper ((projSum (ketsAt ([(1, c9t1), (2, c9t2)].map Prod.snd) k) 2).map
        (fun row => row.map (fun x => x / (c9res.num_trajectories : ℚ)))))) := by
  have hrun : addAll (mkResult [] stOpts { run_time := 0, end_condition := "" })
      [(1, c9t1), (2, c9t2)] = some c9res := by
    norm_num [c9res, c9fb, c9t1, c9t2, addAll, MultiTrajResult.add, incrementTraj,
      addFirstTraj, mkResult, stOpts, MultiTrajResult.storeStates, reduceStates,
      reduceFinalState, reduceExpect, reduceExpectAux, earlyFinish, qadd, toDM,
      QState.qtype, QState.proj, qzeroLike, matShape, allSome]
  obtain ⟨h1, h2, h3, h4, h5, h6, h7, h8⟩ :=
    C9_state_accumulation 2 1 (by decide) { run_time := 0, end_condition := "" }
      [(1, c9t1), (2, c9t2)] (by decide) (by decide) hrun
  exact ⟨hrun, h1 [1, 0], h5, h7⟩

end QutipResult
